import Mathlib

/-!
Verification of the streaming multipart/form-data parser of `libHttp`
(`src/http_parser/multipart_parser.h`).

The parser is shallowly embedded: bytes are `Nat` (values 0..255), buffers are
`List Nat`, the parser object is the structure `Parser`, and the eight C
callbacks are replaced by an event trace (`MEvent`): each invocation of a
callback is recorded as one event carrying the bytes of the bslice that the
callback received.  `size_t` index arithmetic that can wrap in C
(`index - 1 == boundarySize` and friends) is modelled by casting to `Int`,
which agrees with the C semantics for all physically realizable sizes.
The `UNMARKED = (size_t)-1` sentinel of the three marks is modelled by
`Option Nat` (`none` = unmarked).

The `for` loop of `feed` can move its index backwards by one (the
"reconsider the current character" step of `processPartData`), so the loop
is written with an explicit fuel parameter; `feed` supplies `2*len + 2`
fuel, which is proved sufficient where a proof needs it.  Running out of
fuel behaves like falling off the end of the loop, which keeps the
function total without changing its value at sufficient fuel.
-/

/-- Byte codes used by the parser (`CR=13, LF=10, SPACE=32, HYPHEN=45, COLON=58`). -/
def bCR : Nat := 13

/-- Byte code of LF. -/
def bLF : Nat := 10

/-- Byte code of SPACE. -/
def bSPACE : Nat := 32

/-- Byte code of HYPHEN. -/
def bHYPHEN : Nat := 45

/-- Byte code of COLON. -/
def bCOLON : Nat := 58

/-- `buffer[i]` for a byte buffer; out-of-range reads (which the C code never
performs on the paths we model) default to 0. -/
def byteAt (l : List Nat) (i : Nat) : Nat := l.getD i 0

/-- The half-open bslice `buffer[a..b)`, the bytes a data callback receives for
`(buffer, start=a, end=b)`. -/
def bslice (l : List Nat) (a b : Nat) : List Nat := (l.take b).drop a

/-- The parser states of the C `enum State`. -/
inductive MState where
  | ERROR
  | START
  | START_BOUNDARY
  | HEADER_FIELD_START
  | HEADER_FIELD
  | HEADER_VALUE_START
  | HEADER_VALUE
  | HEADER_VALUE_ALMOST_DONE
  | HEADERS_ALMOST_DONE
  | PART_DATA_START
  | PART_DATA
  | PART_END
  | END
  | ENDEEND
deriving DecidableEq, Repr

/-- One callback invocation.  Data-carrying events record the byte bslice the
callback received; `partData` also records whether the source buffer passed to
the callback was the lookbehind buffer (`true`) or the live input buffer
(`false`). -/
inductive MEvent where
  | partBegin
  | headerField (bytes : List Nat)
  | headerValue (bytes : List Nat)
  | headerEnd
  | headersEnd
  | partData (fromLookbehind : Bool) (bytes : List Nat)
  | partEnd
  | msgEnd
deriving DecidableEq, Repr

/-- The parser object.  `boundary` is the full delimiter `"\r\n--" ++ token`;
`lookbehind` is the fixed-capacity scratch buffer (its length plays the role of
the C `lookbehindSize` field, which always equals the allocation size);
`flagPart`/`flagLast` are the two bits of the C `_flags` bitset; the three
marks use `none` for `UNMARKED`. -/
structure Parser where
  boundary : List Nat
  lookbehind : List Nat
  mstate : MState
  flagPart : Bool
  flagLast : Bool
  index : Nat
  headerFieldMark : Option Nat
  headerValueMark : Option Nat
  partDataMark : Option Nat
  errorReason : String
deriving DecidableEq, Repr

/-- `setError`: move to the terminal `ERROR` state recording a static message. -/
def setError (p : Parser) (msg : String) : Parser :=
  { p with mstate := MState.ERROR, errorReason := msg }

/-- `lower`: `c | 0x20`. -/
def lower (c : Nat) : Nat := c ||| 32

/-- `isBoundaryChar`: the 256-entry `boundaryIndex` table built by
`indexBoundary` is exactly the membership test "this byte occurs in the
boundary string". -/
def isBoundaryChar (bnd : List Nat) (c : Nat) : Bool := bnd.contains c

/-- `callback(cb, buffer, start, end, allowEmpty)` for a data callback: the
invocation is suppressed when the bslice is empty unless `allowEmpty`;
otherwise the event carrying `buffer[start..end)` is recorded. -/
def emitCB (mk : List Nat → MEvent) (buffer : List Nat) (s e : Nat)
    (allowEmpty : Bool) : List MEvent :=
  if s = e ∧ allowEmpty = false then [] else [mk (bslice buffer s e)]

/-- `dataCallback`: when the mark is set, either deliver `buffer[mark..i)` and
clear the mark (`clear = true`), or deliver `buffer[mark..bufferLen)` and leave
the mark open at offset 0 (`clear = false`, the end-of-call flush). -/
def dataCallback (mk : List Nat → MEvent) (mark : Option Nat)
    (buffer : List Nat) (i len : Nat) (clear allowEmpty : Bool) :
    Option Nat × List MEvent :=
  match mark with
  | none => (none, [])
  | some m =>
    if clear then (none, emitCB mk buffer m i allowEmpty)
    else (some 0, emitCB mk buffer m len allowEmpty)

/-- The boyer-moore-derived skip loop at the head of `processPartData`: while a
whole boundary-length window fits in the buffer and the byte at the window's
last position is not a boundary byte, jump the window.  Structural fuel keeps
the function total (the C loop diverges only for an empty boundary, which no
configured parser has); callers pass fuel `len + 1`, which is sufficient since
every iteration advances `i` by `boundary.length ≥ 1`. -/
def skipLoopF (fuel : Nat) (bnd buffer : List Nat) (len i : Nat) : Nat :=
  match fuel with
  | 0 => i
  | fuel + 1 =>
    if bnd.length = 0 then i
    else if i + bnd.length ≤ len then
      if isBoundaryChar bnd (byteAt buffer (i + (bnd.length - 1))) then i
      else skipLoopF fuel bnd buffer len (i + bnd.length)
    else i

/-- The skip loop with its canonical fuel. -/
def skipLoop (bnd buffer : List Nat) (len i : Nat) : Nat :=
  skipLoopF (len + 1) bnd buffer len i

/-- The boundary-matching `if`/`else if` chain of `processPartData` on one
byte `c`.  The result is `(parser', events, ret)`; `ret = true` models the C
`return` statements inside the chain (part-separator confirmed by LF, or
end-of-message confirmed by LF in the dead `index - boundarySize == 3`
branch), which skip the trailing lookbehind-write / replay block. -/
def ppdMatch (p : Parser) (buffer : List Nat) (len i c : Nat) :
    Parser × List MEvent × Bool :=
  let bs := p.boundary.length
  if p.index < bs then
    if byteAt p.boundary p.index = c then
      if p.index = 0 then
        let fl := dataCallback (MEvent.partData false) p.partDataMark buffer i len true false
        ({ p with partDataMark := fl.1, index := p.index + 1 }, fl.2, false)
      else ({ p with index := p.index + 1 }, [], false)
    else ({ p with index := 0 }, [], false)
  else if p.index = bs then
    if c = bCR then ({ p with index := p.index + 1, flagPart := true }, [], false)
    else if c = bHYPHEN then
      ({ p with index := p.index + 1, flagLast := true }, [], false)
    else ({ p with index := 0 }, [], false)
  else if (p.index : Int) - 1 = (bs : Int) then
    if p.flagPart then
      if c = bLF then
        ({ p with index := 0, flagPart := false, mstate := MState.HEADER_FIELD_START },
         [MEvent.partEnd, MEvent.partBegin], true)
      else ({ p with index := 0 }, [], false)
    else if p.flagLast then
      if c = bHYPHEN then
        ({ p with mstate := MState.END }, [MEvent.partEnd, MEvent.msgEnd], false)
      else ({ p with index := 0 }, [], false)
    else ({ p with index := 0 }, [], false)
  else if (p.index : Int) - 2 = (bs : Int) then
    if c = bCR then ({ p with index := p.index + 1 }, [], false)
    else ({ p with index := 0 }, [], false)
  else if (p.index : Int) - (bs : Int) = 3 then
    if c = bLF then
      ({ p with index := 0, mstate := MState.END },
       [MEvent.partEnd, MEvent.msgEnd], true)
    else ({ p with index := 0 }, [], false)
  else (p, [], false)

/-- The trailing block of `processPartData`: when the match index is positive
the current byte is appended to the lookbehind buffer at `index - 1`
(bounds-checked; violation sets the terminal error instead of writing); when a
previously advanced match attempt (`prevIndex > 0`) has just reset, the
captured lookbehind bytes are replayed through `onPartData` with the
lookbehind buffer as source, the part-data mark reopens at the current
position, and the current byte is reconsidered (`i--`, so `nextI = i`). -/
def ppdFinish (prevIndex i c : Nat) (q : Parser) (evs : List MEvent) :
    Parser × Nat × List MEvent :=
  if 0 < q.index then
    if (q.lookbehind.length : Int) ≤ (q.index : Int) - 1 then
      (setError q "Parser bug: index overflows lookbehind buffer. Please send bug report with input file attached.",
       i + 1, evs)
    else if (q.index : Int) - 1 < 0 then
      (setError q "Parser bug: index underflows lookbehind buffer. Please send bug report with input file attached.",
       i + 1, evs)
    else
      ({ q with lookbehind := q.lookbehind.set (q.index - 1) c }, i + 1, evs)
  else if 0 < prevIndex then
    ({ q with partDataMark := some i }, i,
     evs ++ emitCB (MEvent.partData true) q.lookbehind 0 prevIndex false)
  else (q, i + 1, evs)

/-- `processPartData`.  Arguments `i0`/`c0` are the loop position and current
byte at entry; the result is `(parser', nextI, events)` where `nextI` is the
value of the loop index for the next iteration of the `feed` loop, i.e. the C
`i` after the `for` loop's `i++` (so the "reconsider the current character"
case `i--` yields `nextI = i0`). -/
def processPartData (p : Parser) (buffer : List Nat) (len i0 c0 : Nat) :
    Parser × Nat × List MEvent :=
  let prevIndex := p.index
  let i := if p.index = 0 then skipLoop p.boundary buffer len i0 else i0
  if p.index = 0 ∧ i = len then
    (p, len + 1, [])
  else
    let c := if p.index = 0 then byteAt buffer i else c0
    let m := ppdMatch p buffer len i c
    if m.2.2 then (m.1, i + 1, m.2.1)
    else ppdFinish prevIndex i c m.1 m.2.1

/-- Result of one iteration of the `feed` loop body: continue at position
`nextI`, or return `r` from `feed` immediately (no end-of-call flush). -/
inductive StepRes where
  | next (nextI : Nat)
  | stop (r : Nat)
deriving DecidableEq, Repr

/-- The `START_BOUNDARY` case of the `feed` switch (also entered from `START`,
which falls through after zeroing the index). -/
def stepStartBoundary (p : Parser) (i c : Nat) : Parser × List MEvent × StepRes :=
  let bs := p.boundary.length
  if (p.index : Int) = (bs : Int) - 2 then
    if c ≠ bCR then
      (setError p "Malformed. Expected CR after boundary.", [], StepRes.stop i)
    else ({ p with index := p.index + 1 }, [], StepRes.next (i + 1))
  else if (p.index : Int) - 1 = (bs : Int) - 2 then
    if c ≠ bLF then
      (setError p "Malformed. Expected LF after boundary CR.", [], StepRes.stop i)
    else ({ p with index := 0, mstate := MState.HEADER_FIELD_START },
          [MEvent.partBegin], StepRes.next (i + 1))
  else if c ≠ byteAt p.boundary (p.index + 2) then
    (setError p "Malformed. Found different boundary data than the given one.", [],
     StepRes.stop i)
  else ({ p with index := p.index + 1 }, [], StepRes.next (i + 1))

/-- The `HEADER_FIELD` case of the `feed` switch (also entered from
`HEADER_FIELD_START`, which marks the field start and zeroes the index). -/
def stepHeaderField (p : Parser) (buffer : List Nat) (len i c : Nat) :
    Parser × List MEvent × StepRes :=
  if c = bCR then
    ({ p with headerFieldMark := none, mstate := MState.HEADERS_ALMOST_DONE }, [],
     StepRes.next (i + 1))
  else
    let q := { p with index := p.index + 1 }
    if c = bHYPHEN then (q, [], StepRes.next (i + 1))
    else if c = bCOLON then
      if q.index = 1 then
        (setError q "Malformed first header name character.", [], StepRes.stop i)
      else
        let fl := dataCallback MEvent.headerField q.headerFieldMark buffer i len true false
        ({ q with headerFieldMark := fl.1, mstate := MState.HEADER_VALUE_START },
         fl.2, StepRes.next (i + 1))
    else
      let cl := lower c
      if cl < 97 ∨ 122 < cl then
        (setError q "Malformed header name.", [], StepRes.stop i)
      else (q, [], StepRes.next (i + 1))

/-- The `HEADER_VALUE` case of the `feed` switch (also entered from
`HEADER_VALUE_START`, which marks the value start on the first non-space). -/
def stepHeaderValue (p : Parser) (buffer : List Nat) (len i c : Nat) :
    Parser × List MEvent × StepRes :=
  if c = bCR then
    let fl := dataCallback MEvent.headerValue p.headerValueMark buffer i len true true
    ({ p with headerValueMark := fl.1, mstate := MState.HEADER_VALUE_ALMOST_DONE },
     fl.2 ++ [MEvent.headerEnd], StepRes.next (i + 1))
  else (p, [], StepRes.next (i + 1))

/-- One iteration of the `feed` loop body: the `switch (this->_state)` on the
byte `c = buffer[i]`.  Fallthrough cases (`START`, `HEADER_FIELD_START`,
`HEADER_VALUE_START`, `PART_DATA_START`) first perform their own statements
and then run the following case on the same byte, exactly as in the C. -/
def stepByte (p : Parser) (buffer : List Nat) (len i c : Nat) :
    Parser × List MEvent × StepRes :=
  match p.mstate with
  | MState.ERROR => (p, [], StepRes.stop i)
  | MState.START =>
      stepStartBoundary { p with index := 0, mstate := MState.START_BOUNDARY } i c
  | MState.START_BOUNDARY => stepStartBoundary p i c
  | MState.HEADER_FIELD_START =>
      stepHeaderField
        { p with mstate := MState.HEADER_FIELD, headerFieldMark := some i, index := 0 }
        buffer len i c
  | MState.HEADER_FIELD => stepHeaderField p buffer len i c
  | MState.HEADER_VALUE_START =>
      if c = bSPACE then (p, [], StepRes.next (i + 1))
      else
        stepHeaderValue
          { p with headerValueMark := some i, mstate := MState.HEADER_VALUE }
          buffer len i c
  | MState.HEADER_VALUE => stepHeaderValue p buffer len i c
  | MState.HEADER_VALUE_ALMOST_DONE =>
      if c ≠ bLF then
        (setError p "Malformed header value: LF expected after CR", [], StepRes.stop i)
      else ({ p with mstate := MState.HEADER_FIELD_START }, [], StepRes.next (i + 1))
  | MState.HEADERS_ALMOST_DONE =>
      if c ≠ bLF then
        (setError p "Malformed header ending: LF expected after CR", [], StepRes.stop i)
      else ({ p with mstate := MState.PART_DATA_START }, [MEvent.headersEnd],
            StepRes.next (i + 1))
  | MState.PART_DATA_START =>
      let r := processPartData
        { p with mstate := MState.PART_DATA, partDataMark := some i } buffer len i c
      (r.1, r.2.2, StepRes.next r.2.1)
  | MState.PART_DATA =>
      let r := processPartData p buffer len i c
      (r.1, r.2.2, StepRes.next r.2.1)
  | _ => (p, [], StepRes.stop i)

/-- Exit status of the `feed` loop: an early `return r` from inside the loop,
or normal loop completion at final index `iFin` (followed by the end-of-call
flush in `feed`). -/
inductive FeedOut where
  | early (r : Nat)
  | done (iFin : Nat)
deriving DecidableEq, Repr

/-- The `for (i = 0; i < len; i++)` loop of `feed`, with structural fuel
(running out of fuel acts like normal loop completion; `feed` passes
sufficient fuel). -/
def feedLoop (fuel : Nat) (p : Parser) (buffer : List Nat) (len i : Nat) :
    Parser × List MEvent × FeedOut :=
  match fuel with
  | 0 => (p, [], FeedOut.done i)
  | fuel + 1 =>
    if i < len then
      let c := byteAt buffer i
      let s := stepByte p buffer len i c
      match s.2.2 with
      | StepRes.stop r => (s.1, s.2.1, FeedOut.early r)
      | StepRes.next j =>
        let t := feedLoop fuel s.1 buffer len j
        (t.1, s.2.1 ++ t.2.1, t.2.2)
    else (p, [], FeedOut.done i)

/-- The end-of-call flush: the three `dataCallback(..., false)` calls after the
loop, delivering any open mark up to the end of the buffer and leaving it open
at offset 0. -/
def flushEnd (p : Parser) (buffer : List Nat) (iFin len : Nat) :
    Parser × List MEvent :=
  let f := dataCallback MEvent.headerField p.headerFieldMark buffer iFin len false false
  let v := dataCallback MEvent.headerValue p.headerValueMark buffer iFin len false false
  let d := dataCallback (MEvent.partData false) p.partDataMark buffer iFin len false false
  ({ p with headerFieldMark := f.1, headerValueMark := v.1, partDataMark := d.1 },
   f.2 ++ v.2 ++ d.2)

/-- `feed(buffer, len)`: returns the final parser, the trace of callback
invocations, and the C return value. -/
def feed (p : Parser) (buffer : List Nat) : Parser × List MEvent × Nat :=
  let len := buffer.length
  if p.mstate = MState.ERROR ∨ len = 0 then (p, [], 0)
  else
    match feedLoop (2 * len + 2) p buffer len 0 with
    | (q, evs, FeedOut.early r) => (q, evs, r)
    | (q, evs, FeedOut.done iFin) =>
      let fl := flushEnd q buffer iFin len
      (fl.1, evs ++ fl.2, len)

/-- Feed a sequence of buffers, concatenating the event traces. -/
def feedAll (p : Parser) (chunks : List (List Nat)) : Parser × List MEvent :=
  match chunks with
  | [] => (p, [])
  | b :: rest =>
    let r := feed p b
    let t := feedAll r.1 rest
    (t.1, r.2.1 ++ t.2)

/-- `reset()`: the state every `MultipartParser()` starts in and `reset()`
returns to (the C method mutates in place; it ignores the previous state, so
it is a constant). -/
def resetParser : Parser :=
  { boundary := []
    lookbehind := []
    mstate := MState.ERROR
    flagPart := false
    flagLast := false
    index := 0
    headerFieldMark := none
    headerValueMark := none
    partDataMark := none
    errorReason := "Parser uninitialized." }

/-- `setBoundary(boundary)`: reset, then configure `"\r\n--" ++ boundary`,
allocate the lookbehind buffer of capacity `boundarySize + 8`, and enter
`START`. -/
def setBoundary (tok : List Nat) : Parser :=
  let bnd := [bCR, bLF, bHYPHEN, bHYPHEN] ++ tok
  { boundary := bnd
    lookbehind := List.replicate (bnd.length + 8) 0
    mstate := MState.START
    flagPart := false
    flagLast := false
    index := 0
    headerFieldMark := none
    headerValueMark := none
    partDataMark := none
    errorReason := "No error." }

/-- `std::string::find(c, k0)`: the absolute position of the first occurrence
of `c` at or after `k0`, `none` for `npos`. -/
def strFindFrom (s : List Char) (c : Char) (k0 : Nat) : Option Nat :=
  ((s.drop k0).findIdx? (· = c)).map (· + k0)

/-- The loop of `getFileInfos`.  `temp` is `_temp`; the result is
`(ret, itemName, itemFilename, itemIsFile)`, or `none` when the C code would
throw `std::out_of_range` from `substr`.  Exact `size_t`/`int` conversions of
the C are mirrored: `npos` comparisons (`find(';') > 0` is true for `npos`),
`npos + 2` wrapping to `1`, and negative `int` counts converting back to huge
`size_t` values (take the whole remainder).  Structural fuel; the initial
fuel `temp.length + 1` is sufficient because each iteration shortens `_temp`. -/
def gfiLoop (fuel : Nat) (temp itemName itemFilename : List Char)
    (itemIsFile : Bool) : Option (Nat × List Char × List Char × Bool) :=
  match fuel with
  | 0 => none
  | fuel + 1 =>
    let semi := strFindFrom temp ';' 0
    if semi = some 0 then some (1, itemName, itemFilename, itemIsFile)
    else
      -- pos1 = find('='); name = substr(0, pos1)
      let name := match strFindFrom temp '=' 0 with
        | some k => temp.take k
        | none => temp
      -- pos2 = find('"'); pos3 = find('"', pos2+1);
      -- nameVal = substr(pos2+1, pos3-pos2-1)
      let start := match strFindFrom temp '\"' 0 with
        | some k => k + 1
        | none => 0
      let nameVal := match strFindFrom temp '\"' start with
        | some k3 => (temp.drop start).take (k3 - start)
        | none => temp.drop start
      -- _temp = _temp.substr(_temp.find(';') + 2); npos + 2 wraps to 1
      let nextPos : Nat := match semi with
        | some k => k + 2
        | none => 1
      let continueWith : List Char → Option (Nat × List Char × List Char × Bool) :=
        fun nm =>
          if nextPos ≤ temp.length then
            gfiLoop fuel (temp.drop nextPos) nm itemFilename itemIsFile
          else none
      if name = "name".toList then continueWith nameVal
      else if name = "filename".toList then
        some (0, itemName, nameVal, true)
      else continueWith itemName

/-- `getFileInfos(key, value, itemName, itemFilename, itemIsFile)`: parse a
`Content-Disposition`-style header value; `key` is unused by the C code.
The reference parameters' entry values are the `itemName`/`itemFilename`/
`itemIsFile` arguments; the result models `(return value, itemName,
itemFilename, itemIsFile)` on exit (`none` = `std::out_of_range` thrown). -/
def getFileInfos (key value itemName itemFilename : List Char)
    (itemIsFile : Bool) : Option (Nat × List Char × List Char × Bool) :=
  let start : Nat := match strFindFrom value ';' 0 with
    | some k => k + 2
    | none => 1
  if start ≤ value.length then
    gfiLoop ((value.drop start).length + 1) (value.drop start)
      itemName itemFilename itemIsFile
  else none

/-- `hasError()`. -/
def hasError (p : Parser) : Bool := p.mstate = MState.ERROR

/-- `succeeded()`. -/
def succeeded (p : Parser) : Bool := p.mstate = MState.END

/-- `stopped()`. -/
def stopped (p : Parser) : Bool :=
  p.mstate = MState.ERROR ∨ p.mstate = MState.END

/-- `getErrorMessage()`. -/
def getErrorMessage (p : Parser) : String := p.errorReason

/-!
Reference byte machine.  To reason about `feed` under arbitrary chunking we
use a chunk-agnostic machine `S` with the same states, match index, flags and
lookbehind as the parser, but with the three buffer-relative marks replaced
by explicit byte accumulators and without the boyer-moore skip.  `S` consumes
one byte at a time; the "reconsider the current character" case of the
part-data scanner becomes a step that requests the byte again.  The
refinement theorems below show that a `feed` run over any chunking produces
the same normalized event trace as the `S` run over the concatenated bytes.
-/

/-- The reference machine state. -/
structure SState where
  boundary : List Nat
  lookbehind : List Nat
  mstate : MState
  flagPart : Bool
  flagLast : Bool
  index : Nat
  fieldAcc : List Nat
  valueAcc : List Nat
  dataAcc : List Nat
deriving DecidableEq, Repr

/-- Error transition of the reference machine (the diagnostic string is not
tracked; only the state matters for the refinement). -/
def sSetError (s : SState) : SState := { s with mstate := MState.ERROR }

/-- Emit a data event only when its payload is non-empty (the
`start == end` suppression of `callback`). -/
def evIf (mk : List Nat → MEvent) (b : List Nat) : List MEvent :=
  if b = [] then [] else [mk b]

/-- Reference mirror of `ppdMatch`: the boundary-matching chain on one byte,
with the part-data accumulator taking the role of the mark.  Pending data is
emitted at the moment a boundary is confirmed. -/
def sPpdMatch (s : SState) (c : Nat) : SState × List MEvent × Bool :=
  let bs := s.boundary.length
  if s.index < bs then
    if byteAt s.boundary s.index = c then
      ({ s with index := s.index + 1 }, [], false)
    else ({ s with index := 0 }, [], false)
  else if s.index = bs then
    if c = bCR then ({ s with index := s.index + 1, flagPart := true }, [], false)
    else if c = bHYPHEN then
      ({ s with index := s.index + 1, flagLast := true }, [], false)
    else ({ s with index := 0 }, [], false)
  else if (s.index : Int) - 1 = (bs : Int) then
    if s.flagPart then
      if c = bLF then
        ({ s with
             index := 0, flagPart := false, mstate := MState.HEADER_FIELD_START,
             dataAcc := [] },
         evIf (MEvent.partData false) s.dataAcc ++ [MEvent.partEnd, MEvent.partBegin],
         true)
      else ({ s with index := 0 }, [], false)
    else if s.flagLast then
      if c = bHYPHEN then
        ({ s with mstate := MState.END, dataAcc := [] },
         evIf (MEvent.partData false) s.dataAcc ++ [MEvent.partEnd, MEvent.msgEnd],
         false)
      else ({ s with index := 0 }, [], false)
    else ({ s with index := 0 }, [], false)
  else if (s.index : Int) - 2 = (bs : Int) then
    if c = bCR then ({ s with index := s.index + 1 }, [], false)
    else ({ s with index := 0 }, [], false)
  else if (s.index : Int) - (bs : Int) = 3 then
    if c = bLF then
      ({ s with index := 0, mstate := MState.END, dataAcc := [] },
       evIf (MEvent.partData false) s.dataAcc ++ [MEvent.partEnd, MEvent.msgEnd],
       true)
    else ({ s with index := 0 }, [], false)
  else (s, [], false)

/-- Reference mirror of `ppdFinish`: the lookbehind write (same guard), the
false-candidate replay (the captured bytes move into the data accumulator and
the byte is requested again), or appending an ordinary data byte.  The
returned flag requests reprocessing of the same byte. -/
def sPpdFinish (prevIndex c : Nat) (q : SState) (evs : List MEvent) :
    SState × List MEvent × Bool :=
  if 0 < q.index then
    if (q.lookbehind.length : Int) ≤ (q.index : Int) - 1 then
      (sSetError q, evs, false)
    else if (q.index : Int) - 1 < 0 then
      (sSetError q, evs, false)
    else ({ q with lookbehind := q.lookbehind.set (q.index - 1) c }, evs, false)
  else if 0 < prevIndex then
    ({ q with dataAcc := q.dataAcc ++ q.lookbehind.take prevIndex }, evs, true)
  else ({ q with dataAcc := q.dataAcc ++ [c] }, evs, false)

/-- Reference part-data step. -/
def sPartData (s : SState) (c : Nat) : SState × List MEvent × Bool :=
  let m := sPpdMatch s c
  if m.2.2 then (m.1, m.2.1, false)
  else sPpdFinish s.index c m.1 m.2.1

/-- Reference mirror of `stepStartBoundary`. -/
def sStartBoundary (s : SState) (c : Nat) : SState × List MEvent × Bool :=
  let bs := s.boundary.length
  if (s.index : Int) = (bs : Int) - 2 then
    if c ≠ bCR then (sSetError s, [], false)
    else ({ s with index := s.index + 1 }, [], false)
  else if (s.index : Int) - 1 = (bs : Int) - 2 then
    if c ≠ bLF then (sSetError s, [], false)
    else ({ s with index := 0, mstate := MState.HEADER_FIELD_START },
          [MEvent.partBegin], false)
  else if c ≠ byteAt s.boundary (s.index + 2) then (sSetError s, [], false)
  else ({ s with index := s.index + 1 }, [], false)

/-- Reference mirror of `stepHeaderField`; the accumulator collects the bytes
the header-field mark would cover, and the field is emitted at the colon. -/
def sHeaderField (s : SState) (c : Nat) : SState × List MEvent × Bool :=
  if c = bCR then
    ({ s with fieldAcc := [], mstate := MState.HEADERS_ALMOST_DONE }, [], false)
  else
    let q := { s with index := s.index + 1 }
    if c = bHYPHEN then ({ q with fieldAcc := q.fieldAcc ++ [c] }, [], false)
    else if c = bCOLON then
      if q.index = 1 then (sSetError q, [], false)
      else ({ q with fieldAcc := [], mstate := MState.HEADER_VALUE_START },
            evIf MEvent.headerField q.fieldAcc, false)
    else
      let cl := lower c
      if cl < 97 ∨ 122 < cl then (sSetError q, [], false)
      else ({ q with fieldAcc := q.fieldAcc ++ [c] }, [], false)

/-- Reference mirror of `stepHeaderValue`; the value is emitted at the CR
(empty values included, matching `allowEmpty`). -/
def sHeaderValue (s : SState) (c : Nat) : SState × List MEvent × Bool :=
  if c = bCR then
    ({ s with valueAcc := [], mstate := MState.HEADER_VALUE_ALMOST_DONE },
     [MEvent.headerValue s.valueAcc, MEvent.headerEnd], false)
  else ({ s with valueAcc := s.valueAcc ++ [c] }, [], false)

/-- One attempt of the reference machine on byte `c`; the flag requests the
same byte again (the part-data replay).  Terminal and dead states consume
bytes inertly, mirroring that `feed` delivers nothing for them. -/
def sStep (s : SState) (c : Nat) : SState × List MEvent × Bool :=
  match s.mstate with
  | MState.ERROR => (s, [], false)
  | MState.START =>
      sStartBoundary { s with index := 0, mstate := MState.START_BOUNDARY } c
  | MState.START_BOUNDARY => sStartBoundary s c
  | MState.HEADER_FIELD_START =>
      sHeaderField { s with mstate := MState.HEADER_FIELD, fieldAcc := [], index := 0 } c
  | MState.HEADER_FIELD => sHeaderField s c
  | MState.HEADER_VALUE_START =>
      if c = bSPACE then (s, [], false)
      else sHeaderValue { s with valueAcc := [], mstate := MState.HEADER_VALUE } c
  | MState.HEADER_VALUE => sHeaderValue s c
  | MState.HEADER_VALUE_ALMOST_DONE =>
      if c ≠ bLF then (sSetError s, [], false)
      else ({ s with mstate := MState.HEADER_FIELD_START }, [], false)
  | MState.HEADERS_ALMOST_DONE =>
      if c ≠ bLF then (sSetError s, [], false)
      else ({ s with mstate := MState.PART_DATA_START }, [MEvent.headersEnd], false)
  | MState.PART_DATA_START =>
      sPartData { s with mstate := MState.PART_DATA, dataAcc := [] } c
  | MState.PART_DATA => sPartData s c
  | _ => (s, [], false)

/-- Consume one byte to completion: at most one replay attempt is needed,
since a replay leaves the match index at 0 and an attempt from index 0 never
replays. -/
def sConsume (s : SState) (c : Nat) : SState × List MEvent :=
  let a := sStep s c
  if a.2.2 then
    let b := sStep a.1 c
    (b.1, a.2.1 ++ b.2.1)
  else (a.1, a.2.1)

/-- Run the reference machine over a byte list. -/
def sRun (s : SState) (bytes : List Nat) : SState × List MEvent :=
  match bytes with
  | [] => (s, [])
  | c :: rest =>
    let a := sConsume s c
    let b := sRun a.1 rest
    (b.1, a.2 ++ b.2)

/-- The reference machine configured like `setBoundary`. -/
def mkSState (tok : List Nat) : SState :=
  let bnd := [bCR, bLF, bHYPHEN, bHYPHEN] ++ tok
  { boundary := bnd
    lookbehind := List.replicate (bnd.length + 8) 0
    mstate := MState.START
    flagPart := false
    flagLast := false
    index := 0
    fieldAcc := []
    valueAcc := []
    dataAcc := [] }

/-!
Trace normalization.  Chunking only changes how contiguous header-field,
header-value and part-data bytes are split across events (and whether
replayed part-data arrives from the lookbehind buffer); `normT` merges
adjacent data events of the same kind and erases the source tag, yielding
the canonical delivered trace.
-/

/-- Erase the `partData` source tag. -/
def canonEv (e : MEvent) : MEvent :=
  match e with
  | MEvent.partData _ b => MEvent.partData false b
  | e => e

/-- Push one event onto a normalized trace, merging adjacent data events of
the same kind. -/
def pushEv (e : MEvent) (r : List MEvent) : List MEvent :=
  match canonEv e, r with
  | MEvent.headerField a, MEvent.headerField b :: t =>
      MEvent.headerField (a ++ b) :: t
  | MEvent.headerValue a, MEvent.headerValue b :: t =>
      MEvent.headerValue (a ++ b) :: t
  | MEvent.partData _ a, MEvent.partData _ b :: t =>
      MEvent.partData false (a ++ b) :: t
  | e', r => e' :: r

/-- Canonical delivered trace. -/
def normT (l : List MEvent) : List MEvent := l.foldr pushEv []

/-!
Refinement invariant between a mid-buffer parser configuration and a
reference-machine state.
-/

/-- The events the parser will still deliver for its currently open mark if
the buffer ended at position `i` (the pending tail of the delivered trace). -/
def pendP (p : Parser) (buffer : List Nat) (i : Nat) : List MEvent :=
  match p.mstate with
  | MState.HEADER_FIELD =>
      match p.headerFieldMark with
      | some m => evIf MEvent.headerField (bslice buffer m i)
      | none => []
  | MState.HEADER_VALUE =>
      match p.headerValueMark with
      | some m => evIf MEvent.headerValue (bslice buffer m i)
      | none => []
  | MState.PART_DATA =>
      match p.partDataMark with
      | some m => evIf (MEvent.partData false) (bslice buffer m i)
      | none => []
  | _ => []

/-- The bytes the reference machine has consumed but not yet delivered. -/
def pendS (s : SState) : List MEvent :=
  match s.mstate with
  | MState.HEADER_FIELD => evIf MEvent.headerField s.fieldAcc
  | MState.HEADER_VALUE => evIf MEvent.headerValue s.valueAcc
  | MState.PART_DATA => evIf (MEvent.partData false) s.dataAcc
  | _ => []

/-- A reference step is clean unless it discards a non-empty header-field
fragment: a CR inside a header-field line aborts the line and drops bytes
that an intervening end-of-call flush would already have delivered, the one
point where the delivered trace depends on the chunking. -/
def sCleanStep (s : SState) (c : Nat) : Bool :=
  match s.mstate with
  | MState.HEADER_FIELD => !(c == bCR) || s.fieldAcc.isEmpty
  | _ => true

/-- A run of the reference machine is clean when every step is; this is a
property of the concatenated message only, independent of any chunking. -/
def sClean : SState → List Nat → Bool
  | _, [] => true
  | s, c :: rest => sCleanStep s c && sClean (sConsume s c).1 rest

/-- Extra fuel needed by the current configuration: a part-data state with a
live boundary candidate may spend one loop iteration without consuming a
byte (the replay steps `i` back). -/
def peIdx (p : Parser) : Nat :=
  if p.mstate = MState.PART_DATA ∧ 0 < p.index then 2 else 1

/-- Well-formedness established by `setBoundary` and preserved by `feed`. -/
def wfP (p : Parser) : Prop :=
  4 ≤ p.boundary.length ∧ p.lookbehind.length = p.boundary.length + 8 ∧
  p.mstate ≠ MState.PART_END ∧ p.mstate ≠ MState.ENDEEND

/-- The parser fields shared with the reference machine agree (the
lookbehind buffers agree on their live prefix). -/
def coreEq (p : Parser) (s : SState) : Prop :=
  p.boundary = s.boundary ∧ p.mstate = s.mstate ∧ p.index = s.index ∧
  p.flagPart = s.flagPart ∧ p.flagLast = s.flagLast ∧
  p.lookbehind.length = s.lookbehind.length

/-- Per-state shape of the parser's marks at loop position `i`, and the link
between the marked buffer slice and the reference accumulator: the
accumulator extends the pending slice on the left by the pieces already
flushed at earlier call boundaries. -/
def marksRel (p : Parser) (s : SState) (buffer : List Nat) (i : Nat) : Prop :=
  match p.mstate with
  | MState.START_BOUNDARY =>
      p.headerFieldMark = none ∧ p.headerValueMark = none ∧
      p.partDataMark = none ∧ p.index + 1 ≤ p.boundary.length
  | MState.HEADER_FIELD =>
      p.headerValueMark = none ∧ p.partDataMark = none ∧
      s.fieldAcc.length = p.index ∧
      ∃ m, p.headerFieldMark = some m ∧ m ≤ i ∧
        ∃ fl, s.fieldAcc = fl ++ bslice buffer m i
  | MState.HEADER_VALUE =>
      p.headerFieldMark = none ∧ p.partDataMark = none ∧
      ∃ m, p.headerValueMark = some m ∧ m ≤ i ∧
        ∃ fl, s.valueAcc = fl ++ bslice buffer m i
  | MState.PART_DATA =>
      p.headerFieldMark = none ∧ p.headerValueMark = none ∧
      p.index ≤ p.boundary.length + 3 ∧
      p.lookbehind.take p.index = s.lookbehind.take s.index ∧
      (if p.index = 0 then
        ∃ m, p.partDataMark = some m ∧ m ≤ i ∧
          ∃ fl, s.dataAcc = fl ++ bslice buffer m i
       else p.partDataMark = none)
  | MState.HEADERS_ALMOST_DONE =>
      p.headerFieldMark = none ∧ p.headerValueMark = none ∧
      p.partDataMark = none ∧ p.index = 0
  | MState.PART_DATA_START =>
      p.headerFieldMark = none ∧ p.headerValueMark = none ∧
      p.partDataMark = none ∧ p.index = 0
  | MState.ERROR => True
  | _ => p.headerFieldMark = none ∧ p.headerValueMark = none ∧ p.partDataMark = none

/-- The full mid-buffer refinement invariant. -/
def RelMid (p : Parser) (s : SState) (buffer : List Nat) (i : Nat) : Prop :=
  wfP p ∧ coreEq p s ∧ marksRel p s buffer i ∧ p.mstate ≠ MState.ERROR

/-- The invariant at a call boundary: all marks either closed or reopened at
offset 0 by the end-of-call flush, so nothing of the previous buffer is
pending. -/
def RelCall (p : Parser) (s : SState) : Prop :=
  wfP p ∧ coreEq p s ∧ marksRel p s [] 0 ∧ p.mstate ≠ MState.ERROR

/-- The inductive statement of the mid-buffer refinement: starting from
related configurations with a clean remainder and sufficient fuel, the feed
loop and the reference run over the remaining bytes stay related — on normal
loop completion the invariant holds at the end of the buffer and the
normalized traces (with pending tails) agree; on an early return the machine
states agree, and when the return is the successful `End` the traces agree
outright. -/
def RLGoal (buffer : List Nat) (fuel : Nat) : Prop :=
  ∀ (p : Parser) (s : SState) (i : Nat) (X Y : List MEvent),
    RelMid p s buffer i → i ≤ buffer.length →
    sClean s (buffer.drop i) = true →
    2 * (buffer.length - i) + peIdx p ≤ fuel →
    normT (X ++ pendP p buffer i) = normT (Y ++ pendS s) →
    (∀ q evs iF,
       feedLoop fuel p buffer buffer.length i = (q, evs, FeedOut.done iF) →
       RelMid q (sRun s (buffer.drop i)).1 buffer buffer.length ∧
       normT ((X ++ evs) ++ pendP q buffer buffer.length) =
         normT ((Y ++ (sRun s (buffer.drop i)).2) ++
           pendS (sRun s (buffer.drop i)).1)) ∧
    (∀ q evs r,
       feedLoop fuel p buffer buffer.length i = (q, evs, FeedOut.early r) →
       q.mstate = (sRun s (buffer.drop i)).1.mstate ∧
       (q.mstate = MState.END →
          normT (X ++ evs) = normT (Y ++ (sRun s (buffer.drop i)).2)))

/-- The relation carried across `feed` calls: either the full call-boundary
invariant, or both machines have stopped in the successful terminal state
(after an early `End` return the parser skips the end-of-call flush, so its
marks are unconstrained — but they are never read again). -/
def CallRel (p : Parser) (s : SState) : Prop :=
  RelCall p s ∨ (p.mstate = MState.END ∧ s.mstate = MState.END)

/-!
Serialized multipart messages.  A restricted but representative family of
valid messages, built from the on-wire grammar: an opening boundary line,
parts of header lines (`name ":" value CRLF`), an empty line, and data;
parts separated by `CRLF "--" token CRLF` and terminated by
`CRLF "--" token "--"`.  The restrictions (header names are nonempty and
alphabetic, values and data contain no CR, values contain no space) keep
every byte on the parser's happy path.
-/

/-- A part: header (name, value) pairs and the data bytes. -/
abbrev MPart : Type := List (List Nat × List Nat) × List Nat

/-- Serialize one header line. -/
def serLine (nv : List Nat × List Nat) : List Nat :=
  nv.1 ++ [bCOLON] ++ nv.2 ++ [bCR, bLF]

/-- Serialize one part body: header lines, the empty line, the data. -/
def serPart (pt : MPart) : List Nat :=
  (pt.1.map serLine).join ++ [bCR, bLF] ++ pt.2

/-- Serialize the part bodies with their separators and the terminator. -/
def serParts (tok : List Nat) : List MPart → List Nat
  | [] => []
  | [pt] => serPart pt ++ ([bCR, bLF, bHYPHEN, bHYPHEN] ++ tok) ++
      [bHYPHEN, bHYPHEN]
  | pt :: pt2 :: rest => serPart pt ++ ([bCR, bLF, bHYPHEN, bHYPHEN] ++ tok) ++
      [bCR, bLF] ++ serParts tok (pt2 :: rest)

/-- Serialize a whole message. -/
def serMsg (tok : List Nat) (parts : List MPart) : List Nat :=
  [bHYPHEN, bHYPHEN] ++ tok ++ [bCR, bLF] ++ serParts tok parts

/-- A wellformed header name: nonempty, alphabetic bytes. -/
def wfName (n : List Nat) : Bool :=
  !n.isEmpty && n.all (fun c => decide (97 ≤ lower c) && decide (lower c ≤ 122))

/-- A wellformed part: wellformed names, CR-free space-free values, CR-free
data. -/
def wfPartB (pt : MPart) : Bool :=
  pt.1.all (fun nv => wfName nv.1 &&
    nv.2.all (fun c => !(c == bCR) && !(c == bSPACE))) &&
  pt.2.all (fun c => !(c == bCR))

/-- A wellformed part list: nonempty, all parts wellformed. -/
def wfPartsB (parts : List MPart) : Bool :=
  !parts.isEmpty && parts.all wfPartB

/-- The payload a trace event contributes to the delivered part data. -/
def pdPayload : MEvent → List Nat
  | MEvent.partData _ b => b
  | _ => []

/-- Concatenation of all part-data bytes delivered in a trace. -/
def pdConcat (t : List MEvent) : List Nat := (t.map pdPayload).join

/-- The events of one header line. -/
def lineEvs (nv : List Nat × List Nat) : List MEvent :=
  [MEvent.headerField nv.1, MEvent.headerValue nv.2, MEvent.headerEnd]

/-- The events of one part body (up to and including its `partEnd`). -/
def partEvs (pt : MPart) : List MEvent :=
  (pt.1.map lineEvs).join ++ [MEvent.headersEnd] ++
  evIf (MEvent.partData false) pt.2 ++ [MEvent.partEnd]

/-- The events of the serialized part bodies. -/
def tailEvs : List MPart → List MEvent
  | [] => []
  | [pt] => partEvs pt ++ [MEvent.msgEnd]
  | pt :: pt2 :: rest => partEvs pt ++ [MEvent.partBegin] ++
      tailEvs (pt2 :: rest)

/-- The reference-machine state at the start of a part body. -/
def midS (tok lb : List Nat) : SState :=
  { boundary := [bCR, bLF, bHYPHEN, bHYPHEN] ++ tok
    lookbehind := lb
    mstate := MState.HEADER_FIELD_START
    flagPart := false
    flagLast := false
    index := 0
    fieldAcc := []
    valueAcc := []
    dataAcc := [] }

-- ## Theorems

theorem feedLoop_succ (fuel : Nat) (p : Parser) (buffer : List Nat)
    (len i : Nat) :
    feedLoop (fuel + 1) p buffer len i =
      if i < len then
        let c := byteAt buffer i
        let s := stepByte p buffer len i c
        match s.2.2 with
        | StepRes.stop r => (s.1, s.2.1, FeedOut.early r)
        | StepRes.next j =>
          let t := feedLoop fuel s.1 buffer len j
          (t.1, s.2.1 ++ t.2.1, t.2.2)
      else (p, [], FeedOut.done i) := rfl

theorem feed_two_succ (len : Nat) : 2 * len + 2 = (2 * len + 1) + 1 := rfl

theorem feedLoop_zero (p : Parser) (buffer : List Nat) (len i : Nat) :
    feedLoop 0 p buffer len i = (p, [], FeedOut.done i) := rfl

theorem feedLoop_exit (fuel : Nat) (p : Parser) (buffer : List Nat)
    (len i : Nat) (h : ¬ i < len) :
    feedLoop (fuel + 1) p buffer len i = (p, [], FeedOut.done i) := by
  rw [feedLoop_succ, if_neg h]

theorem feedLoop_stop (fuel : Nat) (p : Parser) (buffer : List Nat)
    (len i : Nat) (q : Parser) (evs : List MEvent) (r : Nat)
    (hilen : i < len)
    (hsb : stepByte p buffer len i (byteAt buffer i) = (q, evs, StepRes.stop r)) :
    feedLoop (fuel + 1) p buffer len i = (q, evs, FeedOut.early r) := by
  rw [feedLoop_succ, if_pos hilen]
  simp only [hsb]

theorem feedLoop_next (fuel : Nat) (p : Parser) (buffer : List Nat)
    (len i : Nat) (q : Parser) (evs : List MEvent) (j : Nat)
    (hilen : i < len)
    (hsb : stepByte p buffer len i (byteAt buffer i) = (q, evs, StepRes.next j)) :
    feedLoop (fuel + 1) p buffer len i =
      ((feedLoop fuel q buffer len j).1,
       evs ++ (feedLoop fuel q buffer len j).2.1,
       (feedLoop fuel q buffer len j).2.2) := by
  rw [feedLoop_succ, if_pos hilen]
  simp only [hsb]

/-- C3 — Idempotent terminal state: a parser in `Error` or `End` state is left
unchanged by any `feed(buffer, length)` call, which returns 0 and invokes no
callback. -/
theorem claim_C3 (p : Parser) (buf : List Nat)
    (h : p.mstate = MState.ERROR ∨ p.mstate = MState.END) :
    feed p buf = (p, [], 0) := by
  rcases h with h | h
  · simp [feed, h]
  · rcases hb : buf with _ | ⟨b, rest⟩
    · simp [feed]
    · have hlen : buf.length = rest.length + 1 := by rw [hb]; rfl
      rw [← hb]
      have hpos : 0 < buf.length := by omega
      simp only [feed, h, hlen]
      rw [feed_two_succ, feedLoop_succ]
      simp [stepByte, h, hpos, show (0:Nat) < rest.length + 1 by omega]

/-- Witness for C3 at a concrete `End`-state parser and a nonempty buffer. -/
theorem claim_C3_witness :
    ({ resetParser with mstate := MState.END }.mstate = MState.ERROR ∨
      { resetParser with mstate := MState.END }.mstate = MState.END) ∧
    feed { resetParser with mstate := MState.END } [65, 66]
      = ({ resetParser with mstate := MState.END }, [], 0) :=
  ⟨Or.inr rfl,
   claim_C3 { resetParser with mstate := MState.END } [65, 66] (Or.inr rfl)⟩

/-- C10 — Implicit claim: after `reset()` (and for a default-constructed
parser) the state is `Error`, `hasError()` holds, the message is
"Parser uninitialized.", and every `feed()` returns 0 with no callbacks;
only `setBoundary` moves the state to `Start` with reason "No error.". -/
theorem claim_C10 :
    resetParser.mstate = MState.ERROR ∧
    hasError resetParser = true ∧
    getErrorMessage resetParser = "Parser uninitialized." ∧
    (∀ buf, feed resetParser buf = (resetParser, [], 0)) ∧
    (∀ tok, (setBoundary tok).mstate = MState.START ∧
      (setBoundary tok).errorReason = "No error." ∧
      hasError (setBoundary tok) = false) := by
  refine ⟨rfl, rfl, rfl, fun buf => ?_, fun tok => ⟨rfl, rfl, rfl⟩⟩
  simp [feed, resetParser]

theorem stepStartBoundary_stop (p : Parser) (i c : Nat) (q : Parser)
    (evs : List MEvent) (r : Nat)
    (h : stepStartBoundary p i c = (q, evs, StepRes.stop r)) :
    r = i ∧ q.mstate = MState.ERROR := by
  simp only [stepStartBoundary] at h
  by_cases h1 : (p.index : Int) = (p.boundary.length : Int) - 2
  · rw [if_pos h1] at h
    by_cases h2 : c ≠ bCR
    · rw [if_pos h2] at h
      injection h with hq h'
      injection h' with hevs h''
      injection h'' with hr
      subst hq; exact ⟨hr.symm, rfl⟩
    · rw [if_neg h2] at h; simp at h
  · rw [if_neg h1] at h
    by_cases h2 : (p.index : Int) - 1 = (p.boundary.length : Int) - 2
    · rw [if_pos h2] at h
      by_cases h3 : c ≠ bLF
      · rw [if_pos h3] at h
        injection h with hq h'
        injection h' with hevs h''
        injection h'' with hr
        subst hq; exact ⟨hr.symm, rfl⟩
      · rw [if_neg h3] at h; simp at h
    · rw [if_neg h2] at h
      by_cases h3 : c ≠ byteAt p.boundary (p.index + 2)
      · rw [if_pos h3] at h
        injection h with hq h'
        injection h' with hevs h''
        injection h'' with hr
        subst hq; exact ⟨hr.symm, rfl⟩
      · rw [if_neg h3] at h; simp at h

theorem stepHeaderField_stop (p : Parser) (buffer : List Nat) (len i c : Nat)
    (q : Parser) (evs : List MEvent) (r : Nat)
    (h : stepHeaderField p buffer len i c = (q, evs, StepRes.stop r)) :
    r = i ∧ q.mstate = MState.ERROR := by
  simp only [stepHeaderField] at h
  by_cases hcr : c = bCR
  · rw [if_pos hcr] at h; simp at h
  · rw [if_neg hcr] at h
    by_cases hhy : c = bHYPHEN
    · rw [if_pos hhy] at h; simp at h
    · rw [if_neg hhy] at h
      by_cases hco : c = bCOLON
      · rw [if_pos hco] at h
        by_cases h1 : ({ p with index := p.index + 1 } : Parser).index = 1
        · rw [if_pos h1] at h
          injection h with hq h'
          injection h' with hevs h''
          injection h'' with hr
          subst hq; exact ⟨hr.symm, rfl⟩
        · rw [if_neg h1] at h; simp at h
      · rw [if_neg hco] at h
        by_cases hcl : lower c < 97 ∨ 122 < lower c
        · rw [if_pos hcl] at h
          injection h with hq h'
          injection h' with hevs h''
          injection h'' with hr
          subst hq; exact ⟨hr.symm, rfl⟩
        · rw [if_neg hcl] at h; simp at h

theorem stepHeaderValue_next (p : Parser) (buffer : List Nat) (len i c : Nat) :
    (stepHeaderValue p buffer len i c).2.2 = StepRes.next (i + 1) := by
  unfold stepHeaderValue
  split <;> rfl

theorem stepByte_stop (p : Parser) (buffer : List Nat) (len i c : Nat)
    (q : Parser) (evs : List MEvent) (r : Nat)
    (h : stepByte p buffer len i c = (q, evs, StepRes.stop r)) :
    r = i ∧ (q.mstate = MState.ERROR ∨
      (q = p ∧ (p.mstate = MState.PART_END ∨ p.mstate = MState.END ∨
        p.mstate = MState.ENDEEND))) := by
  cases hs : p.mstate <;> simp only [stepByte, hs] at h
  case ERROR => cases h; exact ⟨rfl, Or.inl hs⟩
  case START =>
    have := stepStartBoundary_stop _ _ _ _ _ _ h
    exact ⟨this.1, Or.inl this.2⟩
  case START_BOUNDARY =>
    have := stepStartBoundary_stop _ _ _ _ _ _ h
    exact ⟨this.1, Or.inl this.2⟩
  case HEADER_FIELD_START =>
    have := stepHeaderField_stop _ _ _ _ _ _ _ _ h
    exact ⟨this.1, Or.inl this.2⟩
  case HEADER_FIELD =>
    have := stepHeaderField_stop _ _ _ _ _ _ _ _ h
    exact ⟨this.1, Or.inl this.2⟩
  case HEADER_VALUE_START =>
    split at h
    · cases h
    · have h2 := congrArg (fun t => t.2.2) h
      dsimp only at h2
      rw [stepHeaderValue_next] at h2
      cases h2
  case HEADER_VALUE =>
    have h2 := congrArg (fun t => t.2.2) h
    dsimp only at h2
    rw [stepHeaderValue_next] at h2
    cases h2
  case HEADER_VALUE_ALMOST_DONE =>
    split at h
    · cases h; exact ⟨rfl, Or.inl rfl⟩
    · cases h
  case HEADERS_ALMOST_DONE =>
    split at h
    · cases h; exact ⟨rfl, Or.inl rfl⟩
    · cases h
  case PART_DATA_START => cases h
  case PART_DATA => cases h
  case PART_END => cases h; exact ⟨rfl, Or.inr ⟨rfl, Or.inl rfl⟩⟩
  case END => cases h; exact ⟨rfl, Or.inr ⟨rfl, Or.inr (Or.inl rfl)⟩⟩
  case ENDEEND => cases h; exact ⟨rfl, Or.inr ⟨rfl, Or.inr (Or.inr rfl)⟩⟩

theorem ppdFinish_mstate (prevIndex i c : Nat) (q : Parser)
    (evs : List MEvent) :
    (ppdFinish prevIndex i c q evs).1.mstate = q.mstate ∨
    (ppdFinish prevIndex i c q evs).1.mstate = MState.ERROR := by
  unfold ppdFinish
  split_ifs <;> first | exact Or.inl rfl | exact Or.inr rfl

theorem ppdMatch_mstate (p : Parser) (buffer : List Nat) (len i c : Nat) :
    (ppdMatch p buffer len i c).1.mstate = p.mstate ∨
    (ppdMatch p buffer len i c).1.mstate = MState.HEADER_FIELD_START ∨
    (ppdMatch p buffer len i c).1.mstate = MState.END := by
  rw [ppdMatch]
  repeat' split
  all_goals
    first
      | exact Or.inl rfl
      | exact Or.inr (Or.inl rfl)
      | exact Or.inr (Or.inr rfl)

/-- `ppdMatch` never touches the lookbehind buffer. -/
theorem ppdMatch_lookbehind (p : Parser) (buffer : List Nat) (len i c : Nat) :
    (ppdMatch p buffer len i c).1.lookbehind = p.lookbehind := by
  rw [ppdMatch]
  repeat' split
  all_goals rfl

/-- `ppdMatch` advances the match index by at most one. -/
theorem ppdMatch_index (p : Parser) (buffer : List Nat) (len i c : Nat) :
    (ppdMatch p buffer len i c).1.index ≤ p.index + 1 := by
  rw [ppdMatch]
  repeat' split
  all_goals simp

/-- When `ppdMatch` requests an early return the match index has been reset. -/
theorem ppdMatch_ret (p : Parser) (buffer : List Nat) (len i c : Nat) :
    (ppdMatch p buffer len i c).2.2 = true →
    (ppdMatch p buffer len i c).1.index = 0 := by
  rw [ppdMatch]
  repeat' split
  all_goals intro h
  all_goals first | rfl | cases h

/-- Exhaustive description of the trailing block `ppdFinish`: an in-bounds
lookbehind write, the defensive terminal error (no write), the lookbehind
replay, or a no-op.  The C `index - 1 < 0` underflow check is dead code for
unsigned arithmetic and does not appear. -/
theorem ppdFinish_cases (prevIndex i c : Nat) (q : Parser)
    (evs : List MEvent) :
    (0 < q.index ∧ (q.lookbehind.length : Int) ≤ (q.index : Int) - 1 ∧
      ppdFinish prevIndex i c q evs =
        (setError q "Parser bug: index overflows lookbehind buffer. Please send bug report with input file attached.",
         i + 1, evs)) ∨
    (0 < q.index ∧ q.index - 1 < q.lookbehind.length ∧
      ppdFinish prevIndex i c q evs =
        ({ q with lookbehind := q.lookbehind.set (q.index - 1) c }, i + 1, evs)) ∨
    (q.index = 0 ∧ 0 < prevIndex ∧
      ppdFinish prevIndex i c q evs =
        ({ q with partDataMark := some i }, i,
         evs ++ emitCB (MEvent.partData true) q.lookbehind 0 prevIndex false)) ∨
    (q.index = 0 ∧ prevIndex = 0 ∧
      ppdFinish prevIndex i c q evs = (q, i + 1, evs)) := by
  unfold ppdFinish
  by_cases h1 : 0 < q.index
  · rw [if_pos h1]
    by_cases h2 : (q.lookbehind.length : Int) ≤ (q.index : Int) - 1
    · rw [if_pos h2]
      exact Or.inl ⟨h1, h2, rfl⟩
    · rw [if_neg h2, if_neg (by omega : ¬ (q.index : Int) - 1 < 0)]
      exact Or.inr (Or.inl ⟨h1, by omega, rfl⟩)
  · rw [if_neg h1]
    have h0 : q.index = 0 := by omega
    by_cases h2 : 0 < prevIndex
    · rw [if_pos h2]
      exact Or.inr (Or.inr (Or.inl ⟨h0, h2, rfl⟩))
    · rw [if_neg h2]
      exact Or.inr (Or.inr (Or.inr ⟨h0, by omega, rfl⟩))

/-- `processPartData` either runs off the end of the buffer via the skip
loop, or processes one byte at the post-skip position `i`: the `ppdMatch`
chain followed, unless a transition was confirmed, by `ppdFinish`. -/
theorem processPartData_shape (p : Parser) (buffer : List Nat)
    (len i0 c0 : Nat) :
    (p.index = 0 ∧ skipLoop p.boundary buffer len i0 = len ∧
      processPartData p buffer len i0 c0 = (p, len + 1, [])) ∨
    ∃ i c,
      ((p.index = 0 ∧ i = skipLoop p.boundary buffer len i0 ∧ i ≠ len ∧
          c = byteAt buffer i) ∨
        (p.index ≠ 0 ∧ i = i0 ∧ c = c0)) ∧
      (((ppdMatch p buffer len i c).2.2 = true ∧
          processPartData p buffer len i0 c0
            = ((ppdMatch p buffer len i c).1, i + 1,
               (ppdMatch p buffer len i c).2.1)) ∨
        ((ppdMatch p buffer len i c).2.2 = false ∧
          processPartData p buffer len i0 c0
            = ppdFinish p.index i c (ppdMatch p buffer len i c).1
                (ppdMatch p buffer len i c).2.1)) := by
  unfold processPartData
  dsimp only
  by_cases h0 : p.index = 0
  · simp only [h0, if_true, true_and]
    by_cases h1 : skipLoop p.boundary buffer len i0 = len
    · rw [if_pos h1]
      exact Or.inl ⟨h1, rfl⟩
    · rw [if_neg h1]
      refine Or.inr ⟨skipLoop p.boundary buffer len i0,
        byteAt buffer (skipLoop p.boundary buffer len i0),
        Or.inl ⟨rfl, h1, rfl⟩, ?_⟩
      by_cases h2 : (ppdMatch p buffer len (skipLoop p.boundary buffer len i0)
          (byteAt buffer (skipLoop p.boundary buffer len i0))).2.2 = true
      · rw [if_pos h2]; exact Or.inl ⟨h2, rfl⟩
      · rw [if_neg h2]
        exact Or.inr ⟨by simpa using h2, rfl⟩
  · simp only [h0, if_false, false_and]
    refine Or.inr ⟨i0, c0, Or.inr ⟨h0, rfl, rfl⟩, ?_⟩
    by_cases h2 : (ppdMatch p buffer len i0 c0).2.2 = true
    · rw [if_pos h2]; exact Or.inl ⟨h2, rfl⟩
    · rw [if_neg h2]
      exact Or.inr ⟨by simpa using h2, rfl⟩

theorem processPartData_mstate (p : Parser) (buffer : List Nat)
    (len i0 c0 : Nat) :
    (processPartData p buffer len i0 c0).1.mstate = p.mstate ∨
    (processPartData p buffer len i0 c0).1.mstate = MState.HEADER_FIELD_START ∨
    (processPartData p buffer len i0 c0).1.mstate = MState.END ∨
    (processPartData p buffer len i0 c0).1.mstate = MState.ERROR := by
  rcases processPartData_shape p buffer len i0 c0 with ⟨-, -, h⟩ | ⟨i, c, -, ⟨-, h⟩ | ⟨-, h⟩⟩
  · rw [h]; exact Or.inl rfl
  · rw [h]
    rcases ppdMatch_mstate p buffer len i c with h2 | h2 | h2
    · exact Or.inl h2
    · exact Or.inr (Or.inl h2)
    · exact Or.inr (Or.inr (Or.inl h2))
  · rw [h]
    rcases ppdFinish_mstate p.index i c (ppdMatch p buffer len i c).1
        (ppdMatch p buffer len i c).2.1 with h2 | h2
    · rw [h2]
      rcases ppdMatch_mstate p buffer len i c with h3 | h3 | h3
      · exact Or.inl h3
      · exact Or.inr (Or.inl h3)
      · exact Or.inr (Or.inr (Or.inl h3))
    · exact Or.inr (Or.inr (Or.inr h2))

theorem stepStartBoundary_next (p : Parser) (i c : Nat) (q : Parser)
    (evs : List MEvent) (j : Nat)
    (h : stepStartBoundary p i c = (q, evs, StepRes.next j)) :
    q.mstate = p.mstate ∨ q.mstate = MState.HEADER_FIELD_START := by
  simp only [stepStartBoundary] at h
  by_cases h1 : (p.index : Int) = (p.boundary.length : Int) - 2
  · rw [if_pos h1] at h
    by_cases h2 : c ≠ bCR
    · rw [if_pos h2] at h; simp at h
    · rw [if_neg h2] at h
      injection h with hq h'
      subst hq; exact Or.inl rfl
  · rw [if_neg h1] at h
    by_cases h2 : (p.index : Int) - 1 = (p.boundary.length : Int) - 2
    · rw [if_pos h2] at h
      by_cases h3 : c ≠ bLF
      · rw [if_pos h3] at h; simp at h
      · rw [if_neg h3] at h
        injection h with hq h'
        subst hq; exact Or.inr rfl
    · rw [if_neg h2] at h
      by_cases h3 : c ≠ byteAt p.boundary (p.index + 2)
      · rw [if_pos h3] at h; simp at h
      · rw [if_neg h3] at h
        injection h with hq h'
        subst hq; exact Or.inl rfl

theorem stepHeaderField_next (p : Parser) (buffer : List Nat) (len i c : Nat)
    (q : Parser) (evs : List MEvent) (j : Nat)
    (h : stepHeaderField p buffer len i c = (q, evs, StepRes.next j)) :
    q.mstate = p.mstate ∨ q.mstate = MState.HEADERS_ALMOST_DONE ∨
      q.mstate = MState.HEADER_VALUE_START := by
  simp only [stepHeaderField] at h
  by_cases hcr : c = bCR
  · rw [if_pos hcr] at h
    injection h with hq h'
    subst hq; exact Or.inr (Or.inl rfl)
  · rw [if_neg hcr] at h
    by_cases hhy : c = bHYPHEN
    · rw [if_pos hhy] at h
      injection h with hq h'
      subst hq; exact Or.inl rfl
    · rw [if_neg hhy] at h
      by_cases hco : c = bCOLON
      · rw [if_pos hco] at h
        by_cases h1 : ({ p with index := p.index + 1 } : Parser).index = 1
        · rw [if_pos h1] at h; simp at h
        · rw [if_neg h1] at h
          injection h with hq h'
          subst hq; exact Or.inr (Or.inr rfl)
      · rw [if_neg hco] at h
        by_cases hcl : lower c < 97 ∨ 122 < lower c
        · rw [if_pos hcl] at h; simp at h
        · rw [if_neg hcl] at h
          injection h with hq h'
          subst hq; exact Or.inl rfl

theorem stepHeaderValue_nexts (p : Parser) (buffer : List Nat) (len i c : Nat)
    (q : Parser) (evs : List MEvent) (j : Nat)
    (h : stepHeaderValue p buffer len i c = (q, evs, StepRes.next j)) :
    q.mstate = p.mstate ∨ q.mstate = MState.HEADER_VALUE_ALMOST_DONE := by
  simp only [stepHeaderValue] at h
  by_cases hcr : c = bCR
  · rw [if_pos hcr] at h
    injection h with hq h'
    subst hq; exact Or.inr rfl
  · rw [if_neg hcr] at h
    injection h with hq h'
    subst hq; exact Or.inl rfl

/-- `stepByte` never produces the dead states `PART_END`/`ENDEEND` on a
`next` outcome. -/
theorem stepByte_next_state (p : Parser) (buffer : List Nat) (len i c : Nat)
    (q : Parser) (evs : List MEvent) (j : Nat)
    (h : stepByte p buffer len i c = (q, evs, StepRes.next j)) :
    q.mstate ≠ MState.PART_END ∧ q.mstate ≠ MState.ENDEEND := by
  cases hs : p.mstate <;> simp only [stepByte, hs] at h
  case ERROR => simp at h
  case START =>
    rcases stepStartBoundary_next _ _ _ _ _ _ h with h' | h' <;> rw [h'] <;>
      exact ⟨by simp, by simp⟩
  case START_BOUNDARY =>
    rcases stepStartBoundary_next _ _ _ _ _ _ h with h' | h' <;> rw [h']
    · rw [hs]; exact ⟨by simp, by simp⟩
    · exact ⟨by simp, by simp⟩
  case HEADER_FIELD_START =>
    rcases stepHeaderField_next _ _ _ _ _ _ _ _ h with h' | h' | h' <;> rw [h'] <;>
      exact ⟨by simp, by simp⟩
  case HEADER_FIELD =>
    rcases stepHeaderField_next _ _ _ _ _ _ _ _ h with h' | h' | h' <;> rw [h']
    · rw [hs]; exact ⟨by simp, by simp⟩
    · exact ⟨by simp, by simp⟩
    · exact ⟨by simp, by simp⟩
  case HEADER_VALUE_START =>
    split at h
    · injection h with hq h'
      subst hq; rw [hs]; exact ⟨by simp, by simp⟩
    · rcases stepHeaderValue_nexts _ _ _ _ _ _ _ _ h with h' | h' <;> rw [h'] <;>
        exact ⟨by simp, by simp⟩
  case HEADER_VALUE =>
    rcases stepHeaderValue_nexts _ _ _ _ _ _ _ _ h with h' | h' <;> rw [h']
    · rw [hs]; exact ⟨by simp, by simp⟩
    · exact ⟨by simp, by simp⟩
  case HEADER_VALUE_ALMOST_DONE =>
    split at h
    · simp at h
    · injection h with hq h'
      subst hq; exact ⟨by simp, by simp⟩
  case HEADERS_ALMOST_DONE =>
    split at h
    · simp at h
    · injection h with hq h'
      subst hq; exact ⟨by simp, by simp⟩
  case PART_DATA_START =>
    injection h with h1 h2
    subst h1
    rcases processPartData_mstate
        { p with mstate := MState.PART_DATA, partDataMark := some i }
        buffer len i c with hm | hm | hm | hm <;> rw [hm] <;>
      exact ⟨by simp, by simp⟩
  case PART_DATA =>
    injection h with h1 h2
    subst h1
    rcases processPartData_mstate p buffer len i c with hm | hm | hm | hm <;>
      rw [hm]
    · rw [hs]; exact ⟨by simp, by simp⟩
    · exact ⟨by simp, by simp⟩
    · exact ⟨by simp, by simp⟩
    · exact ⟨by simp, by simp⟩
  case PART_END => simp at h
  case END => simp at h
  case ENDEEND => simp at h

/-- Along the `feed` loop the dead states `PART_END`/`ENDEEND` never arise. -/
theorem feedLoop_preserve_pe (buffer : List Nat) (len : Nat) :
    ∀ (fuel : Nat) (p : Parser) (i : Nat),
    p.mstate ≠ MState.PART_END → p.mstate ≠ MState.ENDEEND →
    (feedLoop fuel p buffer len i).1.mstate ≠ MState.PART_END ∧
    (feedLoop fuel p buffer len i).1.mstate ≠ MState.ENDEEND := by
  intro fuel
  induction fuel with
  | zero => intro p i h1 h2; exact ⟨h1, h2⟩
  | succ fuel ih =>
    intro p i h1 h2
    by_cases hilen : i < len
    · rcases hsb : stepByte p buffer len i (byteAt buffer i) with ⟨q, evs, sr⟩
      cases sr with
      | stop r =>
        rw [feedLoop_stop fuel p buffer len i q evs r hilen hsb]
        rcases stepByte_stop _ _ _ _ _ _ _ _ hsb with ⟨-, hq | ⟨hq, -⟩⟩
        · simp [hq]
        · subst hq; exact ⟨h1, h2⟩
      | next j =>
        rw [feedLoop_next fuel p buffer len i q evs j hilen hsb]
        rcases stepByte_next_state _ _ _ _ _ _ _ _ hsb with ⟨hq1, hq2⟩
        exact ih q j hq1 hq2
    · rw [feedLoop_exit fuel p buffer len i hilen]
      exact ⟨h1, h2⟩

/-- Every early return of the `feed` loop returns an offset `< len`, with the
parser then in a terminal-or-dead state. -/
theorem feedLoop_early_exit (buffer : List Nat) (len : Nat) :
    ∀ (fuel : Nat) (p : Parser) (i : Nat) (q : Parser) (evs : List MEvent)
      (r : Nat),
    feedLoop fuel p buffer len i = (q, evs, FeedOut.early r) →
    r < len ∧ (q.mstate = MState.ERROR ∨ q.mstate = MState.PART_END ∨
      q.mstate = MState.END ∨ q.mstate = MState.ENDEEND) := by
  intro fuel
  induction fuel with
  | zero => intro p i q evs r h; cases h
  | succ fuel ih =>
    intro p i q evs r h
    by_cases hilen : i < len
    · rcases hsb : stepByte p buffer len i (byteAt buffer i) with ⟨q', evs', sr⟩
      cases sr with
      | stop r' =>
        rw [feedLoop_stop fuel p buffer len i q' evs' r' hilen hsb] at h
        cases h
        rcases stepByte_stop _ _ _ _ _ _ _ _ hsb with ⟨hr, hq | ⟨hq, hst⟩⟩
        · exact ⟨hr ▸ hilen, Or.inl hq⟩
        · subst hq
          rcases hst with hst | hst | hst
          · exact ⟨hr ▸ hilen, Or.inr (Or.inl hst)⟩
          · exact ⟨hr ▸ hilen, Or.inr (Or.inr (Or.inl hst))⟩
          · exact ⟨hr ▸ hilen, Or.inr (Or.inr (Or.inr hst))⟩
      | next j =>
        rw [feedLoop_next fuel p buffer len i q' evs' j hilen hsb] at h
        rcases hfl : feedLoop fuel q' buffer len j with ⟨q2, evs2, out2⟩
        rw [hfl] at h
        cases out2 with
        | early r2 =>
          cases h
          exact ih q' j _ _ _ hfl
        | done iF => cases h
    · rw [feedLoop_exit fuel p buffer len i hilen] at h
      cases h

/-- C4 (amended) — Feed return contract: for a configured, non-terminal
parser and a non-empty buffer, `feed` returns either `length` (all bytes
consumed) or an offset `< length`, in which case the parser has reached a
terminal state — `Error` (the offset is at the byte that triggered the
error) or `End` (the offset is at the first byte left unconsumed after the
terminal boundary completed).  The original claim admitted only the error
case; the counterexample shows a successful parse can also return `< length`. -/
theorem claim_C4 (p : Parser) (buf : List Nat)
    (h1 : p.mstate ≠ MState.ERROR) (h2 : p.mstate ≠ MState.END)
    (h3 : p.mstate ≠ MState.PART_END) (h4 : p.mstate ≠ MState.ENDEEND)
    (hne : buf ≠ []) :
    (feed p buf).2.2 = buf.length ∨
      ((feed p buf).2.2 < buf.length ∧
        ((feed p buf).1.mstate = MState.ERROR ∨
          (feed p buf).1.mstate = MState.END)) := by
  have hlen : buf.length ≠ 0 := by
    cases buf with
    | nil => exact absurd rfl hne
    | cons b rest => simp
  unfold feed
  rw [if_neg (by simp [h1, hlen])]
  rcases hfl : feedLoop (2 * buf.length + 2) p buf buf.length 0
    with ⟨q, evs, out⟩
  cases out with
  | early r =>
    dsimp only
    rcases feedLoop_early_exit buf buf.length _ _ _ _ _ _ hfl with ⟨hr, hq⟩
    have hpe := feedLoop_preserve_pe buf buf.length (2 * buf.length + 2) p 0 h3 h4
    rw [hfl] at hpe
    right
    refine ⟨hr, ?_⟩
    rcases hq with hq | hq | hq | hq
    · exact Or.inl hq
    · exact absurd hq hpe.1
    · exact Or.inr hq
    · exact absurd hq hpe.2
  | done iF => left; rfl

/-- Counterexample to C4 as stated: boundary `b`, message
`--b CRLF CRLF x CRLF --b-- Q`.  The terminal boundary completes before the
trailing byte `Q`; `feed` returns offset 15 of a 16-byte buffer although no
byte triggered a terminal error (`hasError` is false, the parse succeeded). -/
theorem claim_C4_counterexample :
    (feed (setBoundary [98])
        [45, 45, 98, 13, 10, 13, 10, 120, 13, 10, 45, 45, 98, 45, 45, 81]).2.2
      = 15 ∧
    ([45, 45, 98, 13, 10, 13, 10, 120, 13, 10, 45, 45, 98, 45, 45, 81] :
        List Nat).length = 16 ∧
    hasError (feed (setBoundary [98])
        [45, 45, 98, 13, 10, 13, 10, 120, 13, 10, 45, 45, 98, 45, 45, 81]).1
      = false ∧
    succeeded (feed (setBoundary [98])
        [45, 45, 98, 13, 10, 13, 10, 120, 13, 10, 45, 45, 98, 45, 45, 81]).1
      = true := by
  decide

/-- Witness for C4 (amended) at a concrete configured parser. -/
theorem claim_C4_witness :
    ((setBoundary [98]).mstate ≠ MState.ERROR) ∧
    ((setBoundary [98]).mstate ≠ MState.END) ∧
    ((feed (setBoundary [98]) [45, 45]).2.2 = ([45, 45] : List Nat).length ∨
      ((feed (setBoundary [98]) [45, 45]).2.2 < ([45, 45] : List Nat).length ∧
        ((feed (setBoundary [98]) [45, 45]).1.mstate = MState.ERROR ∨
          (feed (setBoundary [98]) [45, 45]).1.mstate = MState.END))) :=
  ⟨by decide, by decide,
   claim_C4 (setBoundary [98]) [45, 45] (by decide) (by decide) (by decide)
     (by decide) (by decide)⟩

/-- Every change `processPartData` makes to the lookbehind buffer is a
single in-bounds write at position `index - 1`. -/
theorem ppd_write_safe (p : Parser) (buffer : List Nat) (len i0 c0 : Nat) :
    (processPartData p buffer len i0 c0).1.lookbehind = p.lookbehind ∨
    ∃ j b, j + 1 = (processPartData p buffer len i0 c0).1.index ∧
      j < p.lookbehind.length ∧
      (processPartData p buffer len i0 c0).1.lookbehind
        = p.lookbehind.set j b := by
  rcases processPartData_shape p buffer len i0 c0
    with ⟨hpi, hskip, heq⟩ | ⟨i, c, hic, ⟨hret, heq⟩ | ⟨hret, heq⟩⟩
  · rw [heq]; exact Or.inl rfl
  · rw [heq]; exact Or.inl (ppdMatch_lookbehind p buffer len i c)
  · rw [heq]
    have hlb := ppdMatch_lookbehind p buffer len i c
    rcases ppdFinish_cases p.index i c (ppdMatch p buffer len i c).1
        (ppdMatch p buffer len i c).2.1
      with ⟨hqpos, hble, harm⟩ | ⟨hqpos, hlt, harm⟩ |
           ⟨hq0, hprev, harm⟩ | ⟨hq0, hprev, harm⟩
    · rw [harm]; exact Or.inl hlb
    · rw [harm]
      refine Or.inr ⟨(ppdMatch p buffer len i c).1.index - 1, c, ?_, ?_, ?_⟩
      · simp only []
        omega
      · rw [← hlb]; exact hlt
      · simp only []
        rw [hlb]
    · rw [harm]; exact Or.inl hlb
    · rw [harm]; exact Or.inl hlb

/-- If after `processPartData` the match index is positive and out of range
for the lookbehind capacity, then the defensive guard fired: terminal error,
static diagnostic, and no write was performed. -/
theorem ppd_guard_error (p : Parser) (buffer : List Nat) (len i0 c0 : Nat)
    (hpos : 0 < (processPartData p buffer len i0 c0).1.index)
    (hge : p.lookbehind.length ≤ (processPartData p buffer len i0 c0).1.index - 1) :
    (processPartData p buffer len i0 c0).1.mstate = MState.ERROR ∧
    (processPartData p buffer len i0 c0).1.errorReason
      = "Parser bug: index overflows lookbehind buffer. Please send bug report with input file attached." ∧
    (processPartData p buffer len i0 c0).1.lookbehind = p.lookbehind := by
  rcases processPartData_shape p buffer len i0 c0
    with ⟨hpi, hskip, heq⟩ | ⟨i, c, hic, ⟨hret, heq⟩ | ⟨hret, heq⟩⟩
  · rw [heq] at hpos
    simp only [] at hpos
    omega
  · rw [heq] at hpos
    have := ppdMatch_ret p buffer len i c hret
    simp only [] at hpos
    omega
  · have hlb := ppdMatch_lookbehind p buffer len i c
    rcases ppdFinish_cases p.index i c (ppdMatch p buffer len i c).1
        (ppdMatch p buffer len i c).2.1
      with ⟨hqpos, hble, harm⟩ | ⟨hqpos, hlt, harm⟩ |
           ⟨hq0, hprev, harm⟩ | ⟨hq0, hprev, harm⟩
    · rw [heq, harm]
      exact ⟨rfl, rfl, hlb⟩
    · rw [heq, harm] at hpos hge
      simp only [] at hpos hge
      rw [← hlb] at hge
      omega
    · rw [heq, harm] at hpos
      simp only [] at hpos
      omega
    · rw [heq, harm] at hpos
      simp only [] at hpos
      omega

/-- With the capacity `setBoundary` allocates and any reachable match index,
the defensive guard can never fire: `processPartData` only reports an error
state if the parser was already in it. -/
theorem ppd_guard_unreachable (p : Parser) (buffer : List Nat)
    (len i0 c0 : Nat)
    (hcap : p.lookbehind.length = p.boundary.length + 8)
    (hidx : p.index ≤ p.boundary.length + 3)
    (hErr : (processPartData p buffer len i0 c0).1.mstate = MState.ERROR) :
    p.mstate = MState.ERROR := by
  rcases processPartData_shape p buffer len i0 c0
    with ⟨hpi, hskip, heq⟩ | ⟨i, c, hic, ⟨hret, heq⟩ | ⟨hret, heq⟩⟩
  · rw [heq] at hErr; exact hErr
  · rw [heq] at hErr
    simp only [] at hErr
    rcases ppdMatch_mstate p buffer len i c with h2 | h2 | h2
    · rw [← h2]; exact hErr
    · cases h2.symm.trans hErr
    · cases h2.symm.trans hErr
  · have hlb := ppdMatch_lookbehind p buffer len i c
    have hix := ppdMatch_index p buffer len i c
    rcases ppdFinish_cases p.index i c (ppdMatch p buffer len i c).1
        (ppdMatch p buffer len i c).2.1
      with ⟨hqpos, hble, harm⟩ | ⟨hqpos, hlt, harm⟩ |
           ⟨hq0, hprev, harm⟩ | ⟨hq0, hprev, harm⟩
    · exfalso
      have hql : (ppdMatch p buffer len i c).1.lookbehind.length
          = p.boundary.length + 8 := by rw [hlb, hcap]
      rw [hql] at hble
      omega
    · rw [heq, harm] at hErr
      simp only [] at hErr
      rcases ppdMatch_mstate p buffer len i c with h2 | h2 | h2
      · rw [← h2]; exact hErr
      · cases h2.symm.trans hErr
      · cases h2.symm.trans hErr
    · rw [heq, harm] at hErr
      simp only [] at hErr
      rcases ppdMatch_mstate p buffer len i c with h2 | h2 | h2
      · rw [← h2]; exact hErr
      · cases h2.symm.trans hErr
      · cases h2.symm.trans hErr
    · rw [heq, harm] at hErr
      simp only [] at hErr
      rcases ppdMatch_mstate p buffer len i c with h2 | h2 | h2
      · rw [← h2]; exact hErr
      · cases h2.symm.trans hErr
      · cases h2.symm.trans hErr

/-- C6 — Lookbehind write safety: in the part-data scanner every write to the
lookbehind buffer goes to position `index - 1` with `index - 1 < capacity`;
if the bound were violated the parser would transition to the terminal error
state with a static diagnostic instead of writing; with the capacity
`setBoundary` allocates (`boundary length + 8`) and any reachable match index
the guard never fires. -/
theorem claim_C6 (p : Parser) (buffer : List Nat) (len i0 c0 : Nat) :
    ((processPartData p buffer len i0 c0).1.lookbehind = p.lookbehind ∨
      ∃ j b, j + 1 = (processPartData p buffer len i0 c0).1.index ∧
        j < p.lookbehind.length ∧
        (processPartData p buffer len i0 c0).1.lookbehind
          = p.lookbehind.set j b) ∧
    (0 < (processPartData p buffer len i0 c0).1.index →
      p.lookbehind.length ≤ (processPartData p buffer len i0 c0).1.index - 1 →
      (processPartData p buffer len i0 c0).1.mstate = MState.ERROR ∧
      (processPartData p buffer len i0 c0).1.errorReason
        = "Parser bug: index overflows lookbehind buffer. Please send bug report with input file attached." ∧
      (processPartData p buffer len i0 c0).1.lookbehind = p.lookbehind) ∧
    (p.lookbehind.length = p.boundary.length + 8 →
      p.index ≤ p.boundary.length + 3 →
      (processPartData p buffer len i0 c0).1.mstate = MState.ERROR →
      p.mstate = MState.ERROR) ∧
    (∀ tok, (setBoundary tok).lookbehind.length
      = (setBoundary tok).boundary.length + 8) :=
  ⟨ppd_write_safe p buffer len i0 c0,
   fun hpos hge => ppd_guard_error p buffer len i0 c0 hpos hge,
   fun hcap hidx hErr => ppd_guard_unreachable p buffer len i0 c0 hcap hidx hErr,
   fun tok => by simp [setBoundary]⟩

/-- Witness for C6: a concrete scanning step (boundary `b`, one data byte)
and, for the guard branch, a malformed parser value with an undersized
lookbehind buffer on which the guard does fire. -/
theorem claim_C6_witness :
    (((processPartData (setBoundary [98]) [120] 1 0 120).1.lookbehind
        = (setBoundary [98]).lookbehind ∨
      ∃ j b, j + 1 = (processPartData (setBoundary [98]) [120] 1 0 120).1.index ∧
        j < (setBoundary [98]).lookbehind.length ∧
        (processPartData (setBoundary [98]) [120] 1 0 120).1.lookbehind
          = (setBoundary [98]).lookbehind.set j b) ∧
      ((setBoundary [98]).lookbehind.length
          = (setBoundary [98]).boundary.length + 8 →
        (setBoundary [98]).index ≤ (setBoundary [98]).boundary.length + 3 →
        (processPartData (setBoundary [98]) [120] 1 0 120).1.mstate
          = MState.ERROR →
        (setBoundary [98]).mstate = MState.ERROR)) ∧
    (let pbad : Parser :=
      { boundary := [13, 10, 45, 45, 98]
        lookbehind := []
        mstate := MState.PART_DATA
        flagPart := false
        flagLast := false
        index := 2
        headerFieldMark := none
        headerValueMark := none
        partDataMark := none
        errorReason := "No error." }
     0 < (processPartData pbad [45] 1 0 45).1.index ∧
     pbad.lookbehind.length ≤ (processPartData pbad [45] 1 0 45).1.index - 1 ∧
     (processPartData pbad [45] 1 0 45).1.mstate = MState.ERROR ∧
     (processPartData pbad [45] 1 0 45).1.errorReason
       = "Parser bug: index overflows lookbehind buffer. Please send bug report with input file attached.") := by
  refine ⟨⟨(claim_C6 (setBoundary [98]) [120] 1 0 120).1,
    fun hcap hidx hErr =>
      (claim_C6 (setBoundary [98]) [120] 1 0 120).2.2.1 hcap hidx hErr⟩, ?_⟩
  refine ⟨by decide, by decide, ?_, ?_⟩
  · exact ((claim_C6 _ [45] 1 0 45).2.1 (by decide) (by decide)).1
  · exact ((claim_C6 _ [45] 1 0 45).2.1 (by decide) (by decide)).2.1

/-- The `START` case zeroes the index, enters `START_BOUNDARY` and falls
through: the loop behaves as if it had started in `START_BOUNDARY`. -/
theorem feedLoop_start (fuel : Nat) (p : Parser) (buffer : List Nat)
    (len i : Nat) (hst : p.mstate = MState.START) (hi : i < len) :
    feedLoop (fuel + 1) p buffer len i
      = feedLoop (fuel + 1)
          { p with index := 0, mstate := MState.START_BOUNDARY } buffer len i := by
  rw [feedLoop_succ, feedLoop_succ, if_pos hi, if_pos hi]
  have hsb : stepByte p buffer len i (byteAt buffer i)
      = stepByte { p with index := 0, mstate := MState.START_BOUNDARY }
          buffer len i (byteAt buffer i) := by
    simp only [stepByte, hst]
  simp only [hsb]

/-- Scanning the opening boundary line: while the compared bytes agree with
the `--token` portion and the next byte diverges inside that portion, the
loop stops at the divergent byte with the mismatched-boundary error. -/
theorem sb_progress (buffer : List Nat) (len : Nat) :
    ∀ (d fuel : Nat) (q : Parser) (i : Nat),
    q.mstate = MState.START_BOUNDARY →
    4 ≤ q.boundary.length →
    q.index + d + 2 < q.boundary.length →
    (∀ k, k < d → byteAt buffer (i + k) = byteAt q.boundary (q.index + k + 2)) →
    i + d < len →
    byteAt buffer (i + d) ≠ byteAt q.boundary (q.index + d + 2) →
    d + 1 ≤ fuel →
    feedLoop fuel q buffer len i
      = (setError { q with index := q.index + d }
          "Malformed. Found different boundary data than the given one.",
         [], FeedOut.early (i + d)) := by
  intro d
  induction d with
  | zero =>
    intro fuel q i hst hb4 hreg hpre hlen hdiv hfuel
    obtain ⟨f, rfl⟩ : ∃ f, fuel = f + 1 := ⟨fuel - 1, by omega⟩
    have hi : i < len := by omega
    have hsb : stepByte q buffer len i (byteAt buffer i)
        = (setError q "Malformed. Found different boundary data than the given one.",
           [], StepRes.stop i) := by
      simp only [stepByte, hst, stepStartBoundary]
      rw [if_neg (by omega :
            ¬ (q.index : Int) = (q.boundary.length : Int) - 2),
          if_neg (by omega :
            ¬ (q.index : Int) - 1 = (q.boundary.length : Int) - 2),
          if_pos (by simpa using hdiv)]
    rw [feedLoop_stop f q buffer len i _ _ _ hi hsb]
    simp
  | succ d ih =>
    intro fuel q i hst hb4 hreg hpre hlen hdiv hfuel
    obtain ⟨f, rfl⟩ : ∃ f, fuel = f + 1 := ⟨fuel - 1, by omega⟩
    have hi : i < len := by omega
    have heq0 : byteAt buffer i = byteAt q.boundary (q.index + 2) := by
      have := hpre 0 (by omega)
      simpa using this
    have hsb : stepByte q buffer len i (byteAt buffer i)
        = ({ q with index := q.index + 1 }, [], StepRes.next (i + 1)) := by
      simp only [stepByte, hst, stepStartBoundary]
      rw [if_neg (by omega :
            ¬ (q.index : Int) = (q.boundary.length : Int) - 2),
          if_neg (by omega :
            ¬ (q.index : Int) - 1 = (q.boundary.length : Int) - 2),
          if_neg (by simpa using heq0)]
    rw [feedLoop_next f q buffer len i _ _ _ hi hsb]
    have hih := ih f { q with index := q.index + 1 } (i + 1) hst hb4
      (by simpa using (by omega : q.index + 1 + d + 2 < q.boundary.length))
      (fun k hk => by
        have := hpre (k + 1) (by omega)
        have e1 : i + 1 + k = i + (k + 1) := by omega
        have e2 : q.index + 1 + k + 2 = q.index + (k + 1) + 2 := by omega
        rw [e1, e2]
        simpa using this)
      (by omega)
      (by
        have e1 : i + 1 + d = i + (d + 1) := by omega
        have e2 : q.index + 1 + d + 2 = q.index + (d + 1) + 2 := by omega
        rw [e1, e2]
        simpa using hdiv)
      (by omega)
    rw [hih]
    have e1 : q.index + 1 + d = q.index + (d + 1) := by omega
    have e2 : i + 1 + d = i + (d + 1) := by omega
    simp only [setError]
    rw [e1, e2]
    simp

/-- C5 (amended) — Boundary mismatch detection: feeding a fresh configured
parser a message whose opening boundary line first diverges from the expected
`--token` bytes at offset `j` (inside the token portion, before the CRLF)
makes that `feed` return `j`, with `hasError()` true and the error reason the
static mismatched-boundary string.  (When the first divergence is at the CR
or LF position the code reports "Malformed. Expected CR after boundary." or
"Malformed. Expected LF after boundary CR." instead, which is what the
counterexample exhibits.) -/
theorem claim_C5 (tok buf : List Nat) (j : Nat)
    (hj : j < buf.length)
    (hjr : j < tok.length + 2)
    (hpre : ∀ k, k < j → byteAt buf k = byteAt ([bHYPHEN, bHYPHEN] ++ tok) k)
    (hdiv : byteAt buf j ≠ byteAt ([bHYPHEN, bHYPHEN] ++ tok) j) :
    (feed (setBoundary tok) buf).2.2 = j ∧
    hasError (feed (setBoundary tok) buf).1 = true ∧
    getErrorMessage (feed (setBoundary tok) buf).1
      = "Malformed. Found different boundary data than the given one." := by
  have hb : ∀ k, byteAt ((setBoundary tok).boundary) (k + 2)
      = byteAt ([bHYPHEN, bHYPHEN] ++ tok) k := by
    intro k
    show byteAt ([bCR, bLF, bHYPHEN, bHYPHEN] ++ tok) (k + 2) = _
    have : ([bCR, bLF, bHYPHEN, bHYPHEN] ++ tok)
        = bCR :: bLF :: ([bHYPHEN, bHYPHEN] ++ tok) := rfl
    rw [this]
    simp [byteAt]
  have hlen : buf.length ≠ 0 := by omega
  unfold feed
  rw [if_neg (by simp [setBoundary, hlen])]
  rw [feed_two_succ, feedLoop_start (2 * buf.length + 1) (setBoundary tok)
      buf buf.length 0 rfl (by omega)]
  rw [sb_progress buf buf.length j (2 * buf.length + 1 + 1)
      { setBoundary tok with index := 0, mstate := MState.START_BOUNDARY } 0
      rfl
      (by simp [setBoundary])
      (by simp [setBoundary]; omega)
      (fun k hk => by simpa [hb] using hpre k hk)
      (by omega)
      (by simpa [hb] using hdiv)
      (by omega)]
  refine ⟨by simp, by simp [hasError, setError], by simp [getErrorMessage, setError]⟩

/-- Counterexample to C5 as stated: boundary `b`, message `--bX`.  The
opening boundary line diverges from `--b CRLF` at its CR position; `feed`
returns the divergent offset and sets the error state, but the reason is the
"Expected CR after boundary." diagnostic, not the claimed static string. -/
theorem claim_C5_counterexample :
    hasError (feed (setBoundary [98]) [45, 45, 98, 88]).1 = true ∧
    (feed (setBoundary [98]) [45, 45, 98, 88]).2.2 = 3 ∧
    getErrorMessage (feed (setBoundary [98]) [45, 45, 98, 88]).1
      ≠ "Malformed. Found different boundary data than the given one." ∧
    getErrorMessage (feed (setBoundary [98]) [45, 45, 98, 88]).1
      = "Malformed. Expected CR after boundary." := by
  refine ⟨by decide, by decide, ?_, ?_⟩ <;> decide

/-- Witness for C5 (amended): boundary `b`, message `--c…` diverging at
offset 2 inside the token portion. -/
theorem claim_C5_witness :
    (2 < ([45, 45, 99, 13] : List Nat).length ∧ 2 < ([98] : List Nat).length + 2 ∧
      byteAt [45, 45, 99, 13] 2 ≠ byteAt ([bHYPHEN, bHYPHEN] ++ [98]) 2) ∧
    ((feed (setBoundary [98]) [45, 45, 99, 13]).2.2 = 2 ∧
      hasError (feed (setBoundary [98]) [45, 45, 99, 13]).1 = true ∧
      getErrorMessage (feed (setBoundary [98]) [45, 45, 99, 13]).1
        = "Malformed. Found different boundary data than the given one.") :=
  ⟨⟨by decide, by decide, by decide⟩,
   claim_C5 [98] [45, 45, 99, 13] 2 (by decide) (by decide)
     (by decide) (by decide)⟩

/-- C7 (amended) — End-of-call mark flush: at the end of every `feed()` call
that consumes its whole buffer (returns `length`), the three
`dataCallback(..., clear=false)` flushes run: every still-open mark is
delivered from the mark to the end of the current buffer through its
callback, and is left open at offset 0 for the next call rather than
cleared; unmarked segments deliver nothing.  (The original claim said "every
feed() call"; the counterexample shows a call that stops at an error byte
performs no flush and leaves the mark's bytes undelivered.) -/
theorem claim_C7 (p : Parser) (buf : List Nat) (hne : buf ≠ [])
    (hst : p.mstate ≠ MState.ERROR)
    (hlen : (feed p buf).2.2 = buf.length) :
    ∃ q evs iF,
      feedLoop (2 * buf.length + 2) p buf buf.length 0
        = (q, evs, FeedOut.done iF) ∧
      feed p buf = ((flushEnd q buf iF buf.length).1,
        evs ++ (flushEnd q buf iF buf.length).2, buf.length) ∧
      (flushEnd q buf iF buf.length).2
        = (match q.headerFieldMark with
            | some m => emitCB MEvent.headerField buf m buf.length false
            | none => [])
          ++ (match q.headerValueMark with
            | some m => emitCB MEvent.headerValue buf m buf.length false
            | none => [])
          ++ (match q.partDataMark with
            | some m => emitCB (MEvent.partData false) buf m buf.length false
            | none => []) ∧
      (flushEnd q buf iF buf.length).1.headerFieldMark
        = (match q.headerFieldMark with | some _ => some 0 | none => none) ∧
      (flushEnd q buf iF buf.length).1.headerValueMark
        = (match q.headerValueMark with | some _ => some 0 | none => none) ∧
      (flushEnd q buf iF buf.length).1.partDataMark
        = (match q.partDataMark with | some _ => some 0 | none => none) := by
  have hlen0 : buf.length ≠ 0 := by
    cases buf with
    | nil => exact absurd rfl hne
    | cons b rest => simp
  unfold feed at hlen ⊢
  rw [if_neg (by simp [hst, hlen0])] at hlen ⊢
  rcases hfl : feedLoop (2 * buf.length + 2) p buf buf.length 0
    with ⟨q, evs, out⟩
  cases out with
  | early r =>
    rw [hfl] at hlen
    have hreq : r = buf.length := hlen
    rcases feedLoop_early_exit buf buf.length _ _ _ _ _ _ hfl with ⟨hr, -⟩
    omega
  | done iF =>
    refine ⟨q, evs, iF, rfl, rfl, ?_, ?_, ?_, ?_⟩ <;>
      rcases hm1 : q.headerFieldMark with - | m1 <;>
      rcases hm2 : q.headerValueMark with - | m2 <;>
      rcases hm3 : q.partDataMark with - | m3 <;>
      simp [flushEnd, dataCallback, hm1, hm2, hm3]

/-- Counterexample to C7 as stated: boundary `b`, message `--b CRLF ab1`.
The call stops at the invalid header byte `1` (returns 7 of 8); the
header-field mark opened at offset 5 is still open, and the bytes `ab` it
covers were never delivered: the only event is `onPartBegin`. -/
theorem claim_C7_counterexample :
    (feed (setBoundary [98]) [45, 45, 98, 13, 10, 97, 98, 49]).2.1
      = [MEvent.partBegin] ∧
    (feed (setBoundary [98]) [45, 45, 98, 13, 10, 97, 98, 49]).2.2 = 7 ∧
    ([45, 45, 98, 13, 10, 97, 98, 49] : List Nat).length = 8 ∧
    (feed (setBoundary [98]) [45, 45, 98, 13, 10, 97, 98, 49]).1.headerFieldMark
      = some 5 ∧
    (∀ b, MEvent.headerField b
      ∉ (feed (setBoundary [98]) [45, 45, 98, 13, 10, 97, 98, 49]).2.1) := by
  refine ⟨by decide, by decide, by decide, by decide, ?_⟩
  intro b
  have he : (feed (setBoundary [98]) [45, 45, 98, 13, 10, 97, 98, 49]).2.1
      = [MEvent.partBegin] := by decide
  rw [he]
  simp

/-- Witness for C7 (amended): a full-buffer call that ends inside a header
field, whose open mark is flushed and left open at 0. -/
theorem claim_C7_witness :
    (feed (setBoundary [98]) [45, 45, 98, 13, 10, 97, 98]).2.2
      = ([45, 45, 98, 13, 10, 97, 98] : List Nat).length ∧
    ∃ q evs iF,
      feedLoop (2 * ([45, 45, 98, 13, 10, 97, 98] : List Nat).length + 2)
          (setBoundary [98]) [45, 45, 98, 13, 10, 97, 98]
          ([45, 45, 98, 13, 10, 97, 98] : List Nat).length 0
        = (q, evs, FeedOut.done iF) ∧
      feed (setBoundary [98]) [45, 45, 98, 13, 10, 97, 98]
        = ((flushEnd q [45, 45, 98, 13, 10, 97, 98] iF
              ([45, 45, 98, 13, 10, 97, 98] : List Nat).length).1,
           evs ++ (flushEnd q [45, 45, 98, 13, 10, 97, 98] iF
              ([45, 45, 98, 13, 10, 97, 98] : List Nat).length).2,
           ([45, 45, 98, 13, 10, 97, 98] : List Nat).length) ∧
      (flushEnd q [45, 45, 98, 13, 10, 97, 98] iF
          ([45, 45, 98, 13, 10, 97, 98] : List Nat).length).2
        = (match q.headerFieldMark with
            | some m => emitCB MEvent.headerField [45, 45, 98, 13, 10, 97, 98] m
                ([45, 45, 98, 13, 10, 97, 98] : List Nat).length false
            | none => [])
          ++ (match q.headerValueMark with
            | some m => emitCB MEvent.headerValue [45, 45, 98, 13, 10, 97, 98] m
                ([45, 45, 98, 13, 10, 97, 98] : List Nat).length false
            | none => [])
          ++ (match q.partDataMark with
            | some m => emitCB (MEvent.partData false) [45, 45, 98, 13, 10, 97, 98] m
                ([45, 45, 98, 13, 10, 97, 98] : List Nat).length false
            | none => []) ∧
      (flushEnd q [45, 45, 98, 13, 10, 97, 98] iF
          ([45, 45, 98, 13, 10, 97, 98] : List Nat).length).1.headerFieldMark
        = (match q.headerFieldMark with | some _ => some 0 | none => none) ∧
      (flushEnd q [45, 45, 98, 13, 10, 97, 98] iF
          ([45, 45, 98, 13, 10, 97, 98] : List Nat).length).1.headerValueMark
        = (match q.headerValueMark with | some _ => some 0 | none => none) ∧
      (flushEnd q [45, 45, 98, 13, 10, 97, 98] iF
          ([45, 45, 98, 13, 10, 97, 98] : List Nat).length).1.partDataMark
        = (match q.partDataMark with | some _ => some 0 | none => none) :=
  ⟨by decide,
   claim_C7 (setBoundary [98]) [45, 45, 98, 13, 10, 97, 98] (by decide)
     (by decide) (by decide)⟩

/-- In `HEADER_VALUE_START`, a SPACE byte is consumed with no state change,
no mark, and no event. -/
theorem stepByte_hvs_space (p : Parser) (buffer : List Nat) (len i : Nat)
    (hst : p.mstate = MState.HEADER_VALUE_START) :
    stepByte p buffer len i bSPACE = (p, [], StepRes.next (i + 1)) := by
  simp [stepByte, hst]

/-- C8 (amended) — Header-value leading spaces: in state `HeaderValueStart`
the parser skips every leading SPACE byte (not just one): a run of `n`
spaces is consumed with the parser unchanged, the value start is marked at
the first non-space byte, and the delivered header value excludes all
leading spaces (demonstrated on a value with three leading spaces).  The
counterexample refutes the original "exactly one leading space" reading. -/
theorem claim_C8 (p : Parser) (buffer : List Nat) (i n fuel c : Nat)
    (hst : p.mstate = MState.HEADER_VALUE_START)
    (hsp : ∀ k, k < n → byteAt buffer (i + k) = bSPACE)
    (hin : i + n ≤ buffer.length) :
    feedLoop (n + fuel) p buffer buffer.length i
      = feedLoop fuel p buffer buffer.length (i + n) ∧
    (c ≠ bSPACE →
      stepByte p buffer buffer.length (i + n) c
        = stepHeaderValue
            { p with headerValueMark := some (i + n), mstate := MState.HEADER_VALUE }
            buffer buffer.length (i + n) c) ∧
    (feed (setBoundary [98]) [45, 45, 98, 13, 10, 97, 58, 32, 32, 32, 118, 13, 10]).2.1
      = [MEvent.partBegin, MEvent.headerField [97], MEvent.headerValue [118],
         MEvent.headerEnd] := by
  refine ⟨?_, ?_, by decide⟩
  · induction n generalizing i fuel with
    | zero => rw [Nat.zero_add, Nat.add_zero]
    | succ n ih =>
      have hi : i < buffer.length := by omega
      have hc0 : byteAt buffer i = bSPACE := by
        have := hsp 0 (by omega)
        simpa using this
      have hstep : stepByte p buffer buffer.length i (byteAt buffer i)
          = (p, [], StepRes.next (i + 1)) := by
        rw [hc0]
        exact stepByte_hvs_space p buffer buffer.length i hst
      have hfe : n + 1 + fuel = (n + fuel) + 1 := by omega
      rw [hfe, feedLoop_next (n + fuel) p buffer buffer.length i p [] (i + 1)
        hi hstep]
      have := ih (i + 1) fuel
        (fun k hk => by
          have := hsp (k + 1) (by omega)
          have e1 : i + 1 + k = i + (k + 1) := by omega
          rw [e1]
          exact this)
        (by omega)
      rw [this]
      have e2 : i + 1 + n = i + (n + 1) := by omega
      rw [e2]
      simp
  · intro hc
    simp only [stepByte, hst, if_neg hc]

/-- Counterexample to C8 as stated: header line `a:  v` (two leading
spaces).  If exactly one leading space were excluded, the delivered value
would be `SPACE v` = `[32, 118]`; the code delivers `v` = `[118]`: all
leading spaces are skipped. -/
theorem claim_C8_counterexample :
    (feed (setBoundary [98]) [45, 45, 98, 13, 10, 97, 58, 32, 32, 118, 13, 10]).2.1
      = [MEvent.partBegin, MEvent.headerField [97], MEvent.headerValue [118],
         MEvent.headerEnd] ∧
    MEvent.headerValue [32, 118]
      ∉ (feed (setBoundary [98]) [45, 45, 98, 13, 10, 97, 58, 32, 32, 118, 13, 10]).2.1 := by
  refine ⟨by decide, ?_⟩
  have he : (feed (setBoundary [98]) [45, 45, 98, 13, 10, 97, 58, 32, 32, 118, 13, 10]).2.1
      = [MEvent.partBegin, MEvent.headerField [97], MEvent.headerValue [118],
         MEvent.headerEnd] := by decide
  rw [he]
  decide

/-- Witness for C8 (amended): a concrete `HeaderValueStart` parser skipping
two spaces. -/
theorem claim_C8_witness :
    ({ setBoundary [98] with mstate := MState.HEADER_VALUE_START }.mstate
        = MState.HEADER_VALUE_START ∧
      (∀ k, k < 2 → byteAt [32, 32, 118] (0 + k) = bSPACE) ∧
      0 + 2 ≤ ([32, 32, 118] : List Nat).length) ∧
    (feedLoop (2 + 1) { setBoundary [98] with mstate := MState.HEADER_VALUE_START }
        [32, 32, 118] ([32, 32, 118] : List Nat).length 0
      = feedLoop 1 { setBoundary [98] with mstate := MState.HEADER_VALUE_START }
        [32, 32, 118] ([32, 32, 118] : List Nat).length (0 + 2) ∧
    (118 ≠ bSPACE →
      stepByte { setBoundary [98] with mstate := MState.HEADER_VALUE_START }
          [32, 32, 118] ([32, 32, 118] : List Nat).length (0 + 2) 118
        = stepHeaderValue
            { { setBoundary [98] with mstate := MState.HEADER_VALUE_START } with
              headerValueMark := some (0 + 2), mstate := MState.HEADER_VALUE }
            [32, 32, 118] ([32, 32, 118] : List Nat).length (0 + 2) 118) ∧
    (feed (setBoundary [98]) [45, 45, 98, 13, 10, 97, 58, 32, 32, 32, 118, 13, 10]).2.1
      = [MEvent.partBegin, MEvent.headerField [97], MEvent.headerValue [118],
         MEvent.headerEnd]) :=
  ⟨⟨rfl, by decide, by decide⟩,
   claim_C8 { setBoundary [98] with mstate := MState.HEADER_VALUE_START }
     [32, 32, 118] 0 2 1 118 rfl (by decide) (by decide)⟩

/-- C9 — Disposition helper: on the `Content-Disposition` value
`form-data; name="f"; filename="x.txt"`, `getFileInfos` reports
`itemName = "f"`, `itemFilename = "x.txt"`, `itemIsFile = true` and
returns 0, regardless of the entry values of the three reference
parameters. -/
theorem claim_C9 (key itemName itemFilename : List Char) (itemIsFile : Bool) :
    getFileInfos key "form-data; name=\"f\"; filename=\"x.txt\"".toList
        itemName itemFilename itemIsFile
      = some (0, "f".toList, "x.txt".toList, true) := by
  rfl

-- ### Trace normalization toolkit

theorem canonEv_idem (e : MEvent) : canonEv (canonEv e) = canonEv e := by
  cases e <;> rfl

theorem pushEv_canon (e : MEvent) (r : List MEvent) :
    pushEv (canonEv e) r = pushEv e r := by
  cases e <;> rfl

theorem pushEv_merge_hf (a b : List Nat) (X : List MEvent) :
    pushEv (MEvent.headerField a) (pushEv (MEvent.headerField b) X) =
    pushEv (MEvent.headerField (a ++ b)) X := by
  cases X with
  | nil => rfl
  | cons h t => cases h <;> simp [pushEv, canonEv, List.append_assoc]

theorem pushEv_merge_hv (a b : List Nat) (X : List MEvent) :
    pushEv (MEvent.headerValue a) (pushEv (MEvent.headerValue b) X) =
    pushEv (MEvent.headerValue (a ++ b)) X := by
  cases X with
  | nil => rfl
  | cons h t => cases h <;> simp [pushEv, canonEv, List.append_assoc]

theorem pushEv_merge_pd (t1 t2 t3 : Bool) (a b : List Nat) (X : List MEvent) :
    pushEv (MEvent.partData t1 a) (pushEv (MEvent.partData t2 b) X) =
    pushEv (MEvent.partData t3 (a ++ b)) X := by
  cases X with
  | nil => rfl
  | cons h t => cases h <;> simp [pushEv, canonEv, List.append_assoc]

theorem foldr_pushEv (e : MEvent) (l R : List MEvent) :
    List.foldr pushEv R (pushEv e l) = pushEv e (List.foldr pushEv R l) := by
  cases l with
  | nil =>
    cases e <;> simp [pushEv, canonEv, List.foldr]
  | cons h t =>
    cases e <;> cases h <;>
      first
        | rfl
        | exact (pushEv_merge_hf _ _ _).symm
        | exact (pushEv_merge_hv _ _ _).symm
        | exact (pushEv_merge_pd _ _ false _ _ _).symm

theorem norm_cons (e : MEvent) (l : List MEvent) :
    normT (e :: l) = pushEv e (normT l) := rfl

theorem norm_append (xs ys : List MEvent) :
    normT (xs ++ ys) = List.foldr pushEv (normT ys) xs := by
  simp [normT, List.foldr_append]

theorem foldr_pushEv_norm (xs : List MEvent) (R : List MEvent) :
    List.foldr pushEv R (normT xs) = List.foldr pushEv R xs := by
  induction xs with
  | nil => rfl
  | cons e t ih => rw [norm_cons, foldr_pushEv, ih]; rfl

theorem norm_norm_append (xs ys : List MEvent) :
    normT (normT xs ++ ys) = normT (xs ++ ys) := by
  rw [norm_append, norm_append, foldr_pushEv_norm]

theorem trace_extend (X Y tP tS tP2 tS2 d : List MEvent)
    (h : normT (X ++ tP) = normT (Y ++ tS))
    (hP : normT tP2 = normT (tP ++ d)) (hS : normT tS2 = normT (tS ++ d)) :
    normT (X ++ tP2) = normT (Y ++ tS2) := by
  calc normT (X ++ tP2) = List.foldr pushEv (normT tP2) X := norm_append X tP2
    _ = List.foldr pushEv (normT (tP ++ d)) X := by rw [hP]
    _ = normT (X ++ (tP ++ d)) := (norm_append X (tP ++ d)).symm
    _ = normT ((X ++ tP) ++ d) := by rw [List.append_assoc]
    _ = normT (normT (X ++ tP) ++ d) := (norm_norm_append (X ++ tP) d).symm
    _ = normT (normT (Y ++ tS) ++ d) := by rw [h]
    _ = normT ((Y ++ tS) ++ d) := norm_norm_append (Y ++ tS) d
    _ = normT (Y ++ (tS ++ d)) := by rw [List.append_assoc]
    _ = List.foldr pushEv (normT (tS ++ d)) Y := norm_append Y (tS ++ d)
    _ = normT (Y ++ tS2) := by rw [← hS]; exact (norm_append Y tS2).symm

theorem evIf_split_hf (a b : List Nat) (hb : b ≠ []) :
    normT (evIf MEvent.headerField (a ++ b)) =
    normT (evIf MEvent.headerField a ++ [MEvent.headerField b]) := by
  by_cases ha : a = [] <;>
    simp [evIf, ha, hb, normT, pushEv, canonEv, List.foldr]

theorem evIf_split_hv (a b : List Nat) (hb : b ≠ []) :
    normT (evIf MEvent.headerValue (a ++ b)) =
    normT (evIf MEvent.headerValue a ++ [MEvent.headerValue b]) := by
  by_cases ha : a = [] <;>
    simp [evIf, ha, hb, normT, pushEv, canonEv, List.foldr]

theorem evIf_split_pd (t : Bool) (a b : List Nat) (hb : b ≠ []) :
    normT (evIf (MEvent.partData false) (a ++ b)) =
    normT (evIf (MEvent.partData false) a ++ [MEvent.partData t b]) := by
  by_cases ha : a = [] <;>
    simp [evIf, ha, hb, normT, pushEv, canonEv, List.foldr]

theorem hv_close (a : List Nat) :
    normT [MEvent.headerValue a, MEvent.headerEnd] =
    normT (evIf MEvent.headerValue a ++
      [MEvent.headerValue [], MEvent.headerEnd]) := by
  by_cases ha : a = [] <;>
    simp [evIf, ha, normT, pushEv, canonEv, List.foldr]

-- ### Buffer-slice utilities

theorem bslice_self (l : List Nat) (m : Nat) : bslice l m m = [] := by
  apply List.drop_eq_nil_of_le
  simp [List.length_take]

theorem bslice_split (l : List Nat) (m i j : Nat) (hm : m ≤ i) (hij : i ≤ j) :
    bslice l m j = bslice l m i ++ bslice l i j := by
  unfold bslice
  have htj : l.take j = l.take i ++ (l.take j).drop i := by
    conv_lhs => rw [← List.take_append_drop i (l.take j)]
    rw [List.take_take, Nat.min_eq_left hij]
  by_cases hc : m ≤ (l.take i).length
  · calc (l.take j).drop m = (l.take i ++ (l.take j).drop i).drop m := by rw [← htj]
      _ = (l.take i).drop m ++ (l.take j).drop i :=
        List.drop_append_of_le_length hc
  · have hdlen : l.length < m := by
      simp only [List.length_take] at hc; omega
    have e1 : (l.take j).drop m = [] :=
      List.drop_eq_nil_of_le (by simp only [List.length_take]; omega)
    have e2 : (l.take i).drop m = [] :=
      List.drop_eq_nil_of_le (by simp only [List.length_take]; omega)
    have e3 : (l.take j).drop i = [] :=
      List.drop_eq_nil_of_le (by simp only [List.length_take]; omega)
    rw [e1, e2, e3]; rfl

theorem byteAt_lt (l : List Nat) (i : Nat) (h : i < l.length) :
    byteAt l i = l[i] := by
  simp [byteAt, List.getD, List.getElem?_eq_getElem h]

theorem bslice_snoc (l : List Nat) (m i : Nat) (hm : m ≤ i) (hi : i < l.length) :
    bslice l m (i + 1) = bslice l m i ++ [byteAt l i] := by
  unfold bslice
  have ht : l.take (i + 1) = l.take i ++ [byteAt l i] := by
    rw [List.take_succ]
    congr 1
    rw [List.getElem?_eq_getElem hi, byteAt_lt l i hi]
    rfl
  rw [ht, List.drop_append_of_le_length (by simp [List.length_take]; omega)]

theorem bslice_all (l : List Nat) (i : Nat) : bslice l i l.length = l.drop i := by
  simp [bslice]

theorem drop_cons_byteAt (l : List Nat) (i : Nat) (h : i < l.length) :
    l.drop i = byteAt l i :: l.drop (i + 1) := by
  rw [List.drop_eq_getElem_cons h, byteAt_lt l i h]

-- ### Reference-machine run algebra

theorem sRun_cons (s : SState) (c : Nat) (l : List Nat) :
    sRun s (c :: l) =
    ((sRun (sConsume s c).1 l).1, (sConsume s c).2 ++ (sRun (sConsume s c).1 l).2) :=
  rfl

theorem sRun_append (s : SState) (A B : List Nat) :
    sRun s (A ++ B) =
    ((sRun (sRun s A).1 B).1, (sRun s A).2 ++ (sRun (sRun s A).1 B).2) := by
  induction A generalizing s with
  | nil => simp [sRun]
  | cons c t ih => simp [sRun_cons, ih, List.append_assoc]

theorem sConsume_no_stutter (s : SState) (c : Nat)
    (h : (sStep s c).2.2 = false) :
    sConsume s c = ((sStep s c).1, (sStep s c).2.1) := by
  simp [sConsume, h]

theorem sStep_inert (s : SState) (c : Nat)
    (h : s.mstate = MState.ERROR ∨ s.mstate = MState.END ∨
      s.mstate = MState.PART_END ∨ s.mstate = MState.ENDEEND) :
    sStep s c = (s, [], false) := by
  rcases h with h | h | h | h <;> simp [sStep, h]

theorem sRun_inert (s : SState) (l : List Nat)
    (h : s.mstate = MState.ERROR ∨ s.mstate = MState.END ∨
      s.mstate = MState.PART_END ∨ s.mstate = MState.ENDEEND) :
    sRun s l = (s, []) := by
  induction l with
  | nil => rfl
  | cons c t ih =>
    rw [sRun_cons, sConsume_no_stutter s c (by rw [sStep_inert s c h]),
      sStep_inert s c h]
    simpa using ih

theorem sStep_error (s : SState) (c : Nat) (hm : s.mstate = MState.ERROR) :
    sStep s c = (s, [], false) := by
  unfold sStep; rw [hm]

theorem sStep_start (s : SState) (c : Nat) (hm : s.mstate = MState.START) :
    sStep s c =
    sStartBoundary { s with index := 0, mstate := MState.START_BOUNDARY } c := by
  unfold sStep; rw [hm]

theorem sStep_sb (s : SState) (c : Nat)
    (hm : s.mstate = MState.START_BOUNDARY) :
    sStep s c = sStartBoundary s c := by
  unfold sStep; rw [hm]

theorem sStep_hfs (s : SState) (c : Nat)
    (hm : s.mstate = MState.HEADER_FIELD_START) :
    sStep s c =
    sHeaderField { s with mstate := MState.HEADER_FIELD, fieldAcc := [], index := 0 } c := by
  unfold sStep; rw [hm]

theorem sStep_hf (s : SState) (c : Nat) (hm : s.mstate = MState.HEADER_FIELD) :
    sStep s c = sHeaderField s c := by
  unfold sStep; rw [hm]

theorem sStep_hvs (s : SState) (c : Nat)
    (hm : s.mstate = MState.HEADER_VALUE_START) :
    sStep s c =
    (if c = bSPACE then (s, [], false)
     else sHeaderValue { s with valueAcc := [], mstate := MState.HEADER_VALUE } c) := by
  unfold sStep; rw [hm]

theorem sStep_hv (s : SState) (c : Nat) (hm : s.mstate = MState.HEADER_VALUE) :
    sStep s c = sHeaderValue s c := by
  unfold sStep; rw [hm]

theorem sStep_hvad (s : SState) (c : Nat)
    (hm : s.mstate = MState.HEADER_VALUE_ALMOST_DONE) :
    sStep s c =
    (if c ≠ bLF then (sSetError s, [], false)
     else ({ s with mstate := MState.HEADER_FIELD_START }, [], false)) := by
  unfold sStep; rw [hm]

theorem sStep_had (s : SState) (c : Nat)
    (hm : s.mstate = MState.HEADERS_ALMOST_DONE) :
    sStep s c =
    (if c ≠ bLF then (sSetError s, [], false)
     else ({ s with mstate := MState.PART_DATA_START }, [MEvent.headersEnd], false)) := by
  unfold sStep; rw [hm]

theorem sStep_pds (s : SState) (c : Nat)
    (hm : s.mstate = MState.PART_DATA_START) :
    sStep s c = sPartData { s with mstate := MState.PART_DATA, dataAcc := [] } c := by
  unfold sStep; rw [hm]

theorem sStep_pd (s : SState) (c : Nat) (hm : s.mstate = MState.PART_DATA) :
    sStep s c = sPartData s c := by
  unfold sStep; rw [hm]

theorem sStep_pd0_no_stutter (s : SState) (c : Nat)
    (hm : s.mstate = MState.PART_DATA) (hi : s.index = 0) :
    (sStep s c).2.2 = false := by
  rw [sStep_pd s c hm]
  unfold sPartData sPpdFinish
  dsimp only
  repeat' split
  all_goals first | rfl | omega

theorem sConsume_stutter_eq (s s1 : SState) (c : Nat)
    (h1 : sStep s c = (s1, [], true)) (h2 : s1.mstate = MState.PART_DATA)
    (h3 : s1.index = 0) : sConsume s c = sConsume s1 c := by
  unfold sConsume
  rw [h1]
  simp only [sStep_pd0_no_stutter s1 c h2 h3]
  simp

theorem sRun_stutter (s s1 : SState) (c : Nat) (l : List Nat)
    (h1 : sStep s c = (s1, [], true)) (h2 : s1.mstate = MState.PART_DATA)
    (h3 : s1.index = 0) : sRun s (c :: l) = sRun s1 (c :: l) := by
  rw [sRun_cons, sRun_cons, sConsume_stutter_eq s s1 c h1 h2 h3]

theorem sClean_cons (s : SState) (c : Nat) (l : List Nat) :
    sClean s (c :: l) = (sCleanStep s c && sClean (sConsume s c).1 l) := rfl

theorem sClean_append (s : SState) (A B : List Nat) :
    sClean s (A ++ B) = (sClean s A && sClean (sRun s A).1 B) := by
  induction A generalizing s with
  | nil => simp [sClean, sRun]
  | cons c t ih =>
    rw [List.cons_append, sClean_cons, sClean_cons, ih, sRun_cons]
    simp [Bool.and_assoc]

theorem sClean_stutter (s s1 : SState) (c : Nat) (l : List Nat)
    (h1 : sStep s c = (s1, [], true)) (h2 : s1.mstate = MState.PART_DATA)
    (h3 : s1.index = 0) (hcl : sClean s (c :: l) = true) :
    sClean s1 (c :: l) = true := by
  rw [sClean_cons] at hcl ⊢
  rw [sConsume_stutter_eq s s1 c h1 h2 h3] at hcl
  rcases Bool.and_eq_true_iff.mp hcl with ⟨_, hrest⟩
  rw [hrest]
  simp [sCleanStep, h2]

-- ### Reference machine in part-data: single byte and skip window

theorem sStep_pd0 (t : SState) (c : Nat) (hm : t.mstate = MState.PART_DATA)
    (h0 : t.index = 0) (hbs : 0 < t.boundary.length)
    (hlb : 0 < t.lookbehind.length) :
    sStep t c =
      if byteAt t.boundary 0 = c then
        ({ t with index := 1, lookbehind := t.lookbehind.set 0 c }, [], false)
      else
        ({ t with index := 0, dataAcc := t.dataAcc ++ [c] }, [], false) := by
  rw [sStep_pd t c hm]
  unfold sPartData sPpdMatch sPpdFinish
  rw [h0, if_pos hbs]
  by_cases hbc : byteAt t.boundary 0 = c
  · rw [if_pos hbc, if_pos hbc]
    simp only []
    repeat' split
    all_goals first | rfl | omega | (simp_all; done) | (simp; done)
  · rw [if_neg hbc, if_neg hbc]
    simp only []
    repeat' split
    all_goals first | rfl | omega | (simp_all; done) | (simp; done)

theorem sConsume_pd0 (t : SState) (c : Nat) (hm : t.mstate = MState.PART_DATA)
    (h0 : t.index = 0) (hbs : 0 < t.boundary.length)
    (hlb : 0 < t.lookbehind.length) :
    sConsume t c =
      if byteAt t.boundary 0 = c then
        ({ t with index := 1, lookbehind := t.lookbehind.set 0 c }, [])
      else
        ({ t with index := 0, dataAcc := t.dataAcc ++ [c] }, []) := by
  rw [sConsume_no_stutter t c (by
    rw [sStep_pd0 t c hm h0 hbs hlb]
    by_cases hbc : byteAt t.boundary 0 = c
    · rw [if_pos hbc]
    · rw [if_neg hbc])]
  rw [sStep_pd0 t c hm h0 hbs hlb]
  by_cases hbc : byteAt t.boundary 0 = c
  · rw [if_pos hbc, if_pos hbc]
  · rw [if_neg hbc, if_neg hbc]

theorem sStep_pd_pos_match (t : SState) (c : Nat)
    (hm : t.mstate = MState.PART_DATA) (hpos : 0 < t.index)
    (hlt : t.index < t.boundary.length) (hcap : t.index < t.lookbehind.length)
    (hbc : byteAt t.boundary t.index = c) :
    sStep t c =
      ({ t with
           index := t.index + 1,
           lookbehind := t.lookbehind.set t.index c }, [], false) := by
  rw [sStep_pd t c hm]
  unfold sPartData sPpdMatch sPpdFinish
  rw [if_pos hlt, if_pos hbc]
  simp only []
  repeat' split
  all_goals first | rfl | omega | (simp_all; done) | (simp; done)

theorem sStep_pd_pos_miss (t : SState) (c : Nat)
    (hm : t.mstate = MState.PART_DATA) (hpos : 0 < t.index)
    (hlt : t.index < t.boundary.length)
    (hbc : ¬ byteAt t.boundary t.index = c) :
    sStep t c =
      ({ t with
           index := 0,
           dataAcc := t.dataAcc ++ t.lookbehind.take t.index }, [], true) := by
  rw [sStep_pd t c hm]
  unfold sPartData sPpdMatch sPpdFinish
  rw [if_pos hlt, if_neg hbc]
  simp only []
  repeat' split
  all_goals first | rfl | omega | (simp_all; done) | (simp; done)

theorem sConsume_pd_pos_match (t : SState) (c : Nat)
    (hm : t.mstate = MState.PART_DATA) (hpos : 0 < t.index)
    (hlt : t.index < t.boundary.length) (hcap : t.index < t.lookbehind.length)
    (hbc : byteAt t.boundary t.index = c) :
    sConsume t c =
      ({ t with
           index := t.index + 1,
           lookbehind := t.lookbehind.set t.index c }, []) := by
  rw [sConsume_no_stutter t c
    (by rw [sStep_pd_pos_match t c hm hpos hlt hcap hbc]),
    sStep_pd_pos_match t c hm hpos hlt hcap hbc]

theorem sConsume_pd_pos_miss (t : SState) (c : Nat)
    (hm : t.mstate = MState.PART_DATA) (hpos : 0 < t.index)
    (hlt : t.index < t.boundary.length) (hlb : 0 < t.lookbehind.length)
    (hbc : ¬ byteAt t.boundary t.index = c) :
    sConsume t c =
      if byteAt t.boundary 0 = c then
        ({ t with
             index := 1,
             lookbehind := t.lookbehind.set 0 c,
             dataAcc := t.dataAcc ++ t.lookbehind.take t.index }, [])
      else
        ({ t with
             index := 0,
             dataAcc := t.dataAcc ++ t.lookbehind.take t.index ++ [c] }, []) := by
  have hstep := sStep_pd_pos_miss t c hm hpos hlt hbc
  unfold sConsume
  rw [hstep]
  dsimp only
  rw [sStep_pd0
    ({ t with index := 0, dataAcc := t.dataAcc ++ t.lookbehind.take t.index })
    c hm rfl (by show 0 < t.boundary.length; omega)
    (by show 0 < t.lookbehind.length; omega)]
  dsimp only
  by_cases hbc0 : byteAt t.boundary 0 = c
  · rw [if_pos hbc0, if_pos hbc0]
    simp
  · rw [if_neg hbc0, if_neg hbc0]
    simp [List.append_assoc]

theorem take_succ_set (l : List Nat) (i : Nat) (a : Nat) (h : i < l.length) :
    (l.set i a).take (i + 1) = l.take i ++ [a] := by
  induction l generalizing i with
  | nil => simp at h
  | cons b l ih =>
    cases i with
    | zero => simp
    | succ i =>
      simp only [List.set_cons_succ, List.take_succ_cons, List.length_cons] at h ⊢
      rw [ih i (by omega)]
      rfl

/-- Running the reference machine in part-data over a window that is at most
one boundary length long, starting with that much room for the live match
index, and whose last byte occurs nowhere in the boundary: every candidate
dies inside the window, no events are emitted, the index returns to 0 and the
window's bytes (preceded by any replayed candidate prefix) all land in the
data accumulator.  This is the byte-level account of one boyer-moore skip. -/
theorem sRun_pd_window : ∀ (u : List Nat) (t : SState),
    t.mstate = MState.PART_DATA →
    t.boundary.length ≤ t.lookbehind.length →
    t.index + u.length ≤ t.boundary.length →
    (u = [] → t.index = 0) →
    (u ≠ [] → isBoundaryChar t.boundary (byteAt u (u.length - 1)) = false) →
    ∃ lb2, sRun t u =
      ({ t with
           index := 0,
           lookbehind := lb2,
           dataAcc := t.dataAcc ++ t.lookbehind.take t.index ++ u }, []) ∧
      lb2.length = t.lookbehind.length := by
  intro u
  induction u with
  | nil =>
    intro t hm hblb hfit hnil _
    have h0 := hnil rfl
    refine ⟨t.lookbehind, ?_, rfl⟩
    rcases t with ⟨tb, tlb, tms, tfp, tfl, tix, tfa, tva, tda⟩
    dsimp only at h0
    subst h0
    simp [sRun]
  | cons c u' ih =>
    intro t hm hblb hfit _ hlast
    have hlt : t.index < t.boundary.length := by
      simp only [List.length_cons] at hfit; omega
    have hbs : 0 < t.boundary.length := by omega
    have hlb : 0 < t.lookbehind.length := by omega
    have hlast' : u' ≠ [] →
        isBoundaryChar t.boundary (byteAt u' (u'.length - 1)) = false := by
      intro hne
      have hlu : 1 ≤ u'.length := by
        cases u' with
        | nil => exact absurd rfl hne
        | cons a b => simp
      have := hlast (by simp)
      simp only [List.length_cons, Nat.add_sub_cancel] at this
      have hsh : byteAt (c :: u') u'.length = byteAt u' (u'.length - 1) := by
        have hrw : u'.length = (u'.length - 1) + 1 := by omega
        rw [hrw]
        simp [byteAt, List.getD_cons_succ]
      rw [hsh] at this
      exact this
    have hmem : ∀ k, k < t.boundary.length → byteAt t.boundary k = c →
        u' ≠ [] := by
      intro k hk hbk hne
      subst hne
      have hIB := hlast (by simp)
      simp only [List.length_cons, List.length_nil, Nat.add_sub_cancel] at hIB
      rw [show byteAt (c :: ([] : List Nat)) 0 = c from rfl] at hIB
      have hcmem : c ∈ t.boundary := by
        rw [← hbk, byteAt_lt t.boundary k hk]
        exact t.boundary.getElem_mem hk
      have hall : c ∉ t.boundary := by
        simpa [isBoundaryChar] using hIB
      exact hall hcmem
    by_cases hbc : byteAt t.boundary t.index = c
    · -- the byte extends the candidate
      have hne' : u' ≠ [] := hmem t.index hlt hbc
      have hcons : sConsume t c =
          ({ t with
               index := t.index + 1,
               lookbehind := t.lookbehind.set t.index c }, []) := by
        by_cases h0 : t.index = 0
        · rw [sConsume_pd0 t c hm h0 hbs hlb, if_pos (by rw [← h0]; exact hbc)]
          rw [h0]
        · exact sConsume_pd_pos_match t c hm (by omega) hlt (by omega) hbc
      set t2 : SState :=
        { t with
            index := t.index + 1,
            lookbehind := t.lookbehind.set t.index c } with ht2
      obtain ⟨lb2, hrun, hlen⟩ := ih t2 hm
        (by simp only [ht2, List.length_set]; exact hblb)
        (by simp only [ht2, List.length_cons] at hfit ⊢; omega)
        (fun h => absurd h hne') hlast'
      refine ⟨lb2, ?_, by simpa [ht2] using hlen⟩
      rw [sRun_cons, hcons]
      simp only [hrun]
      have htake : t2.lookbehind.take t2.index = t.lookbehind.take t.index ++ [c] := by
        simp only [ht2]
        exact take_succ_set t.lookbehind t.index c (by omega)
      rw [htake]
      simp [ht2, List.append_assoc]
    · -- the byte kills the candidate (possibly replaying, possibly restarting)
      by_cases h0 : t.index = 0
      · have hcons : sConsume t c =
            ({ t with index := 0, dataAcc := t.dataAcc ++ [c] }, []) := by
          rw [sConsume_pd0 t c hm h0 hbs hlb,
            if_neg (by rw [← h0]; exact hbc)]
        set t2 : SState := { t with index := 0, dataAcc := t.dataAcc ++ [c] }
          with ht2
        obtain ⟨lb2, hrun, hlen⟩ := ih t2 hm
          (by simp only [ht2]; exact hblb)
          (by simp only [ht2, List.length_cons] at hfit ⊢; omega)
          (fun _ => rfl) hlast'
        refine ⟨lb2, ?_, by simpa [ht2] using hlen⟩
        rw [sRun_cons, hcons]
        simp only [hrun]
        simp [ht2, h0, List.append_assoc]
      · by_cases hbc0 : byteAt t.boundary 0 = c
        · have hne' : u' ≠ [] := hmem 0 hbs hbc0
          have hcons : sConsume t c =
              ({ t with
                   index := 1,
                   lookbehind := t.lookbehind.set 0 c,
                   dataAcc := t.dataAcc ++ t.lookbehind.take t.index }, []) := by
            rw [sConsume_pd_pos_miss t c hm (by omega) hlt hlb hbc,
              if_pos hbc0]
          set t2 : SState :=
            { t with
                index := 1,
                lookbehind := t.lookbehind.set 0 c,
                dataAcc := t.dataAcc ++ t.lookbehind.take t.index } with ht2
          obtain ⟨lb2, hrun, hlen⟩ := ih t2 hm
            (by simp only [ht2, List.length_set]; exact hblb)
            (by simp only [ht2, List.length_cons] at hfit ⊢; omega)
            (fun h => absurd h hne') hlast'
          refine ⟨lb2, ?_, by simpa [ht2] using hlen⟩
          rw [sRun_cons, hcons]
          simp only [hrun]
          have htake : t2.lookbehind.take t2.index = [c] := by
            simp only [ht2]
            have := take_succ_set t.lookbehind 0 c (by omega)
            simpa using this
          rw [htake]
          simp [ht2, List.append_assoc]
        · have hcons : sConsume t c =
              ({ t with
                   index := 0,
                   dataAcc := t.dataAcc ++ t.lookbehind.take t.index ++ [c] },
               []) := by
            rw [sConsume_pd_pos_miss t c hm (by omega) hlt hlb hbc,
              if_neg hbc0]
          set t2 : SState :=
            { t with
                index := 0,
                dataAcc := t.dataAcc ++ t.lookbehind.take t.index ++ [c] }
            with ht2
          obtain ⟨lb2, hrun, hlen⟩ := ih t2 hm
            (by simp only [ht2]; exact hblb)
            (by simp only [ht2, List.length_cons] at hfit ⊢; omega)
            (fun _ => rfl) hlast'
          refine ⟨lb2, ?_, by simpa [ht2] using hlen⟩
          rw [sRun_cons, hcons]
          simp only [hrun]
          simp [ht2, List.append_assoc]

theorem bslice_length (l : List Nat) (a b : Nat) :
    (bslice l a b).length = min b l.length - a := by
  simp [bslice]

theorem byteAt_bslice (l : List Nat) (a b k : Nat) (h1 : a + k < b)
    (h2 : a + k < l.length) : byteAt (bslice l a b) k = byteAt l (a + k) := by
  have hk : k < (bslice l a b).length := by
    rw [bslice_length]; omega
  rw [byteAt_lt _ _ hk, byteAt_lt _ _ h2]
  simp only [bslice]
  rw [List.getElem_drop, List.getElem_take]

/-- The bytes jumped over by the boyer-moore skip loop land byte-for-byte in
the reference machine's data accumulator, with no events and the match index
still 0. -/
theorem sRun_skip : ∀ (fuel i : Nat) (t : SState) (buffer : List Nat),
    t.mstate = MState.PART_DATA → t.index = 0 →
    t.boundary.length ≤ t.lookbehind.length →
    0 < t.boundary.length →
    i ≤ buffer.length →
    i ≤ skipLoopF fuel t.boundary buffer buffer.length i ∧
    skipLoopF fuel t.boundary buffer buffer.length i ≤ buffer.length ∧
    ∃ lb2,
      sRun t (bslice buffer i (skipLoopF fuel t.boundary buffer buffer.length i)) =
      ({ t with
           lookbehind := lb2,
           dataAcc := t.dataAcc ++
             bslice buffer i (skipLoopF fuel t.boundary buffer buffer.length i) },
       []) ∧
      lb2.length = t.lookbehind.length := by
  intro fuel
  induction fuel with
  | zero =>
    intro i t buffer hm h0 hblb hbs hi
    refine ⟨le_refl i, hi, t.lookbehind, ?_, rfl⟩
    simp [skipLoopF, bslice_self, sRun]
  | succ fuel ih =>
    intro i t buffer hm h0 hblb hbs hi
    rw [skipLoopF]
    rw [if_neg (by omega)]
    by_cases hfit : i + t.boundary.length ≤ buffer.length
    · rw [if_pos hfit]
      by_cases hib :
          isBoundaryChar t.boundary (byteAt buffer (i + (t.boundary.length - 1))) = true
      · rw [if_pos hib]
        refine ⟨le_refl i, hi, t.lookbehind, ?_, rfl⟩
        simp [bslice_self, sRun]
      · rw [if_neg hib]
        have hw : (bslice buffer i (i + t.boundary.length)).length =
            t.boundary.length := by
          rw [bslice_length]; omega
        have hwin := sRun_pd_window (bslice buffer i (i + t.boundary.length)) t hm
          hblb (by omega)
          (by intro hns; rw [hns] at hw; simp at hw; omega)
          (by
            intro _
            rw [hw, byteAt_bslice buffer i (i + t.boundary.length)
              (t.boundary.length - 1) (by omega) (by omega)]
            simpa using hib)
        rw [h0] at hwin
        obtain ⟨lb2, hrun, hlen⟩ := hwin
        simp only [List.take_zero, List.append_nil] at hrun
        set t2 : SState :=
          { t with
              index := 0,
              lookbehind := lb2,
              dataAcc := t.dataAcc ++ bslice buffer i (i + t.boundary.length) }
          with ht2
        have hrun2 : sRun t (bslice buffer i (i + t.boundary.length)) = (t2, []) := by
          rw [hrun]
        obtain ⟨hle1, hle2, lb3, hrun3, hlen3⟩ :=
          ih (i + t.boundary.length) t2 buffer hm rfl
            (by show t.boundary.length ≤ lb2.length; omega) hbs (by omega)
        have hb2 : t2.boundary = t.boundary := rfl
        rw [hb2] at hle1 hle2 hrun3
        have hlen3' : lb3.length = t.lookbehind.length := by
          rw [hlen3]
          exact hlen
        refine ⟨by omega, hle2, lb3, ?_, hlen3'⟩
        rw [bslice_split buffer i (i + t.boundary.length)
          (skipLoopF fuel t.boundary buffer buffer.length (i + t.boundary.length))
          (by omega) hle1]
        rw [sRun_append, hrun2]
        simp only [hrun3]
        simp [ht2, h0, List.append_assoc]
    · rw [if_neg hfit]
      refine ⟨le_refl i, hi, t.lookbehind, ?_, rfl⟩
      simp [bslice_self, sRun]

-- ### Dispatch lemmas for the feed switch

theorem stepByte_error_d (p : Parser) (buffer : List Nat) (len i c : Nat)
    (hms : p.mstate = MState.ERROR) :
    stepByte p buffer len i c = (p, [], StepRes.stop i) := by
  unfold stepByte; rw [hms]

theorem stepByte_start_d (p : Parser) (buffer : List Nat) (len i c : Nat)
    (hms : p.mstate = MState.START) :
    stepByte p buffer len i c =
    stepStartBoundary { p with index := 0, mstate := MState.START_BOUNDARY } i c := by
  unfold stepByte; rw [hms]

theorem stepByte_sb_d (p : Parser) (buffer : List Nat) (len i c : Nat)
    (hms : p.mstate = MState.START_BOUNDARY) :
    stepByte p buffer len i c = stepStartBoundary p i c := by
  unfold stepByte; rw [hms]

theorem stepByte_hfs_d (p : Parser) (buffer : List Nat) (len i c : Nat)
    (hms : p.mstate = MState.HEADER_FIELD_START) :
    stepByte p buffer len i c =
    stepHeaderField
      { p with mstate := MState.HEADER_FIELD, headerFieldMark := some i, index := 0 }
      buffer len i c := by
  unfold stepByte; rw [hms]

theorem stepByte_hf_d (p : Parser) (buffer : List Nat) (len i c : Nat)
    (hms : p.mstate = MState.HEADER_FIELD) :
    stepByte p buffer len i c = stepHeaderField p buffer len i c := by
  unfold stepByte; rw [hms]

theorem stepByte_hvs_d (p : Parser) (buffer : List Nat) (len i c : Nat)
    (hms : p.mstate = MState.HEADER_VALUE_START) :
    stepByte p buffer len i c =
    (if c = bSPACE then (p, [], StepRes.next (i + 1))
     else stepHeaderValue
       { p with headerValueMark := some i, mstate := MState.HEADER_VALUE }
       buffer len i c) := by
  unfold stepByte; rw [hms]

theorem stepByte_hv_d (p : Parser) (buffer : List Nat) (len i c : Nat)
    (hms : p.mstate = MState.HEADER_VALUE) :
    stepByte p buffer len i c = stepHeaderValue p buffer len i c := by
  unfold stepByte; rw [hms]

theorem stepByte_hvad_d (p : Parser) (buffer : List Nat) (len i c : Nat)
    (hms : p.mstate = MState.HEADER_VALUE_ALMOST_DONE) :
    stepByte p buffer len i c =
    (if c ≠ bLF then
      (setError p "Malformed header value: LF expected after CR", [], StepRes.stop i)
     else ({ p with mstate := MState.HEADER_FIELD_START }, [], StepRes.next (i + 1))) := by
  unfold stepByte; rw [hms]

theorem stepByte_had_d (p : Parser) (buffer : List Nat) (len i c : Nat)
    (hms : p.mstate = MState.HEADERS_ALMOST_DONE) :
    stepByte p buffer len i c =
    (if c ≠ bLF then
      (setError p "Malformed header ending: LF expected after CR", [], StepRes.stop i)
     else ({ p with mstate := MState.PART_DATA_START }, [MEvent.headersEnd],
           StepRes.next (i + 1))) := by
  unfold stepByte; rw [hms]

theorem stepByte_pds_d (p : Parser) (buffer : List Nat) (len i c : Nat)
    (hms : p.mstate = MState.PART_DATA_START) :
    stepByte p buffer len i c =
    (let r := processPartData
      { p with mstate := MState.PART_DATA, partDataMark := some i } buffer len i c
     (r.1, r.2.2, StepRes.next r.2.1)) := by
  unfold stepByte; rw [hms]

theorem stepByte_pd_d (p : Parser) (buffer : List Nat) (len i c : Nat)
    (hms : p.mstate = MState.PART_DATA) :
    stepByte p buffer len i c =
    (let r := processPartData p buffer len i c
     (r.1, r.2.2, StepRes.next r.2.1)) := by
  unfold stepByte; rw [hms]

theorem stepByte_end_d (p : Parser) (buffer : List Nat) (len i c : Nat)
    (hms : p.mstate = MState.END) :
    stepByte p buffer len i c = (p, [], StepRes.stop i) := by
  unfold stepByte; rw [hms]

-- ### Per-state iteration correspondence

theorem iter_sb (p : Parser) (s : SState) (i c : Nat)
    (hms : p.mstate = MState.START_BOUNDARY) (hcore : coreEq p s)
    (hbs : 4 ≤ p.boundary.length) (hidx : p.index + 1 ≤ p.boundary.length) :
    ∃ q evs R s',
      stepStartBoundary p i c = (q, evs, R) ∧
      sStartBoundary s c = (s', evs, false) ∧
      coreEq q s' ∧ q.boundary = p.boundary ∧ q.lookbehind = p.lookbehind ∧
      q.headerFieldMark = p.headerFieldMark ∧
      q.headerValueMark = p.headerValueMark ∧
      q.partDataMark = p.partDataMark ∧
      s'.fieldAcc = s.fieldAcc ∧ s'.valueAcc = s.valueAcc ∧
      s'.dataAcc = s.dataAcc ∧ s'.lookbehind = s.lookbehind ∧
      ((R = StepRes.next (i + 1) ∧
          ((q.mstate = MState.START_BOUNDARY ∧ q.index + 1 ≤ q.boundary.length) ∨
           q.mstate = MState.HEADER_FIELD_START)) ∨
       (R = StepRes.stop i ∧ q.mstate = MState.ERROR ∧ s'.mstate = MState.ERROR)) := by
  obtain ⟨hb, hm, hx, hfp, hfl, hll⟩ := hcore
  unfold stepStartBoundary sStartBoundary
  by_cases h1 : (p.index : Int) = (p.boundary.length : Int) - 2
  · have h1' : (s.index : Int) = (s.boundary.length : Int) - 2 := by
      rw [← hx, ← hb]; exact h1
    rw [if_pos h1, if_pos h1']
    by_cases hcr : c ≠ bCR
    · rw [if_pos hcr, if_pos hcr]
      exact ⟨_, _, _, _, rfl, rfl,
        ⟨hb, rfl, hx, hfp, hfl, hll⟩, rfl, rfl, rfl, rfl, rfl, rfl, rfl, rfl, rfl,
        Or.inr ⟨rfl, rfl, rfl⟩⟩
    · rw [if_neg hcr, if_neg hcr]
      refine ⟨_, _, _, _, rfl, rfl,
        ⟨hb, hm, by simp [hx], hfp, hfl, hll⟩, rfl, rfl, rfl, rfl, rfl, rfl, rfl,
        rfl, rfl, Or.inl ⟨rfl, Or.inl ⟨hms, ?_⟩⟩⟩
      show p.index + 1 + 1 ≤ p.boundary.length
      omega
  · have h1' : ¬ (s.index : Int) = (s.boundary.length : Int) - 2 := by
      rw [← hx, ← hb]; exact h1
    rw [if_neg h1, if_neg h1']
    by_cases h2 : (p.index : Int) - 1 = (p.boundary.length : Int) - 2
    · have h2' : (s.index : Int) - 1 = (s.boundary.length : Int) - 2 := by
        rw [← hx, ← hb]; exact h2
      rw [if_pos h2, if_pos h2']
      by_cases hlf : c ≠ bLF
      · rw [if_pos hlf, if_pos hlf]
        exact ⟨_, _, _, _, rfl, rfl,
          ⟨hb, rfl, hx, hfp, hfl, hll⟩, rfl, rfl, rfl, rfl, rfl, rfl, rfl, rfl,
          rfl, Or.inr ⟨rfl, rfl, rfl⟩⟩
      · rw [if_neg hlf, if_neg hlf]
        exact ⟨_, _, _, _, rfl, rfl,
          ⟨hb, rfl, rfl, hfp, hfl, hll⟩, rfl, rfl, rfl, rfl, rfl, rfl, rfl, rfl,
          rfl, Or.inl ⟨rfl, Or.inr rfl⟩⟩
    · have h2' : ¬ (s.index : Int) - 1 = (s.boundary.length : Int) - 2 := by
        rw [← hx, ← hb]; exact h2
      rw [if_neg h2, if_neg h2']
      by_cases h3 : c ≠ byteAt p.boundary (p.index + 2)
      · have h3' : c ≠ byteAt s.boundary (s.index + 2) := by
          rw [← hx, ← hb]; exact h3
        rw [if_pos h3, if_pos h3']
        exact ⟨_, _, _, _, rfl, rfl,
          ⟨hb, rfl, hx, hfp, hfl, hll⟩, rfl, rfl, rfl, rfl, rfl, rfl, rfl, rfl,
          rfl, Or.inr ⟨rfl, rfl, rfl⟩⟩
      · have h3' : ¬ c ≠ byteAt s.boundary (s.index + 2) := by
          rw [← hx, ← hb]; exact h3
        rw [if_neg h3, if_neg h3']
        refine ⟨_, _, _, _, rfl, rfl,
          ⟨hb, hm, by simp [hx], hfp, hfl, hll⟩, rfl, rfl, rfl, rfl, rfl, rfl,
          rfl, rfl, rfl, Or.inl ⟨rfl, Or.inl ⟨hms, ?_⟩⟩⟩
        show p.index + 1 + 1 ≤ p.boundary.length
        omega

theorem emitCB_evIf (mk : List Nat → MEvent) (buffer : List Nat) (m i : Nat)
    (hm : m ≤ i) (hi : i ≤ buffer.length) :
    emitCB mk buffer m i false = evIf mk (bslice buffer m i) := by
  unfold emitCB evIf
  by_cases hme : m = i
  · subst hme
    rw [if_pos ⟨rfl, rfl⟩, if_pos (bslice_self buffer m)]
  · rw [if_neg (by simp [hme])]
    have hne : bslice buffer m i ≠ [] := by
      have : (bslice buffer m i).length = min i buffer.length - m := bslice_length buffer m i
      intro hnil
      rw [hnil] at this
      simp at this
      omega
    rw [if_neg hne]

theorem iter_hf (p : Parser) (s : SState) (buffer : List Nat) (i c : Nat)
    (hms : p.mstate = MState.HEADER_FIELD) (hcore : coreEq p s)
    (hmrk : marksRel p s buffer i) (hclean : sCleanStep s c = true)
    (hi : i < buffer.length) (hc : c = byteAt buffer i) :
    ∃ q evs R s' evsS,
      stepHeaderField p buffer buffer.length i c = (q, evs, R) ∧
      sHeaderField s c = (s', evsS, false) ∧
      coreEq q s' ∧ q.boundary = p.boundary ∧ q.lookbehind = p.lookbehind ∧
      s'.lookbehind = s.lookbehind ∧ s'.dataAcc = s.dataAcc ∧
      ((R = StepRes.next (i + 1) ∧ marksRel q s' buffer (i + 1) ∧
        (q.mstate = MState.HEADER_FIELD ∨ q.mstate = MState.HEADERS_ALMOST_DONE ∨
         q.mstate = MState.HEADER_VALUE_START) ∧
        (∀ X Y, normT (X ++ pendP p buffer i) = normT (Y ++ pendS s) →
           normT ((X ++ evs) ++ pendP q buffer (i + 1)) =
           normT ((Y ++ evsS) ++ pendS s')))
       ∨ (R = StepRes.stop i ∧ q.mstate = MState.ERROR ∧ s'.mstate = MState.ERROR)) := by
  obtain ⟨hb, hm, hx, hfp, hfl, hll⟩ := hcore
  have hsm : s.mstate = MState.HEADER_FIELD := by rw [← hm, hms]
  simp only [marksRel, hms] at hmrk
  obtain ⟨hvm, hpm, hflen, m, hfm, hmi, fl, hfa⟩ := hmrk
  have hpend : pendP p buffer i = evIf MEvent.headerField (bslice buffer m i) := by
    simp [pendP, hms, hfm]
  have hpends : pendS s = evIf MEvent.headerField s.fieldAcc := by
    simp [pendS, hsm]
  unfold stepHeaderField sHeaderField
  by_cases hcr : c = bCR
  · -- CR aborts the field line; cleanness forces an empty accumulator
    rw [if_pos hcr, if_pos hcr]
    have hfe : s.fieldAcc = [] := by
      unfold sCleanStep at hclean
      rw [hsm] at hclean
      simp only [hcr] at hclean
      simp at hclean
      exact hclean
    have hsl : bslice buffer m i = [] := by
      rcases List.append_eq_nil.mp (hfa ▸ hfe : fl ++ bslice buffer m i = []) with ⟨_, h2⟩
      exact h2
    have hix0 : p.index = 0 := by rw [← hflen, hfe]; rfl
    refine ⟨_, _, _, _, _, rfl, rfl,
      ⟨hb, rfl, hx, hfp, hfl, hll⟩, rfl, rfl, rfl, rfl,
      Or.inl ⟨rfl, ?_, Or.inr (Or.inl rfl), ?_⟩⟩
    · simp [marksRel, hvm, hpm, hix0]
    · intro X Y hXY
      rw [hpend, hpends, hsl, hfe] at hXY
      simp only [evIf, if_pos rfl] at hXY
      have hq : pendP
          { p with headerFieldMark := none, mstate := MState.HEADERS_ALMOST_DONE }
          buffer (i + 1) = [] := by simp [pendP]
      have hs' : pendS { s with fieldAcc := [], mstate := MState.HEADERS_ALMOST_DONE }
          = [] := by simp [pendS]
      rw [hq, hs']
      simpa using hXY
  · rw [if_neg hcr, if_neg hcr]
    by_cases hhy : c = bHYPHEN
    · rw [if_pos hhy, if_pos hhy]
      refine ⟨_, _, _, _, _, rfl, rfl,
        ⟨hb, hms.trans hsm.symm, by simp [hx], hfp, hfl, hll⟩, rfl, rfl, rfl, rfl,
        Or.inl ⟨rfl, ?_, Or.inl hms, ?_⟩⟩
      · simp only [marksRel, hms]
        refine ⟨hvm, hpm, by simp [hflen, hx], m, hfm, by omega, fl, ?_⟩
        show s.fieldAcc ++ [c] = fl ++ bslice buffer m (i + 1)
        rw [bslice_snoc buffer m i hmi hi, hfa, ← hc, List.append_assoc]
      · intro X Y hXY
        have hq : pendP { p with index := p.index + 1 } buffer (i + 1) =
            evIf MEvent.headerField (bslice buffer m (i + 1)) := by
          simp [pendP, hms, hfm]
        have hs' : pendS { s with index := s.index + 1, fieldAcc := s.fieldAcc ++ [c] } =
            evIf MEvent.headerField (s.fieldAcc ++ [c]) := by
          simp [pendS, hsm]
        rw [hq, hs']
        simp only [List.append_nil]
        refine trace_extend X Y (evIf MEvent.headerField (bslice buffer m i))
          (evIf MEvent.headerField s.fieldAcc) _ _ [MEvent.headerField [c]] ?_ ?_ ?_
        · rw [hpend, hpends] at hXY; exact hXY
        · rw [bslice_snoc buffer m i hmi hi, ← hc]
          exact evIf_split_hf (bslice buffer m i) [c] (by simp)
        · exact evIf_split_hf s.fieldAcc [c] (by simp)
    · rw [if_neg hhy, if_neg hhy]
      by_cases hco : c = bCOLON
      · rw [if_pos hco, if_pos hco]
        by_cases h1 : p.index + 1 = 1
        · have h1' : s.index + 1 = 1 := by rw [← hx]; exact h1
          rw [if_pos (show ({ p with index := p.index + 1 } : Parser).index = 1 from h1),
            if_pos (show ({ s with index := s.index + 1 } : SState).index = 1 from h1')]
          exact ⟨_, _, _, _, _, rfl, rfl,
            ⟨hb, rfl, (show p.index + 1 = s.index + 1 by rw [hx]), hfp, hfl, hll⟩,
            rfl, rfl, rfl, rfl, Or.inr ⟨rfl, rfl, rfl⟩⟩
        · have h1' : ¬ s.index + 1 = 1 := by rw [← hx]; exact h1
          rw [if_neg (show ¬ ({ p with index := p.index + 1 } : Parser).index = 1 from h1),
            if_neg (show ¬ ({ s with index := s.index + 1 } : SState).index = 1 from h1')]
          refine ⟨_, _, _, _, _, rfl, rfl,
            ⟨hb, rfl, by simp [hx], hfp, hfl, hll⟩, rfl, rfl, rfl, rfl,
            Or.inl ⟨rfl, ?_, Or.inr (Or.inr rfl), ?_⟩⟩
          · simp only [marksRel]
            refine ⟨?_, hvm, hpm⟩
            simp [dataCallback, hfm]
          · intro X Y hXY
            have hq : pendP
                { p with
                    index := p.index + 1,
                    headerFieldMark :=
                      (dataCallback MEvent.headerField
                        ({ p with index := p.index + 1 } : Parser).headerFieldMark
                        buffer i buffer.length true false).1,
                    mstate := MState.HEADER_VALUE_START } buffer (i + 1) = [] := by
              simp [pendP]
            rw [hq]
            have hs' : pendS
                { s with
                    index := s.index + 1,
                    fieldAcc := [],
                    mstate := MState.HEADER_VALUE_START } = [] := by
              simp [pendS]
            rw [hs']
            have hev : (dataCallback MEvent.headerField
                ({ p with index := p.index + 1 } : Parser).headerFieldMark
                buffer i buffer.length true false).2 =
                evIf MEvent.headerField (bslice buffer m i) := by
              show (dataCallback MEvent.headerField p.headerFieldMark
                buffer i buffer.length true false).2 = _
              rw [hfm]
              simp only [dataCallback, if_pos rfl]
              exact emitCB_evIf MEvent.headerField buffer m i hmi (by omega)
            rw [hev]
            rw [hpend, hpends] at hXY
            calc normT (X ++ evIf MEvent.headerField (bslice buffer m i) ++ []) =
                normT (X ++ evIf MEvent.headerField (bslice buffer m i)) := by simp
              _ = normT (Y ++ evIf MEvent.headerField s.fieldAcc) := hXY
              _ = normT (Y ++ evIf MEvent.headerField s.fieldAcc ++ []) := by simp
      · rw [if_neg hco, if_neg hco]
        by_cases hcl : lower c < 97 ∨ 122 < lower c
        · rw [if_pos hcl, if_pos hcl]
          exact ⟨_, _, _, _, _, rfl, rfl,
            ⟨hb, rfl, (show p.index + 1 = s.index + 1 by rw [hx]), hfp, hfl, hll⟩,
            rfl, rfl, rfl, rfl, Or.inr ⟨rfl, rfl, rfl⟩⟩
        · rw [if_neg hcl, if_neg hcl]
          refine ⟨_, _, _, _, _, rfl, rfl,
            ⟨hb, hms.trans hsm.symm, by simp [hx], hfp, hfl, hll⟩, rfl, rfl, rfl,
            rfl, Or.inl ⟨rfl, ?_, Or.inl hms, ?_⟩⟩
          · simp only [marksRel, hms]
            refine ⟨hvm, hpm, by simp [hflen, hx], m, hfm, by omega, fl, ?_⟩
            show s.fieldAcc ++ [c] = fl ++ bslice buffer m (i + 1)
            rw [bslice_snoc buffer m i hmi hi, hfa, ← hc, List.append_assoc]
          · intro X Y hXY
            have hq : pendP { p with index := p.index + 1 } buffer (i + 1) =
                evIf MEvent.headerField (bslice buffer m (i + 1)) := by
              simp [pendP, hms, hfm]
            have hs' : pendS
                { s with index := s.index + 1, fieldAcc := s.fieldAcc ++ [c] } =
                evIf MEvent.headerField (s.fieldAcc ++ [c]) := by
              simp [pendS, hsm]
            rw [hq, hs']
            simp only [List.append_nil]
            refine trace_extend X Y (evIf MEvent.headerField (bslice buffer m i))
              (evIf MEvent.headerField s.fieldAcc) _ _ [MEvent.headerField [c]] ?_ ?_ ?_
            · rw [hpend, hpends] at hXY; exact hXY
            · rw [bslice_snoc buffer m i hmi hi, ← hc]
              exact evIf_split_hf (bslice buffer m i) [c] (by simp)
            · exact evIf_split_hf s.fieldAcc [c] (by simp)

theorem iter_hv (p : Parser) (s : SState) (buffer : List Nat) (i c : Nat)
    (hms : p.mstate = MState.HEADER_VALUE) (hcore : coreEq p s)
    (hmrk : marksRel p s buffer i) (hi : i < buffer.length)
    (hc : c = byteAt buffer i) :
    ∃ q evs s' evsS,
      stepHeaderValue p buffer buffer.length i c = (q, evs, StepRes.next (i + 1)) ∧
      sHeaderValue s c = (s', evsS, false) ∧
      coreEq q s' ∧ q.boundary = p.boundary ∧ q.lookbehind = p.lookbehind ∧
      s'.lookbehind = s.lookbehind ∧ s'.dataAcc = s.dataAcc ∧
      marksRel q s' buffer (i + 1) ∧
      (q.mstate = MState.HEADER_VALUE ∨
       q.mstate = MState.HEADER_VALUE_ALMOST_DONE) ∧
      (∀ X Y, normT (X ++ pendP p buffer i) = normT (Y ++ pendS s) →
         normT ((X ++ evs) ++ pendP q buffer (i + 1)) =
         normT ((Y ++ evsS) ++ pendS s')) := by
  obtain ⟨hb, hm, hx, hfp, hfl, hll⟩ := hcore
  have hsm : s.mstate = MState.HEADER_VALUE := by rw [← hm, hms]
  simp only [marksRel, hms] at hmrk
  obtain ⟨hfm, hpm, m, hvm, hmi, fl, hva⟩ := hmrk
  have hpend : pendP p buffer i = evIf MEvent.headerValue (bslice buffer m i) := by
    simp [pendP, hms, hvm]
  have hpends : pendS s = evIf MEvent.headerValue s.valueAcc := by
    simp [pendS, hsm]
  unfold stepHeaderValue sHeaderValue
  by_cases hcr : c = bCR
  · rw [if_pos hcr, if_pos hcr]
    have hev : (dataCallback MEvent.headerValue p.headerValueMark
        buffer i buffer.length true true).2 = [MEvent.headerValue (bslice buffer m i)] := by
      rw [hvm]
      simp [dataCallback, emitCB]
    have hmk : (dataCallback MEvent.headerValue p.headerValueMark
        buffer i buffer.length true true).1 = none := by
      rw [hvm]; simp [dataCallback]
    refine ⟨_, _, _, _, rfl, rfl,
      ⟨hb, rfl, hx, hfp, hfl, hll⟩, rfl, rfl, rfl, rfl, ?_, Or.inr rfl, ?_⟩
    · simp [marksRel, hmk, hfm, hpm]
    · intro X Y hXY
      have hq : pendP
          { p with
              headerValueMark := (dataCallback MEvent.headerValue p.headerValueMark
                buffer i buffer.length true true).1,
              mstate := MState.HEADER_VALUE_ALMOST_DONE } buffer (i + 1) = [] := by
        simp [pendP]
      have hs2 : pendS
          { s with valueAcc := [], mstate := MState.HEADER_VALUE_ALMOST_DONE } = [] := by
        simp [pendS]
      rw [hq, hs2, hev]
      simp only [List.append_nil]
      refine trace_extend X Y (evIf MEvent.headerValue (bslice buffer m i))
        (evIf MEvent.headerValue s.valueAcc) _ _
        [MEvent.headerValue [], MEvent.headerEnd] ?_ ?_ ?_
      · rw [hpend, hpends] at hXY; exact hXY
      · rw [show X = X from rfl] at hXY
        have := hv_close (bslice buffer m i)
        simpa [List.append_assoc] using this
      · have := hv_close s.valueAcc
        simpa [List.append_assoc] using this
  · rw [if_neg hcr, if_neg hcr]
    refine ⟨_, _, _, _, rfl, rfl,
      ⟨hb, hm, hx, hfp, hfl, hll⟩, rfl, rfl, rfl, rfl, ?_, Or.inl hms, ?_⟩
    · simp only [marksRel, hms]
      refine ⟨hfm, hpm, m, hvm, by omega, fl, ?_⟩
      show s.valueAcc ++ [c] = fl ++ bslice buffer m (i + 1)
      rw [bslice_snoc buffer m i hmi hi, hva, ← hc, List.append_assoc]
    · intro X Y hXY
      have hq : pendP p buffer (i + 1) =
          evIf MEvent.headerValue (bslice buffer m (i + 1)) := by
        simp [pendP, hms, hvm]
      have hs2 : pendS { s with valueAcc := s.valueAcc ++ [c] } =
          evIf MEvent.headerValue (s.valueAcc ++ [c]) := by
        simp [pendS, hsm]
      rw [hq, hs2]
      simp only [List.append_nil]
      refine trace_extend X Y (evIf MEvent.headerValue (bslice buffer m i))
        (evIf MEvent.headerValue s.valueAcc) _ _ [MEvent.headerValue [c]] ?_ ?_ ?_
      · rw [hpend, hpends] at hXY; exact hXY
      · rw [bslice_snoc buffer m i hmi hi, ← hc]
        exact evIf_split_hv (bslice buffer m i) [c] (by simp)
      · exact evIf_split_hv s.valueAcc [c] (by simp)

/-- Joint characterization of `ppdMatch` and `sPpdMatch` on one byte when a
candidate is live (`index > 0`): the two chains take the same branch and
produce mirrored updates.  The reference side prepends its pending data to
the confirm events, since the parser delivered that data when the candidate
opened. -/
theorem ppdMatch_pos_cases (p : Parser) (s : SState) (buffer : List Nat)
    (len i c : Nat)
    (hb : p.boundary = s.boundary) (hx : p.index = s.index)
    (hfp : p.flagPart = s.flagPart) (hfl : p.flagLast = s.flagLast)
    (hpos : 0 < p.index) (hbound : p.index ≤ p.boundary.length + 3) :
    (p.index < p.boundary.length ∧ byteAt p.boundary p.index = c ∧
      ppdMatch p buffer len i c = ({ p with index := p.index + 1 }, [], false) ∧
      sPpdMatch s c = ({ s with index := s.index + 1 }, [], false)) ∨
    (p.index = p.boundary.length ∧ c = bCR ∧
      ppdMatch p buffer len i c =
        ({ p with index := p.index + 1, flagPart := true }, [], false) ∧
      sPpdMatch s c = ({ s with index := s.index + 1, flagPart := true }, [], false)) ∨
    (p.index = p.boundary.length ∧ c = bHYPHEN ∧
      ppdMatch p buffer len i c =
        ({ p with index := p.index + 1, flagLast := true }, [], false) ∧
      sPpdMatch s c = ({ s with index := s.index + 1, flagLast := true }, [], false)) ∨
    (p.index = p.boundary.length + 1 ∧ p.flagPart = true ∧ c = bLF ∧
      ppdMatch p buffer len i c =
        ({ p with index := 0, flagPart := false, mstate := MState.HEADER_FIELD_START },
         [MEvent.partEnd, MEvent.partBegin], true) ∧
      sPpdMatch s c =
        ({ s with
             index := 0, flagPart := false, mstate := MState.HEADER_FIELD_START,
             dataAcc := [] },
         evIf (MEvent.partData false) s.dataAcc ++ [MEvent.partEnd, MEvent.partBegin],
         true)) ∨
    (p.index = p.boundary.length + 1 ∧ p.flagPart = false ∧ p.flagLast = true ∧
      c = bHYPHEN ∧
      ppdMatch p buffer len i c =
        ({ p with mstate := MState.END }, [MEvent.partEnd, MEvent.msgEnd], false) ∧
      sPpdMatch s c =
        ({ s with mstate := MState.END, dataAcc := [] },
         evIf (MEvent.partData false) s.dataAcc ++ [MEvent.partEnd, MEvent.msgEnd],
         false)) ∨
    (p.index = p.boundary.length + 2 ∧ c = bCR ∧
      ppdMatch p buffer len i c = ({ p with index := p.index + 1 }, [], false) ∧
      sPpdMatch s c = ({ s with index := s.index + 1 }, [], false)) ∨
    (p.index = p.boundary.length + 3 ∧ c = bLF ∧
      ppdMatch p buffer len i c =
        ({ p with index := 0, mstate := MState.END },
         [MEvent.partEnd, MEvent.msgEnd], true) ∧
      sPpdMatch s c =
        ({ s with index := 0, mstate := MState.END, dataAcc := [] },
         evIf (MEvent.partData false) s.dataAcc ++ [MEvent.partEnd, MEvent.msgEnd],
         true)) ∨
    (p.index ≤ p.boundary.length + 3 ∧
      ppdMatch p buffer len i c = ({ p with index := 0 }, [], false) ∧
      sPpdMatch s c = ({ s with index := 0 }, [], false)) := by
  have hbl : p.boundary.length = s.boundary.length := by rw [hb]
  unfold ppdMatch sPpdMatch
  by_cases hA : p.index < p.boundary.length
  · have hA' : s.index < s.boundary.length := by omega
    rw [if_pos hA, if_pos hA']
    by_cases hbc : byteAt p.boundary p.index = c
    · have hbc' : byteAt s.boundary s.index = c := by rw [← hb, ← hx]; exact hbc
      rw [if_pos hbc, if_pos hbc', if_neg (by omega)]
      exact Or.inl ⟨hA, hbc, rfl, rfl⟩
    · have hbc' : ¬ byteAt s.boundary s.index = c := by rw [← hb, ← hx]; exact hbc
      rw [if_neg hbc, if_neg hbc']
      refine Or.inr (Or.inr (Or.inr (Or.inr (Or.inr (Or.inr (Or.inr
        ⟨by omega, rfl, rfl⟩))))))
  · have hA' : ¬ s.index < s.boundary.length := by omega
    rw [if_neg hA, if_neg hA']
    by_cases hB : p.index = p.boundary.length
    · have hB' : s.index = s.boundary.length := by omega
      rw [if_pos hB, if_pos hB']
      by_cases hcr : c = bCR
      · rw [if_pos hcr, if_pos hcr]
        exact Or.inr (Or.inl ⟨hB, hcr, rfl, rfl⟩)
      · rw [if_neg hcr, if_neg hcr]
        by_cases hhy : c = bHYPHEN
        · rw [if_pos hhy, if_pos hhy]
          exact Or.inr (Or.inr (Or.inl ⟨hB, hhy, rfl, rfl⟩))
        · rw [if_neg hhy, if_neg hhy]
          refine Or.inr (Or.inr (Or.inr (Or.inr (Or.inr (Or.inr (Or.inr
            ⟨by omega, rfl, rfl⟩))))))
    · have hB' : ¬ s.index = s.boundary.length := by omega
      rw [if_neg hB, if_neg hB']
      by_cases hC : (p.index : Int) - 1 = (p.boundary.length : Int)
      · have hC' : (s.index : Int) - 1 = (s.boundary.length : Int) := by
          rw [← hx, ← hbl]; exact hC
        rw [if_pos hC, if_pos hC']
        by_cases hFP : p.flagPart
        · have hFP' : s.flagPart = true := by rw [← hfp]; simpa using hFP
          rw [if_pos hFP, if_pos hFP']
          by_cases hlf : c = bLF
          · rw [if_pos hlf, if_pos hlf]
            exact Or.inr (Or.inr (Or.inr (Or.inl
              ⟨by omega, by simpa using hFP, hlf, rfl, rfl⟩)))
          · rw [if_neg hlf, if_neg hlf]
            refine Or.inr (Or.inr (Or.inr (Or.inr (Or.inr (Or.inr (Or.inr
              ⟨by omega, rfl, rfl⟩))))))
        · have hFP' : ¬ s.flagPart = true := by rw [← hfp]; simpa using hFP
          rw [if_neg hFP, if_neg hFP']
          by_cases hFL : p.flagLast
          · have hFL' : s.flagLast = true := by rw [← hfl]; simpa using hFL
            rw [if_pos hFL, if_pos hFL']
            by_cases hhy : c = bHYPHEN
            · rw [if_pos hhy, if_pos hhy]
              exact Or.inr (Or.inr (Or.inr (Or.inr (Or.inl
                ⟨by omega, by simpa using hFP, by simpa using hFL, hhy, rfl, rfl⟩))))
            · rw [if_neg hhy, if_neg hhy]
              refine Or.inr (Or.inr (Or.inr (Or.inr (Or.inr (Or.inr (Or.inr
                ⟨by omega, rfl, rfl⟩))))))
          · have hFL' : ¬ s.flagLast = true := by rw [← hfl]; simpa using hFL
            rw [if_neg hFL, if_neg hFL']
            refine Or.inr (Or.inr (Or.inr (Or.inr (Or.inr (Or.inr (Or.inr
              ⟨by omega, rfl, rfl⟩))))))
      · have hC' : ¬ (s.index : Int) - 1 = (s.boundary.length : Int) := by
          rw [← hx, ← hbl]; exact hC
        rw [if_neg hC, if_neg hC']
        by_cases hD : (p.index : Int) - 2 = (p.boundary.length : Int)
        · have hD' : (s.index : Int) - 2 = (s.boundary.length : Int) := by
            rw [← hx, ← hbl]; exact hD
          rw [if_pos hD, if_pos hD']
          by_cases hcr : c = bCR
          · rw [if_pos hcr, if_pos hcr]
            exact Or.inr (Or.inr (Or.inr (Or.inr (Or.inr (Or.inl
              ⟨by omega, hcr, rfl, rfl⟩)))))
          · rw [if_neg hcr, if_neg hcr]
            refine Or.inr (Or.inr (Or.inr (Or.inr (Or.inr (Or.inr (Or.inr
              ⟨by omega, rfl, rfl⟩))))))
        · have hD' : ¬ (s.index : Int) - 2 = (s.boundary.length : Int) := by
            rw [← hx, ← hbl]; exact hD
          rw [if_neg hD, if_neg hD']
          by_cases hE : (p.index : Int) - (p.boundary.length : Int) = 3
          · have hE' : (s.index : Int) - (s.boundary.length : Int) = 3 := by
              rw [← hx, ← hbl]; exact hE
            rw [if_pos hE, if_pos hE']
            by_cases hlf : c = bLF
            · rw [if_pos hlf, if_pos hlf]
              exact Or.inr (Or.inr (Or.inr (Or.inr (Or.inr (Or.inr (Or.inl
                ⟨by omega, hlf, rfl, rfl⟩))))))
            · rw [if_neg hlf, if_neg hlf]
              refine Or.inr (Or.inr (Or.inr (Or.inr (Or.inr (Or.inr (Or.inr
                ⟨by omega, rfl, rfl⟩))))))
          · exfalso
            omega

theorem processPartData_pos (p : Parser) (buffer : List Nat) (len i c : Nat)
    (h0 : ¬ p.index = 0) :
    processPartData p buffer len i c =
      (if (ppdMatch p buffer len i c).2.2 then
        ((ppdMatch p buffer len i c).1, i + 1, (ppdMatch p buffer len i c).2.1)
       else ppdFinish p.index i c (ppdMatch p buffer len i c).1
         (ppdMatch p buffer len i c).2.1) := by
  unfold processPartData
  rw [if_neg h0, if_neg (by simp [h0]), if_neg h0]

theorem ppdFinish_write (prevIndex i c : Nat) (q : Parser) (evs : List MEvent)
    (hq : 0 < q.index) (hcap : q.index ≤ q.lookbehind.length) :
    ppdFinish prevIndex i c q evs =
      ({ q with lookbehind := q.lookbehind.set (q.index - 1) c }, i + 1, evs) := by
  unfold ppdFinish
  repeat' split
  all_goals first | rfl | omega

theorem ppdFinish_rep (prevIndex i c : Nat) (q : Parser) (evs : List MEvent)
    (hq : q.index = 0) (hprev : 0 < prevIndex) :
    ppdFinish prevIndex i c q evs =
      ({ q with partDataMark := some i }, i,
       evs ++ [MEvent.partData true (bslice q.lookbehind 0 prevIndex)]) := by
  unfold ppdFinish emitCB
  repeat' split
  all_goals first | rfl | omega
  all_goals simp_all

theorem sPpdFinish_write (prevIndex c : Nat) (q : SState) (evs : List MEvent)
    (hq : 0 < q.index) (hcap : q.index ≤ q.lookbehind.length) :
    sPpdFinish prevIndex c q evs =
      ({ q with lookbehind := q.lookbehind.set (q.index - 1) c }, evs, false) := by
  unfold sPpdFinish
  repeat' split
  all_goals first | rfl | omega

theorem sPpdFinish_rep (prevIndex c : Nat) (q : SState) (evs : List MEvent)
    (hq : q.index = 0) (hprev : 0 < prevIndex) :
    sPpdFinish prevIndex c q evs =
      ({ q with dataAcc := q.dataAcc ++ q.lookbehind.take prevIndex }, evs, true) := by
  unfold sPpdFinish
  repeat' split
  all_goals first | rfl | omega

theorem processPartData_pos_ret (p : Parser) (buffer : List Nat) (len i c : Nat)
    (h0 : ¬ p.index = 0) (p1 : Parser) (evs : List MEvent)
    (hm : ppdMatch p buffer len i c = (p1, evs, true)) :
    processPartData p buffer len i c = (p1, i + 1, evs) := by
  rw [processPartData_pos p buffer len i c h0, hm]
  simp

theorem processPartData_pos_fin (p : Parser) (buffer : List Nat) (len i c : Nat)
    (h0 : ¬ p.index = 0) (p1 : Parser) (evs : List MEvent)
    (hm : ppdMatch p buffer len i c = (p1, evs, false)) :
    processPartData p buffer len i c = ppdFinish p.index i c p1 evs := by
  rw [processPartData_pos p buffer len i c h0, hm]
  simp

theorem sPartData_ret (s : SState) (c : Nat) (s1 : SState) (evs : List MEvent)
    (hm : sPpdMatch s c = (s1, evs, true)) :
    sPartData s c = (s1, evs, false) := by
  unfold sPartData; rw [hm]; simp

theorem sPartData_fin (s : SState) (c : Nat) (s1 : SState) (evs : List MEvent)
    (hm : sPpdMatch s c = (s1, evs, false)) :
    sPartData s c = sPpdFinish s.index c s1 evs := by
  unfold sPartData; rw [hm]; simp

theorem normT_pd_tag (t : Bool) (l : List Nat) :
    normT [MEvent.partData t l] = normT ([] ++ [MEvent.partData false l]) := by
  cases t <;> rfl

/-- One `feed`-loop iteration in `PART_DATA` with a live candidate
(`index > 0`), against the reference machine: either the byte is processed in
lockstep (`nextI = i + 1`), or the candidate dies and is replayed — the
parser delivers the captured lookbehind bytes and steps back (`nextI = i`),
while the reference machine stutters, moving the same bytes into its data
accumulator without consuming the byte. -/
theorem iter_pd_pos (p : Parser) (s : SState) (buffer : List Nat) (i c : Nat)
    (hms : p.mstate = MState.PART_DATA) (hcore : coreEq p s)
    (hmrk : marksRel p s buffer i) (hwf : wfP p)
    (hpos : 0 < p.index) (hi : i < buffer.length) (hc : c = byteAt buffer i) :
    ∃ q nextI evs,
      processPartData p buffer buffer.length i c = (q, nextI, evs) ∧
      q.boundary = p.boundary ∧ q.lookbehind.length = p.lookbehind.length ∧
      ((nextI = i + 1 ∧ ∃ s' evsS, sConsume s c = (s', evsS) ∧
          coreEq q s' ∧ marksRel q s' buffer (i + 1) ∧
          (q.mstate = MState.PART_DATA ∨ q.mstate = MState.HEADER_FIELD_START ∨
           q.mstate = MState.END) ∧
          (∀ X Y, normT (X ++ pendP p buffer i) = normT (Y ++ pendS s) →
             normT ((X ++ evs) ++ pendP q buffer (i + 1)) =
             normT ((Y ++ evsS) ++ pendS s'))) ∨
       (nextI = i ∧ ∃ s1, sStep s c = (s1, [], true) ∧
          s1.mstate = MState.PART_DATA ∧ s1.index = 0 ∧
          coreEq q s1 ∧ marksRel q s1 buffer i ∧ q.mstate = MState.PART_DATA ∧
          (∀ X Y, normT (X ++ pendP p buffer i) = normT (Y ++ pendS s) →
             normT ((X ++ evs) ++ pendP q buffer i) = normT (Y ++ pendS s1)))) := by
  obtain ⟨hb, hm, hx, hfp, hfl, hll⟩ := hcore
  obtain ⟨hbs4, hlen8, _, _⟩ := hwf
  have hsm : s.mstate = MState.PART_DATA := by rw [← hm, hms]
  simp only [marksRel, hms] at hmrk
  obtain ⟨hfm, hvm, hbound, htake, hmark⟩ := hmrk
  rw [if_neg (by omega)] at hmark
  have hpend : pendP p buffer i = [] := by simp [pendP, hms, hmark]
  have hpends : pendS s = evIf (MEvent.partData false) s.dataAcc := by
    simp [pendS, hsm]
  have hsd : sStep s c = sPartData s c := sStep_pd s c hsm
  have hbl : p.boundary.length = s.boundary.length := by rw [hb]
  have hsl : p.lookbehind.length = s.lookbehind.length := hll
  rcases ppdMatch_pos_cases p s buffer buffer.length i c hb hx hfp hfl hpos hbound
    with ⟨hA, hbc, hPM, hSM⟩ | ⟨hB, hcc, hPM, hSM⟩ | ⟨hB, hcc, hPM, hSM⟩ |
      ⟨hC, hP1, hcc, hPM, hSM⟩ | ⟨hC, hP0, hL1, hcc, hPM, hSM⟩ |
      ⟨hD, hcc, hPM, hSM⟩ | ⟨hE, hcc, hPM, hSM⟩ | ⟨hBd, hPM, hSM⟩
  -- (1) the byte extends the candidate within the boundary bytes
  · have hfin := processPartData_pos_fin p buffer buffer.length i c (by omega) _ _ hPM
    rw [ppdFinish_write p.index i c _ []
      (by show 0 < p.index + 1; omega)
      (by show p.index + 1 ≤ p.lookbehind.length; omega)] at hfin
    have hcons := sConsume_pd_pos_match s c hsm (by omega) (by omega) (by omega)
      (by rw [← hb, ← hx]; exact hbc)
    refine ⟨_, _, _, hfin, rfl, by simp, Or.inl ⟨rfl, _, _, hcons, ?_, ?_, ?_, ?_⟩⟩
    · exact ⟨hb, hm, by simp [hx], hfp, hfl, by simp [hll]⟩
    · simp only [marksRel, hms]
      refine ⟨hfm, hvm, by omega, ?_, by rw [if_neg (by omega)]; exact hmark⟩
      show (p.lookbehind.set (p.index + 1 - 1) c).take (p.index + 1) =
        (s.lookbehind.set s.index c).take (s.index + 1)
      rw [show p.index + 1 - 1 = p.index from rfl,
        take_succ_set p.lookbehind p.index c (by omega),
        take_succ_set s.lookbehind s.index c (by omega), htake]
    · exact Or.inl hms
    · intro X Y hXY
      have hq : pendP { p with
          index := p.index + 1,
          lookbehind := p.lookbehind.set (p.index + 1 - 1) c } buffer (i + 1) = [] := by
        simp [pendP, hms, hmark]
      have hs2 : pendS { s with
          index := s.index + 1,
          lookbehind := s.lookbehind.set s.index c } =
          evIf (MEvent.partData false) s.dataAcc := by
        simp [pendS, hsm]
      rw [hq, hs2]
      rw [hpend, hpends] at hXY
      simpa using hXY
  -- (2) the byte is the CR after the boundary bytes
  · have hfin := processPartData_pos_fin p buffer buffer.length i c (by omega) _ _ hPM
    rw [ppdFinish_write p.index i c _ []
      (by show 0 < p.index + 1; omega)
      (by show p.index + 1 ≤ p.lookbehind.length; omega)] at hfin
    have hSM' : sPpdMatch s c =
        ({ s with index := s.index + 1, flagPart := true }, [], false) := hSM
    have hcons : sConsume s c =
        ({ s with
             index := s.index + 1, flagPart := true,
             lookbehind := s.lookbehind.set s.index c }, []) := by
      have hfinS := sPartData_fin s c _ _ hSM'
      rw [sPpdFinish_write s.index c _ []
        (by show 0 < s.index + 1; omega)
        (by show s.index + 1 ≤ s.lookbehind.length; omega)] at hfinS
      rw [sConsume_no_stutter s c (by rw [hsd, hfinS]), hsd, hfinS]
      try simp
    refine ⟨_, _, _, hfin, rfl, by simp, Or.inl ⟨rfl, _, _, hcons, ?_, ?_, ?_, ?_⟩⟩
    · exact ⟨hb, hm, by simp [hx], by simp, by simp [hfl], by simp [hll]⟩
    · simp only [marksRel, hms]
      refine ⟨hfm, hvm, by omega, ?_, by rw [if_neg (by omega)]; exact hmark⟩
      show (p.lookbehind.set (p.index + 1 - 1) c).take (p.index + 1) =
        (s.lookbehind.set s.index c).take (s.index + 1)
      rw [show p.index + 1 - 1 = p.index from rfl,
        take_succ_set p.lookbehind p.index c (by omega),
        take_succ_set s.lookbehind s.index c (by omega), htake]
    · exact Or.inl hms
    · intro X Y hXY
      have hq : pendP { p with
          index := p.index + 1, flagPart := true,
          lookbehind := p.lookbehind.set (p.index + 1 - 1) c } buffer (i + 1) = [] := by
        simp [pendP, hms, hmark]
      have hs2 : pendS { s with
          index := s.index + 1, flagPart := true,
          lookbehind := s.lookbehind.set s.index c } =
          evIf (MEvent.partData false) s.dataAcc := by
        simp [pendS, hsm]
      rw [hq, hs2]
      rw [hpend, hpends] at hXY
      simpa using hXY
  -- (3) the byte is the HYPHEN after the boundary bytes
  · have hfin := processPartData_pos_fin p buffer buffer.length i c (by omega) _ _ hPM
    rw [ppdFinish_write p.index i c _ []
      (by show 0 < p.index + 1; omega)
      (by show p.index + 1 ≤ p.lookbehind.length; omega)] at hfin
    have hcons : sConsume s c =
        ({ s with
             index := s.index + 1, flagLast := true,
             lookbehind := s.lookbehind.set s.index c }, []) := by
      have hfinS := sPartData_fin s c _ _ hSM
      rw [sPpdFinish_write s.index c _ []
        (by show 0 < s.index + 1; omega)
        (by show s.index + 1 ≤ s.lookbehind.length; omega)] at hfinS
      rw [sConsume_no_stutter s c (by rw [hsd, hfinS]), hsd, hfinS]
      try simp
    refine ⟨_, _, _, hfin, rfl, by simp, Or.inl ⟨rfl, _, _, hcons, ?_, ?_, ?_, ?_⟩⟩
    · exact ⟨hb, hm, by simp [hx], by simp [hfp], by simp, by simp [hll]⟩
    · simp only [marksRel, hms]
      refine ⟨hfm, hvm, by omega, ?_, by rw [if_neg (by omega)]; exact hmark⟩
      show (p.lookbehind.set (p.index + 1 - 1) c).take (p.index + 1) =
        (s.lookbehind.set s.index c).take (s.index + 1)
      rw [show p.index + 1 - 1 = p.index from rfl,
        take_succ_set p.lookbehind p.index c (by omega),
        take_succ_set s.lookbehind s.index c (by omega), htake]
    · exact Or.inl hms
    · intro X Y hXY
      have hq : pendP { p with
          index := p.index + 1, flagLast := true,
          lookbehind := p.lookbehind.set (p.index + 1 - 1) c } buffer (i + 1) = [] := by
        simp [pendP, hms, hmark]
      have hs2 : pendS { s with
          index := s.index + 1, flagLast := true,
          lookbehind := s.lookbehind.set s.index c } =
          evIf (MEvent.partData false) s.dataAcc := by
        simp [pendS, hsm]
      rw [hq, hs2]
      rw [hpend, hpends] at hXY
      simpa using hXY
  -- (4) LF confirms a part separator: partEnd/partBegin, back to headers
  · have hfeed := processPartData_pos_ret p buffer buffer.length i c (by omega) _ _ hPM
    have hcons : sConsume s c =
        ({ s with
             index := 0, flagPart := false, mstate := MState.HEADER_FIELD_START,
             dataAcc := [] },
         evIf (MEvent.partData false) s.dataAcc ++
           [MEvent.partEnd, MEvent.partBegin]) := by
      have hretS := sPartData_ret s c _ _ hSM
      rw [sConsume_no_stutter s c (by rw [hsd, hretS]), hsd, hretS]
    refine ⟨_, _, _, hfeed, rfl, by simp, Or.inl ⟨rfl, _, _, hcons, ?_, ?_, ?_, ?_⟩⟩
    · exact ⟨hb, rfl, rfl, rfl, hfl, hll⟩
    · simp [marksRel, hfm, hvm, hmark]
    · exact Or.inr (Or.inl rfl)
    · intro X Y hXY
      have hq : pendP { p with
          index := 0, flagPart := false,
          mstate := MState.HEADER_FIELD_START } buffer (i + 1) = [] := by
        simp [pendP]
      have hs2 : pendS { s with
          index := 0, flagPart := false, mstate := MState.HEADER_FIELD_START,
          dataAcc := [] } = [] := by
        simp [pendS]
      rw [hq, hs2]
      simp only [List.append_nil]
      refine trace_extend X Y [] (evIf (MEvent.partData false) s.dataAcc) _ _
        [MEvent.partEnd, MEvent.partBegin] ?_ rfl rfl
      rw [hpend, hpends] at hXY
      simpa using hXY
  -- (5) HYPHEN confirms the terminal boundary: partEnd/msgEnd, state END
  · have hfin := processPartData_pos_fin p buffer buffer.length i c (by omega) _ _ hPM
    rw [ppdFinish_write p.index i c _ _
      (by show 0 < p.index; omega)
      (by show p.index ≤ p.lookbehind.length; omega)] at hfin
    have hcons : sConsume s c =
        ({ s with
             mstate := MState.END, dataAcc := [],
             lookbehind := s.lookbehind.set (s.index - 1) c },
         evIf (MEvent.partData false) s.dataAcc ++
           [MEvent.partEnd, MEvent.msgEnd]) := by
      have hfinS := sPartData_fin s c _ _ hSM
      rw [sPpdFinish_write s.index c _ _
        (by show 0 < s.index; omega)
        (by show s.index ≤ s.lookbehind.length; omega)] at hfinS
      rw [sConsume_no_stutter s c (by rw [hsd, hfinS]), hsd, hfinS]
      try simp
    refine ⟨_, _, _, hfin, rfl, by simp, Or.inl ⟨rfl, _, _, hcons, ?_, ?_, ?_, ?_⟩⟩
    · exact ⟨hb, rfl, hx, hfp, hfl, by simp [hll]⟩
    · simp [marksRel, hfm, hvm, hmark]
    · exact Or.inr (Or.inr rfl)
    · intro X Y hXY
      have hq : pendP { p with
          mstate := MState.END,
          lookbehind := p.lookbehind.set (p.index - 1) c } buffer (i + 1) = [] := by
        simp [pendP]
      have hs2 : pendS { s with
          mstate := MState.END, dataAcc := [],
          lookbehind := s.lookbehind.set (s.index - 1) c } = [] := by
        simp [pendS]
      rw [hq, hs2]
      simp only [List.append_nil]
      refine trace_extend X Y [] (evIf (MEvent.partData false) s.dataAcc) _ _
        [MEvent.partEnd, MEvent.msgEnd] ?_ rfl rfl
      rw [hpend, hpends] at hXY
      simpa using hXY
  -- (6) CR of the terminal boundary tail
  · have hfin := processPartData_pos_fin p buffer buffer.length i c (by omega) _ _ hPM
    rw [ppdFinish_write p.index i c _ []
      (by show 0 < p.index + 1; omega)
      (by show p.index + 1 ≤ p.lookbehind.length; omega)] at hfin
    have hcons : sConsume s c =
        ({ s with
             index := s.index + 1,
             lookbehind := s.lookbehind.set s.index c }, []) := by
      have hfinS := sPartData_fin s c _ _ hSM
      rw [sPpdFinish_write s.index c _ []
        (by show 0 < s.index + 1; omega)
        (by show s.index + 1 ≤ s.lookbehind.length; omega)] at hfinS
      rw [sConsume_no_stutter s c (by rw [hsd, hfinS]), hsd, hfinS]
      try simp
    refine ⟨_, _, _, hfin, rfl, by simp, Or.inl ⟨rfl, _, _, hcons, ?_, ?_, ?_, ?_⟩⟩
    · exact ⟨hb, hm, by simp [hx], hfp, hfl, by simp [hll]⟩
    · simp only [marksRel, hms]
      refine ⟨hfm, hvm, by omega, ?_, by rw [if_neg (by omega)]; exact hmark⟩
      show (p.lookbehind.set (p.index + 1 - 1) c).take (p.index + 1) =
        (s.lookbehind.set s.index c).take (s.index + 1)
      rw [show p.index + 1 - 1 = p.index from rfl,
        take_succ_set p.lookbehind p.index c (by omega),
        take_succ_set s.lookbehind s.index c (by omega), htake]
    · exact Or.inl hms
    · intro X Y hXY
      have hq : pendP { p with
          index := p.index + 1,
          lookbehind := p.lookbehind.set (p.index + 1 - 1) c } buffer (i + 1) = [] := by
        simp [pendP, hms, hmark]
      have hs2 : pendS { s with
          index := s.index + 1,
          lookbehind := s.lookbehind.set s.index c } =
          evIf (MEvent.partData false) s.dataAcc := by
        simp [pendS, hsm]
      rw [hq, hs2]
      rw [hpend, hpends] at hXY
      simpa using hXY
  -- (7) LF confirms the end of the message: partEnd/msgEnd, state END
  · have hfeed := processPartData_pos_ret p buffer buffer.length i c (by omega) _ _ hPM
    have hcons : sConsume s c =
        ({ s with index := 0, mstate := MState.END, dataAcc := [] },
         evIf (MEvent.partData false) s.dataAcc ++
           [MEvent.partEnd, MEvent.msgEnd]) := by
      have hretS := sPartData_ret s c _ _ hSM
      rw [sConsume_no_stutter s c (by rw [hsd, hretS]), hsd, hretS]
    refine ⟨_, _, _, hfeed, rfl, by simp, Or.inl ⟨rfl, _, _, hcons, ?_, ?_, ?_, ?_⟩⟩
    · exact ⟨hb, rfl, rfl, hfp, hfl, hll⟩
    · simp [marksRel, hfm, hvm, hmark]
    · exact Or.inr (Or.inr rfl)
    · intro X Y hXY
      have hq : pendP { p with index := 0, mstate := MState.END } buffer (i + 1) =
          [] := by
        simp [pendP]
      have hs2 : pendS { s with
          index := 0, mstate := MState.END, dataAcc := [] } = [] := by
        simp [pendS]
      rw [hq, hs2]
      simp only [List.append_nil]
      refine trace_extend X Y [] (evIf (MEvent.partData false) s.dataAcc) _ _
        [MEvent.partEnd, MEvent.msgEnd] ?_ rfl rfl
      rw [hpend, hpends] at hXY
      simpa using hXY
  -- (8) the candidate dies: replay the captured lookbehind bytes
  · have hfin := processPartData_pos_fin p buffer buffer.length i c (by omega) _ _ hPM
    rw [ppdFinish_rep p.index i c _ [] rfl (by omega)] at hfin
    have hstep : sStep s c =
        ({ s with index := 0, dataAcc := s.dataAcc ++ s.lookbehind.take s.index },
         [], true) := by
      have hfinS := sPartData_fin s c _ _ hSM
      rw [sPpdFinish_rep s.index c _ [] rfl (by omega)] at hfinS
      rw [hsd, hfinS]
      try simp
    refine ⟨_, _, _, hfin, rfl, by simp, Or.inr ⟨rfl, _, hstep, hsm, rfl, ?_, ?_, hms, ?_⟩⟩
    · exact ⟨hb, hm, rfl, hfp, hfl, by simp [hll]⟩
    · simp only [marksRel, hms]
      refine ⟨hfm, hvm, by omega, by simp, ?_⟩
      exact ⟨i, rfl, le_refl i,
        s.dataAcc ++ s.lookbehind.take s.index, by simp [bslice_self]⟩
    · intro X Y hXY
      have hq : pendP { p with index := 0, partDataMark := some i } buffer i = [] := by
        simp [pendP, hms, bslice_self, evIf]
      have hs2 : pendS { s with
          index := 0, dataAcc := s.dataAcc ++ s.lookbehind.take s.index } =
          evIf (MEvent.partData false) (s.dataAcc ++ s.lookbehind.take s.index) := by
        simp [pendS, hsm]
      rw [hq, hs2]
      have htk : bslice p.lookbehind 0 p.index = s.lookbehind.take s.index := by
        rw [show bslice p.lookbehind 0 p.index = p.lookbehind.take p.index by
          simp [bslice], htake]
      have htkne : s.lookbehind.take s.index ≠ [] := by
        have : (s.lookbehind.take s.index).length = min s.index s.lookbehind.length :=
          List.length_take s.index s.lookbehind
        intro hnil
        rw [hnil] at this
        simp at this
        omega
      rw [htk]
      simp only [List.append_nil]
      refine trace_extend X Y [] (evIf (MEvent.partData false) s.dataAcc) _ _
        [MEvent.partData false (s.lookbehind.take s.index)] ?_ ?_ ?_
      · rw [hpend, hpends] at hXY
        simpa using hXY
      · exact normT_pd_tag true (s.lookbehind.take s.index)
      · exact evIf_split_pd false s.dataAcc (s.lookbehind.take s.index) htkne

theorem evIf_append_pd (a b : List Nat) :
    normT (evIf (MEvent.partData false) (a ++ b)) =
    normT (evIf (MEvent.partData false) a ++ evIf (MEvent.partData false) b) := by
  by_cases hb : b = []
  · subst hb
    simp [evIf]
  · rw [evIf_split_pd false a b hb]
    congr 1
    simp [evIf, hb]

theorem ppdFinish_plain (prevIndex i c : Nat) (q : Parser) (evs : List MEvent)
    (hq : q.index = 0) (hprev : prevIndex = 0) :
    ppdFinish prevIndex i c q evs = (q, i + 1, evs) := by
  unfold ppdFinish
  repeat' split
  all_goals first | rfl | omega

theorem processPartData_zero (p : Parser) (buffer : List Nat) (len i c : Nat)
    (h0 : p.index = 0) :
    processPartData p buffer len i c =
      (if skipLoop p.boundary buffer len i = len then (p, len + 1, [])
       else
        if (ppdMatch p buffer len (skipLoop p.boundary buffer len i)
              (byteAt buffer (skipLoop p.boundary buffer len i))).2.2 then
          ((ppdMatch p buffer len (skipLoop p.boundary buffer len i)
              (byteAt buffer (skipLoop p.boundary buffer len i))).1,
           skipLoop p.boundary buffer len i + 1,
           (ppdMatch p buffer len (skipLoop p.boundary buffer len i)
              (byteAt buffer (skipLoop p.boundary buffer len i))).2.1)
        else
          ppdFinish p.index (skipLoop p.boundary buffer len i)
            (byteAt buffer (skipLoop p.boundary buffer len i))
            (ppdMatch p buffer len (skipLoop p.boundary buffer len i)
              (byteAt buffer (skipLoop p.boundary buffer len i))).1
            (ppdMatch p buffer len (skipLoop p.boundary buffer len i)
              (byteAt buffer (skipLoop p.boundary buffer len i))).2.1) := by
  unfold processPartData
  rw [if_pos h0]
  by_cases hsk : skipLoop p.boundary buffer len i = len
  · rw [if_pos hsk, if_pos ⟨h0, hsk⟩]
  · rw [if_neg hsk, if_neg (by simp [hsk]), if_pos h0]

theorem ppdMatch_zero_match (p : Parser) (buffer : List Nat) (len i1 c1 m : Nat)
    (h0 : p.index = 0) (hbs : 0 < p.boundary.length)
    (hpm : p.partDataMark = some m) (hmi : m ≤ i1) (hil : i1 ≤ len)
    (hbc : byteAt p.boundary 0 = c1) :
    ppdMatch p buffer len i1 c1 =
      ({ p with partDataMark := none, index := 1 },
       emitCB (MEvent.partData false) buffer m i1 false, false) := by
  unfold ppdMatch
  rw [if_pos (by omega : p.index < p.boundary.length),
    if_pos (by rw [h0]; exact hbc), if_pos h0]
  simp [dataCallback, hpm, h0]

theorem ppdMatch_zero_miss (p : Parser) (buffer : List Nat) (len i1 c1 : Nat)
    (h0 : p.index = 0) (hbs : 0 < p.boundary.length)
    (hbc : ¬ byteAt p.boundary 0 = c1) :
    ppdMatch p buffer len i1 c1 = ({ p with index := 0 }, [], false) := by
  unfold ppdMatch
  rw [if_pos (by omega : p.index < p.boundary.length),
    if_neg (by rw [h0]; exact hbc)]

/-- One `feed`-loop iteration in `PART_DATA` with no live candidate: the
boyer-moore skip consumes whole windows, then at most one byte is examined.
The reference machine consumes exactly the same bytes (`bslice i (min nextI
len)`), ending in the corresponding state. -/
theorem iter_pd0 (p : Parser) (s : SState) (buffer : List Nat) (i c : Nat)
    (hms : p.mstate = MState.PART_DATA) (hcore : coreEq p s)
    (hmrk : marksRel p s buffer i) (hwf : wfP p)
    (h0 : p.index = 0) (hi : i < buffer.length) (hc : c = byteAt buffer i) :
    ∃ q nextI evs,
      processPartData p buffer buffer.length i c = (q, nextI, evs) ∧
      q.boundary = p.boundary ∧ q.lookbehind.length = p.lookbehind.length ∧
      i < nextI ∧ nextI ≤ buffer.length + 1 ∧
      q.mstate = MState.PART_DATA ∧
      ∃ s' evsS,
        sRun s (bslice buffer i (min nextI buffer.length)) = (s', evsS) ∧
        coreEq q s' ∧ marksRel q s' buffer (min nextI buffer.length) ∧
        (∀ X Y, normT (X ++ pendP p buffer i) = normT (Y ++ pendS s) →
           normT ((X ++ evs) ++ pendP q buffer (min nextI buffer.length)) =
           normT ((Y ++ evsS) ++ pendS s')) := by
  obtain ⟨hb, hm, hx, hfp, hfl, hll⟩ := hcore
  obtain ⟨hbs4, hlen8, _, _⟩ := hwf
  have hsm : s.mstate = MState.PART_DATA := by rw [← hm, hms]
  have h0s : s.index = 0 := by rw [← hx, h0]
  simp only [marksRel, hms] at hmrk
  obtain ⟨hfm, hvm, hbound, htake, hmark⟩ := hmrk
  rw [if_pos h0] at hmark
  obtain ⟨m, hpm, hmi, fl, hda⟩ := hmark
  have hpend : pendP p buffer i =
      evIf (MEvent.partData false) (bslice buffer m i) := by
    simp [pendP, hms, hpm]
  have hpends : pendS s = evIf (MEvent.partData false) s.dataAcc := by
    simp [pendS, hsm]
  have hbl : p.boundary.length = s.boundary.length := by rw [hb]
  -- the S run over the skipped windows
  obtain ⟨hle1, hle2, lb2, hrunskip, hlb2len⟩ :=
    sRun_skip (buffer.length + 1) i s buffer hsm h0s
      (by omega) (by omega) (by omega)
  have hskipeq : skipLoopF (buffer.length + 1) s.boundary buffer buffer.length i =
      skipLoop p.boundary buffer buffer.length i := by
    rw [hb]; rfl
  rw [hskipeq] at hle1 hle2 hrunskip
  have hsidx : ∀ (lb D : List Nat),
      ({ s with lookbehind := lb, dataAcc := D } : SState) =
      { s with index := 0, lookbehind := lb, dataAcc := D } := by
    intro lb D
    rw [← h0s]
  rw [hsidx] at hrunskip
  have hppd := processPartData_zero p buffer buffer.length i c h0
  by_cases hsk : skipLoop p.boundary buffer buffer.length i = buffer.length
  · -- the skip consumed the rest of the buffer
    rw [if_pos hsk] at hppd
    rw [hsk] at hrunskip
    refine ⟨p, buffer.length + 1, [], hppd, rfl, rfl, by omega, by omega, hms,
      { s with
          index := 0, lookbehind := lb2,
          dataAcc := s.dataAcc ++ bslice buffer i buffer.length }, [],
      ?_, ?_, ?_, ?_⟩
    · rw [show min (buffer.length + 1) buffer.length = buffer.length by omega]
      exact hrunskip
    · exact ⟨hb, hm, by simp [hx, h0s], hfp, hfl, by simp [hll, hlb2len]⟩
    · simp only [marksRel, hms]
      rw [show min (buffer.length + 1) buffer.length = buffer.length by omega]
      refine ⟨hfm, hvm, by omega, by simp [h0, h0s], ?_⟩
      rw [if_pos h0]
      refine ⟨m, hpm, by omega, fl, ?_⟩
      show s.dataAcc ++ bslice buffer i buffer.length = fl ++ bslice buffer m buffer.length
      rw [hda, bslice_split buffer m i buffer.length hmi (by omega), List.append_assoc]
    · intro X Y hXY
      rw [show min (buffer.length + 1) buffer.length = buffer.length by omega]
      have hq : pendP p buffer buffer.length =
          evIf (MEvent.partData false) (bslice buffer m buffer.length) := by
        simp [pendP, hms, hpm]
      have hs2 : pendS { s with
          index := 0, lookbehind := lb2,
          dataAcc := s.dataAcc ++ bslice buffer i buffer.length } =
          evIf (MEvent.partData false)
            (s.dataAcc ++ bslice buffer i buffer.length) := by
        simp [pendS, hsm]
      rw [hq, hs2]
      simp only [List.append_nil]
      refine trace_extend X Y (evIf (MEvent.partData false) (bslice buffer m i))
        (evIf (MEvent.partData false) s.dataAcc) _ _
        (evIf (MEvent.partData false) (bslice buffer i buffer.length)) ?_ ?_ ?_
      · rw [hpend, hpends] at hXY; exact hXY
      · rw [bslice_split buffer m i buffer.length hmi (by omega)]
        exact evIf_append_pd (bslice buffer m i) (bslice buffer i buffer.length)
      · exact evIf_append_pd s.dataAcc (bslice buffer i buffer.length)
  · -- the skip stopped inside the buffer: examine one byte there
    rw [if_neg hsk] at hppd
    set i1 : Nat := skipLoop p.boundary buffer buffer.length i with hi1
    have hi1len : i1 < buffer.length := by omega
    set c1 : Nat := byteAt buffer i1 with hc1
    have hmin : min (i1 + 1) buffer.length = i1 + 1 := by omega
    have hsplit : bslice buffer i (i1 + 1) = bslice buffer i i1 ++ [c1] := by
      rw [bslice_snoc buffer i i1 hle1 hi1len]
    have hs2m : ({ s with
        index := 0, lookbehind := lb2,
        dataAcc := s.dataAcc ++ bslice buffer i i1 } : SState).mstate =
        MState.PART_DATA := hsm
    by_cases hbc : byteAt p.boundary 0 = c1
    · -- the byte opens a candidate: the parser flushes its pending data
      have hpmz := ppdMatch_zero_match p buffer buffer.length i1 c1 m h0
        (by omega) hpm (by omega) (by omega) hbc
      rw [hpmz] at hppd
      rw [if_neg (by simp)] at hppd
      dsimp only at hppd
      rw [ppdFinish_write p.index i1 c1
        { p with partDataMark := none, index := 1 }
        (emitCB (MEvent.partData false) buffer m i1 false)
        (by show (0:Nat) < 1; omega)
        (by show (1:Nat) ≤ p.lookbehind.length; omega)] at hppd
      have hcons := sConsume_pd0
        ({ s with
            index := 0, lookbehind := lb2,
            dataAcc := s.dataAcc ++ bslice buffer i i1 }) c1 hs2m rfl
        (by show 0 < s.boundary.length; omega)
        (by show 0 < lb2.length; omega)
      rw [if_pos (by show byteAt s.boundary 0 = c1; rw [← hb]; exact hbc)] at hcons
      refine ⟨_, i1 + 1, _, hppd, rfl, by simp, by omega, by omega, hms,
        { s with
            index := 1, lookbehind := lb2.set 0 c1,
            dataAcc := s.dataAcc ++ bslice buffer i i1 }, [],
        ?_, ?_, ?_, ?_⟩
      · rw [hmin, hsplit, sRun_append, hrunskip]
        rw [show sRun ({ s with
            index := 0, lookbehind := lb2,
            dataAcc := s.dataAcc ++ bslice buffer i i1 } : SState) [c1] =
          ((sConsume ({ s with
              index := 0, lookbehind := lb2,
              dataAcc := s.dataAcc ++ bslice buffer i i1 } : SState) c1).1,
           (sConsume ({ s with
              index := 0, lookbehind := lb2,
              dataAcc := s.dataAcc ++ bslice buffer i i1 } : SState) c1).2 ++ [])
          from rfl, hcons]
        simp
      · exact ⟨hb, hm, by simp, hfp, hfl, by simp [hll, hlb2len]⟩
      · simp only [marksRel, hms]
        rw [hmin]
        refine ⟨hfm, hvm, by omega, ?_, by simp⟩
        show (p.lookbehind.set (1 - 1) c1).take 1 = (lb2.set 0 c1).take 1
        rw [show (1:Nat) - 1 = 0 from rfl,
          take_succ_set p.lookbehind 0 c1 (by omega),
          take_succ_set lb2 0 c1 (by omega)]
        simp
      · intro X Y hXY
        rw [hmin]
        have hq : pendP { p with
            partDataMark := none, index := 1,
            lookbehind := p.lookbehind.set (1 - 1) c1 } buffer (i1 + 1) = [] := by
          simp [pendP, hms]
        have hs3 : pendS { s with
            index := 1, lookbehind := lb2.set 0 c1,
            dataAcc := s.dataAcc ++ bslice buffer i i1 } =
            evIf (MEvent.partData false) (s.dataAcc ++ bslice buffer i i1) := by
          simp [pendS, hsm]
        rw [hq, hs3]
        simp only [List.append_nil]
        have hemit : emitCB (MEvent.partData false) buffer m i1 false =
            evIf (MEvent.partData false) (bslice buffer m i1) :=
          emitCB_evIf (MEvent.partData false) buffer m i1 (by omega) (by omega)
        rw [hemit]
        refine trace_extend X Y (evIf (MEvent.partData false) (bslice buffer m i))
          (evIf (MEvent.partData false) s.dataAcc) _ _
          (evIf (MEvent.partData false) (bslice buffer i i1)) ?_ ?_ ?_
        · rw [hpend, hpends] at hXY; exact hXY
        · rw [bslice_split buffer m i i1 hmi hle1]
          exact evIf_append_pd (bslice buffer m i) (bslice buffer i i1)
        · exact evIf_append_pd s.dataAcc (bslice buffer i i1)
    · -- the byte is ordinary data on both sides
      have hpmz := ppdMatch_zero_miss p buffer buffer.length i1 c1 h0
        (by omega) hbc
      rw [hpmz] at hppd
      rw [if_neg (by simp)] at hppd
      dsimp only at hppd
      rw [ppdFinish_plain p.index i1 c1 { p with index := 0 } [] rfl h0] at hppd
      have hcons := sConsume_pd0
        ({ s with
            index := 0, lookbehind := lb2,
            dataAcc := s.dataAcc ++ bslice buffer i i1 }) c1 hs2m rfl
        (by show 0 < s.boundary.length; omega)
        (by show 0 < lb2.length; omega)
      rw [if_neg (by show ¬ byteAt s.boundary 0 = c1; rw [← hb]; exact hbc)] at hcons
      refine ⟨_, i1 + 1, _, hppd, rfl, rfl, by omega, by omega, hms,
        { s with
            index := 0, lookbehind := lb2,
            dataAcc := s.dataAcc ++ bslice buffer i i1 ++ [c1] }, [],
        ?_, ?_, ?_, ?_⟩
      · rw [hmin, hsplit, sRun_append, hrunskip]
        rw [show sRun ({ s with
            index := 0, lookbehind := lb2,
            dataAcc := s.dataAcc ++ bslice buffer i i1 } : SState) [c1] =
          ((sConsume ({ s with
              index := 0, lookbehind := lb2,
              dataAcc := s.dataAcc ++ bslice buffer i i1 } : SState) c1).1,
           (sConsume ({ s with
              index := 0, lookbehind := lb2,
              dataAcc := s.dataAcc ++ bslice buffer i i1 } : SState) c1).2 ++ [])
          from rfl, hcons]
        simp
      · exact ⟨hb, hm, by simp [hx, h0s], hfp, hfl, by simp [hll, hlb2len]⟩
      · simp only [marksRel, hms]
        rw [hmin]
        refine ⟨hfm, hvm, by omega, by simp [h0, h0s], ?_⟩
        refine ⟨m, hpm, by omega, fl, ?_⟩
        show s.dataAcc ++ bslice buffer i i1 ++ [c1] = fl ++ bslice buffer m (i1 + 1)
        rw [hda, bslice_split buffer m i (i1 + 1) hmi (by omega),
          bslice_snoc buffer i i1 hle1 hi1len]
        simp [List.append_assoc]
      · intro X Y hXY
        rw [hmin]
        have hq : pendP { p with index := 0 } buffer (i1 + 1) =
            evIf (MEvent.partData false) (bslice buffer m (i1 + 1)) := by
          simp [pendP, hms, hpm]
        have hs3 : pendS { s with
            index := 0, lookbehind := lb2,
            dataAcc := s.dataAcc ++ bslice buffer i i1 ++ [c1] } =
            evIf (MEvent.partData false)
              (s.dataAcc ++ bslice buffer i i1 ++ [c1]) := by
          simp [pendS, hsm]
        rw [hq, hs3]
        simp only [List.append_nil]
        refine trace_extend X Y (evIf (MEvent.partData false) (bslice buffer m i))
          (evIf (MEvent.partData false) s.dataAcc) _ _
          (evIf (MEvent.partData false) (bslice buffer i (i1 + 1))) ?_ ?_ ?_
        · rw [hpend, hpends] at hXY; exact hXY
        · rw [bslice_split buffer m i (i1 + 1) hmi (by omega)]
          exact evIf_append_pd (bslice buffer m i) (bslice buffer i (i1 + 1))
        · rw [show s.dataAcc ++ bslice buffer i i1 ++ [c1] =
              s.dataAcc ++ bslice buffer i (i1 + 1) by
            rw [bslice_snoc buffer i i1 hle1 hi1len, List.append_assoc]]
          exact evIf_append_pd s.dataAcc (bslice buffer i (i1 + 1))

-- ### Plumbing for the main refinement induction

theorem sRun_drop_cons (s : SState) (buffer : List Nat) (i : Nat)
    (hi : i < buffer.length) (s' : SState) (evsS : List MEvent)
    (hcons : sConsume s (byteAt buffer i) = (s', evsS)) :
    sRun s (buffer.drop i) =
      ((sRun s' (buffer.drop (i + 1))).1,
       evsS ++ (sRun s' (buffer.drop (i + 1))).2) := by
  rw [drop_cons_byteAt buffer i hi, sRun_cons, hcons]

theorem sClean_drop_cons (s : SState) (buffer : List Nat) (i : Nat)
    (hi : i < buffer.length) (s' : SState) (evsS : List MEvent)
    (hcons : sConsume s (byteAt buffer i) = (s', evsS))
    (hcl : sClean s (buffer.drop i) = true) :
    sClean s' (buffer.drop (i + 1)) = true := by
  rw [drop_cons_byteAt buffer i hi, sClean_cons, hcons] at hcl
  exact (Bool.and_eq_true_iff.mp hcl).2

theorem sCleanStep_of_drop (s : SState) (buffer : List Nat) (i : Nat)
    (hi : i < buffer.length) (hcl : sClean s (buffer.drop i) = true) :
    sCleanStep s (byteAt buffer i) = true := by
  rw [drop_cons_byteAt buffer i hi, sClean_cons] at hcl
  exact (Bool.and_eq_true_iff.mp hcl).1

theorem normT_append_congr_left (X Y Z : List MEvent) (h : normT X = normT Y) :
    normT (X ++ Z) = normT (Y ++ Z) := by
  rw [← norm_norm_append X Z, h, norm_norm_append]

theorem peIdx_pos (p : Parser) : 1 ≤ peIdx p := by
  unfold peIdx; split <;> omega

theorem peIdx_le (p : Parser) : peIdx p ≤ 2 := by
  unfold peIdx; split <;> omega

theorem peIdx_eq_one (p : Parser) (h : p.mstate ≠ MState.PART_DATA) :
    peIdx p = 1 := by
  simp [peIdx, h]

theorem feedLoop_ge (fuel : Nat) (p : Parser) (buffer : List Nat) (len i : Nat)
    (h : ¬ i < len) : feedLoop fuel p buffer len i = (p, [], FeedOut.done i) := by
  cases fuel with
  | zero => rfl
  | succ f => exact feedLoop_exit f p buffer len i h

theorem drop_bslice_split (l : List Nat) (i j : Nat) (hij : i ≤ j)
    (hj : j ≤ l.length) : l.drop i = bslice l i j ++ l.drop j := by
  rw [← bslice_all l i, ← bslice_all l j,
    bslice_split l i j l.length hij hj]

theorem sConsume_congr (s s2 : SState) (c : Nat) (h : sStep s c = sStep s2 c) :
    sConsume s c = sConsume s2 c := by
  unfold sConsume; rw [h]

theorem sRun_cons_eq (s s2 : SState) (c : Nat) (l : List Nat)
    (h : sConsume s c = sConsume s2 c) : sRun s (c :: l) = sRun s2 (c :: l) := by
  rw [sRun_cons, sRun_cons, h]

theorem sClean_cons_congr (s s2 : SState) (c : Nat) (l : List Nat)
    (h1 : sCleanStep s c = sCleanStep s2 c) (h2 : sConsume s c = sConsume s2 c) :
    sClean s (c :: l) = sClean s2 (c :: l) := by
  rw [sClean_cons, sClean_cons, h1, h2]

/-- Assembly step for the refinement induction: one byte consumed in
lockstep, loop continues at `i + 1`. -/
theorem rl_next1 (buffer : List Nat) (fuel : Nat) (p : Parser) (s : SState)
    (i : Nat) (X Y : List MEvent) (q : Parser) (evs : List MEvent) (s' : SState)
    (evsS : List MEvent)
    (IH : RLGoal buffer fuel) (hil : i < buffer.length)
    (hstepB : stepByte p buffer buffer.length i (byteAt buffer i) =
      (q, evs, StepRes.next (i + 1)))
    (hconsS : sConsume s (byteAt buffer i) = (s', evsS))
    (hRel2 : RelMid q s' buffer (i + 1))
    (hcl : sClean s (buffer.drop i) = true)
    (hfuel2 : 2 * (buffer.length - (i + 1)) + peIdx q ≤ fuel)
    (htr2 : normT ((X ++ evs) ++ pendP q buffer (i + 1)) =
      normT ((Y ++ evsS) ++ pendS s')) :
    (∀ Q E iF,
       feedLoop (fuel + 1) p buffer buffer.length i = (Q, E, FeedOut.done iF) →
       RelMid Q (sRun s (buffer.drop i)).1 buffer buffer.length ∧
       normT ((X ++ E) ++ pendP Q buffer buffer.length) =
         normT ((Y ++ (sRun s (buffer.drop i)).2) ++
           pendS (sRun s (buffer.drop i)).1)) ∧
    (∀ Q E r,
       feedLoop (fuel + 1) p buffer buffer.length i = (Q, E, FeedOut.early r) →
       Q.mstate = (sRun s (buffer.drop i)).1.mstate ∧
       (Q.mstate = MState.END →
          normT (X ++ E) = normT (Y ++ (sRun s (buffer.drop i)).2))) := by
  have hflE := feedLoop_next fuel p buffer buffer.length i q evs (i + 1) hil hstepB
  have hSd := sRun_drop_cons s buffer i hil s' evsS hconsS
  have hcl2 := sClean_drop_cons s buffer i hil s' evsS hconsS hcl
  obtain ⟨ihdone, ihearly⟩ :=
    IH q s' (i + 1) (X ++ evs) (Y ++ evsS) hRel2 (by omega) hcl2 hfuel2 htr2
  constructor
  · intro Q E iF hEq
    rw [hflE] at hEq
    simp only [Prod.mk.injEq] at hEq
    obtain ⟨hQ, hE, hT⟩ := hEq
    obtain ⟨hRelQ, htrQ⟩ := ihdone Q
      ((feedLoop fuel q buffer buffer.length (i + 1)).2.1) iF
      (by rw [← hQ, ← hT])
    constructor
    · rw [hSd]; exact hRelQ
    · rw [hSd, ← hE]
      simpa [List.append_assoc] using htrQ
  · intro Q E r hEq
    rw [hflE] at hEq
    simp only [Prod.mk.injEq] at hEq
    obtain ⟨hQ, hE, hT⟩ := hEq
    obtain ⟨hmQ, htrQ⟩ := ihearly Q
      ((feedLoop fuel q buffer buffer.length (i + 1)).2.1) r
      (by rw [← hQ, ← hT])
    constructor
    · rw [hSd]; exact hmQ
    · intro hEND
      rw [hSd, ← hE]
      simpa [List.append_assoc] using htrQ hEND

/-- Assembly step for the refinement induction: the iteration returns early
with an error; the reference machine consumed the offending byte, reached
its own error state, and is inert thereafter. -/
theorem rl_stop (buffer : List Nat) (fuel : Nat) (p : Parser) (s : SState)
    (i : Nat) (X Y : List MEvent) (q : Parser) (evs : List MEvent) (s' : SState)
    (evsS : List MEvent)
    (hil : i < buffer.length)
    (hstepB : stepByte p buffer buffer.length i (byteAt buffer i) =
      (q, evs, StepRes.stop i))
    (hconsS : sConsume s (byteAt buffer i) = (s', evsS))
    (hqm : q.mstate = MState.ERROR) (hsm : s'.mstate = MState.ERROR) :
    (∀ Q E iF,
       feedLoop (fuel + 1) p buffer buffer.length i = (Q, E, FeedOut.done iF) →
       RelMid Q (sRun s (buffer.drop i)).1 buffer buffer.length ∧
       normT ((X ++ E) ++ pendP Q buffer buffer.length) =
         normT ((Y ++ (sRun s (buffer.drop i)).2) ++
           pendS (sRun s (buffer.drop i)).1)) ∧
    (∀ Q E r,
       feedLoop (fuel + 1) p buffer buffer.length i = (Q, E, FeedOut.early r) →
       Q.mstate = (sRun s (buffer.drop i)).1.mstate ∧
       (Q.mstate = MState.END →
          normT (X ++ E) = normT (Y ++ (sRun s (buffer.drop i)).2))) := by
  have hflE := feedLoop_stop fuel p buffer buffer.length i q evs i hil hstepB
  have hSd := sRun_drop_cons s buffer i hil s' evsS hconsS
  have hinert := sRun_inert s' (buffer.drop (i + 1)) (Or.inl hsm)
  constructor
  · intro Q E iF hEq
    rw [hflE] at hEq
    simp at hEq
  · intro Q E r hEq
    rw [hflE] at hEq
    simp only [Prod.mk.injEq] at hEq
    obtain ⟨hQ, hE, _⟩ := hEq
    constructor
    · rw [hSd, hinert, ← hQ, hqm, hsm]
    · intro hEND
      rw [← hQ, hqm] at hEND
      cases hEND

/-- Assembly step: the replay iteration — the loop revisits position `i`, the
reference machine stutters on the same byte without consuming it. -/
theorem rl_replay (buffer : List Nat) (fuel : Nat) (p : Parser) (s : SState)
    (i : Nat) (X Y : List MEvent) (q : Parser) (evs : List MEvent) (s1 : SState)
    (IH : RLGoal buffer fuel) (hil : i < buffer.length)
    (hstepB : stepByte p buffer buffer.length i (byteAt buffer i) =
      (q, evs, StepRes.next i))
    (hstut : sStep s (byteAt buffer i) = (s1, [], true))
    (hs1m : s1.mstate = MState.PART_DATA) (hs1i : s1.index = 0)
    (hRel2 : RelMid q s1 buffer i)
    (hcl : sClean s (buffer.drop i) = true)
    (hfuel2 : 2 * (buffer.length - i) + peIdx q ≤ fuel)
    (htr2 : normT ((X ++ evs) ++ pendP q buffer i) = normT (Y ++ pendS s1)) :
    (∀ Q E iF,
       feedLoop (fuel + 1) p buffer buffer.length i = (Q, E, FeedOut.done iF) →
       RelMid Q (sRun s (buffer.drop i)).1 buffer buffer.length ∧
       normT ((X ++ E) ++ pendP Q buffer buffer.length) =
         normT ((Y ++ (sRun s (buffer.drop i)).2) ++
           pendS (sRun s (buffer.drop i)).1)) ∧
    (∀ Q E r,
       feedLoop (fuel + 1) p buffer buffer.length i = (Q, E, FeedOut.early r) →
       Q.mstate = (sRun s (buffer.drop i)).1.mstate ∧
       (Q.mstate = MState.END →
          normT (X ++ E) = normT (Y ++ (sRun s (buffer.drop i)).2))) := by
  have hflE := feedLoop_next fuel p buffer buffer.length i q evs i hil hstepB
  have hdc := drop_cons_byteAt buffer i hil
  have hSd : sRun s (buffer.drop i) = sRun s1 (buffer.drop i) := by
    rw [hdc]
    exact sRun_stutter s s1 (byteAt buffer i) (buffer.drop (i + 1)) hstut hs1m hs1i
  have hcl2 : sClean s1 (buffer.drop i) = true := by
    rw [hdc]
    refine sClean_stutter s s1 (byteAt buffer i) (buffer.drop (i + 1)) hstut hs1m
      hs1i ?_
    rw [← hdc]; exact hcl
  obtain ⟨ihdone, ihearly⟩ :=
    IH q s1 i (X ++ evs) Y hRel2 (by omega) hcl2 hfuel2 htr2
  constructor
  · intro Q E iF hEq
    rw [hflE] at hEq
    simp only [Prod.mk.injEq] at hEq
    obtain ⟨hQ, hE, hT⟩ := hEq
    obtain ⟨hRelQ, htrQ⟩ := ihdone Q
      ((feedLoop fuel q buffer buffer.length i).2.1) iF (by rw [← hQ, ← hT])
    constructor
    · rw [hSd]; exact hRelQ
    · rw [hSd, ← hE]
      simpa [List.append_assoc] using htrQ
  · intro Q E r hEq
    rw [hflE] at hEq
    simp only [Prod.mk.injEq] at hEq
    obtain ⟨hQ, hE, hT⟩ := hEq
    obtain ⟨hmQ, htrQ⟩ := ihearly Q
      ((feedLoop fuel q buffer buffer.length i).2.1) r (by rw [← hQ, ← hT])
    constructor
    · rw [hSd]; exact hmQ
    · intro hEND
      rw [hSd, ← hE]
      simpa [List.append_assoc] using htrQ hEND

/-- Assembly step: a part-data iteration that consumed the slice from i to j and continues
at `j ≤ len`; the reference machine ran over exactly those bytes. -/
theorem rl_nextPD (buffer : List Nat) (fuel : Nat) (p : Parser) (s : SState)
    (i j : Nat) (X Y : List MEvent) (q : Parser) (evs : List MEvent) (s' : SState)
    (evsS : List MEvent)
    (IH : RLGoal buffer fuel) (hil : i < buffer.length)
    (hstepB : stepByte p buffer buffer.length i (byteAt buffer i) =
      (q, evs, StepRes.next j))
    (hij : i < j) (hjl : j ≤ buffer.length)
    (hSrun : sRun s (bslice buffer i j) = (s', evsS))
    (hRel2 : RelMid q s' buffer j)
    (hcl : sClean s (buffer.drop i) = true)
    (hfuel2 : 2 * (buffer.length - j) + peIdx q ≤ fuel)
    (htr2 : normT ((X ++ evs) ++ pendP q buffer j) =
      normT ((Y ++ evsS) ++ pendS s')) :
    (∀ Q E iF,
       feedLoop (fuel + 1) p buffer buffer.length i = (Q, E, FeedOut.done iF) →
       RelMid Q (sRun s (buffer.drop i)).1 buffer buffer.length ∧
       normT ((X ++ E) ++ pendP Q buffer buffer.length) =
         normT ((Y ++ (sRun s (buffer.drop i)).2) ++
           pendS (sRun s (buffer.drop i)).1)) ∧
    (∀ Q E r,
       feedLoop (fuel + 1) p buffer buffer.length i = (Q, E, FeedOut.early r) →
       Q.mstate = (sRun s (buffer.drop i)).1.mstate ∧
       (Q.mstate = MState.END →
          normT (X ++ E) = normT (Y ++ (sRun s (buffer.drop i)).2))) := by
  have hflE := feedLoop_next fuel p buffer buffer.length i q evs j hil hstepB
  have hdsp := drop_bslice_split buffer i j (by omega) hjl
  have hSd : sRun s (buffer.drop i) =
      ((sRun s' (buffer.drop j)).1, evsS ++ (sRun s' (buffer.drop j)).2) := by
    rw [hdsp, sRun_append, hSrun]
  have hcl2 : sClean s' (buffer.drop j) = true := by
    rw [hdsp, sClean_append, hSrun] at hcl
    exact (Bool.and_eq_true_iff.mp hcl).2
  obtain ⟨ihdone, ihearly⟩ :=
    IH q s' j (X ++ evs) (Y ++ evsS) hRel2 (by omega) hcl2 hfuel2 htr2
  constructor
  · intro Q E iF hEq
    rw [hflE] at hEq
    simp only [Prod.mk.injEq] at hEq
    obtain ⟨hQ, hE, hT⟩ := hEq
    obtain ⟨hRelQ, htrQ⟩ := ihdone Q
      ((feedLoop fuel q buffer buffer.length j).2.1) iF (by rw [← hQ, ← hT])
    constructor
    · rw [hSd]; exact hRelQ
    · rw [hSd, ← hE]
      simpa [List.append_assoc] using htrQ
  · intro Q E r hEq
    rw [hflE] at hEq
    simp only [Prod.mk.injEq] at hEq
    obtain ⟨hQ, hE, hT⟩ := hEq
    obtain ⟨hmQ, htrQ⟩ := ihearly Q
      ((feedLoop fuel q buffer buffer.length j).2.1) r (by rw [← hQ, ← hT])
    constructor
    · rw [hSd]; exact hmQ
    · intro hEND
      rw [hSd, ← hE]
      simpa [List.append_assoc] using htrQ hEND

/-- Assembly step: the skip ran to the end of the buffer (`nextI = len + 1`);
the loop's next test exits, and the reference machine has consumed the whole
remainder. -/
theorem rl_skipend (buffer : List Nat) (fuel : Nat) (p : Parser) (s : SState)
    (i : Nat) (X Y : List MEvent) (q : Parser) (evs : List MEvent) (s' : SState)
    (evsS : List MEvent)
    (hil : i < buffer.length)
    (hstepB : stepByte p buffer buffer.length i (byteAt buffer i) =
      (q, evs, StepRes.next (buffer.length + 1)))
    (hSrun : sRun s (bslice buffer i buffer.length) = (s', evsS))
    (hRel2 : RelMid q s' buffer buffer.length)
    (htr2 : normT ((X ++ evs) ++ pendP q buffer buffer.length) =
      normT ((Y ++ evsS) ++ pendS s')) :
    (∀ Q E iF,
       feedLoop (fuel + 1) p buffer buffer.length i = (Q, E, FeedOut.done iF) →
       RelMid Q (sRun s (buffer.drop i)).1 buffer buffer.length ∧
       normT ((X ++ E) ++ pendP Q buffer buffer.length) =
         normT ((Y ++ (sRun s (buffer.drop i)).2) ++
           pendS (sRun s (buffer.drop i)).1)) ∧
    (∀ Q E r,
       feedLoop (fuel + 1) p buffer buffer.length i = (Q, E, FeedOut.early r) →
       Q.mstate = (sRun s (buffer.drop i)).1.mstate ∧
       (Q.mstate = MState.END →
          normT (X ++ E) = normT (Y ++ (sRun s (buffer.drop i)).2))) := by
  have hflE := feedLoop_next fuel p buffer buffer.length i q evs
    (buffer.length + 1) hil hstepB
  rw [feedLoop_ge fuel q buffer buffer.length (buffer.length + 1) (by omega)]
    at hflE
  have hSd : sRun s (buffer.drop i) = (s', evsS) := by
    rw [← bslice_all buffer i]
    exact hSrun
  constructor
  · intro Q E iF hEq
    rw [hflE] at hEq
    simp only [Prod.mk.injEq] at hEq
    obtain ⟨hQ, hE, _⟩ := hEq
    rw [hSd, ← hQ, ← hE]
    refine ⟨hRel2, ?_⟩
    simpa using htr2
  · intro Q E r hEq
    rw [hflE] at hEq
    simp at hEq

/-- Assembly: both machines dispatch into the start-boundary handler (from
`Start` or `StartBoundary`); no marks are open, so the pending tails are
empty on both sides. -/
theorem rl_sbstep (buffer : List Nat) (fuel : Nat) (p : Parser) (s : SState)
    (i : Nat) (X Y : List MEvent) (p2 : Parser) (s2 : SState)
    (IH : RLGoal buffer fuel) (hil : i < buffer.length)
    (hdisp : stepByte p buffer buffer.length i (byteAt buffer i) =
      stepStartBoundary p2 i (byteAt buffer i))
    (hdispS : sStep s (byteAt buffer i) = sStartBoundary s2 (byteAt buffer i))
    (hwf2 : wfP p2) (hcore2 : coreEq p2 s2)
    (hm2 : p2.mstate = MState.START_BOUNDARY)
    (hfm2 : p2.headerFieldMark = none) (hvm2 : p2.headerValueMark = none)
    (hpm2 : p2.partDataMark = none)
    (hidx2 : p2.index + 1 ≤ p2.boundary.length)
    (hcl : sClean s (buffer.drop i) = true)
    (hfuel : 2 * (buffer.length - i) + 1 ≤ fuel + 1)
    (htrXY : normT X = normT Y) :
    (∀ Q E iF,
       feedLoop (fuel + 1) p buffer buffer.length i = (Q, E, FeedOut.done iF) →
       RelMid Q (sRun s (buffer.drop i)).1 buffer buffer.length ∧
       normT ((X ++ E) ++ pendP Q buffer buffer.length) =
         normT ((Y ++ (sRun s (buffer.drop i)).2) ++
           pendS (sRun s (buffer.drop i)).1)) ∧
    (∀ Q E r,
       feedLoop (fuel + 1) p buffer buffer.length i = (Q, E, FeedOut.early r) →
       Q.mstate = (sRun s (buffer.drop i)).1.mstate ∧
       (Q.mstate = MState.END →
          normT (X ++ E) = normT (Y ++ (sRun s (buffer.drop i)).2))) := by
  obtain ⟨q, evs, R, s', heq, heqS, hcoreQ, hbq, hlbq, hfmq, hvmq, hpmq,
    hfas, hvas, hdas, hlbs, hdicho⟩ :=
    iter_sb p2 s2 i (byteAt buffer i) hm2 hcore2 hwf2.1 hidx2
  have hcons : sConsume s (byteAt buffer i) = (s', evs) := by
    rw [sConsume_no_stutter s _ (by rw [hdispS, heqS]), hdispS, heqS]
  rcases hdicho with ⟨hR, hqm⟩ | ⟨hR, hqm, hsm'⟩
  · rw [hR] at heq
    have hstepB : stepByte p buffer buffer.length i (byteAt buffer i) =
        (q, evs, StepRes.next (i + 1)) := hdisp.trans heq
    have hqpd : q.mstate ≠ MState.PART_DATA := by
      rcases hqm with ⟨h, _⟩ | h <;> rw [h] <;> decide
    refine rl_next1 buffer fuel p s i X Y q evs s' evs IH hil hstepB hcons
      ⟨⟨by rw [hbq]; exact hwf2.1, by rw [hlbq, hbq]; exact hwf2.2.1,
        by rcases hqm with ⟨h, _⟩ | h <;> rw [h] <;> decide,
        by rcases hqm with ⟨h, _⟩ | h <;> rw [h] <;> decide⟩,
       hcoreQ, ?_, by rcases hqm with ⟨h, _⟩ | h <;> rw [h] <;> decide⟩
      hcl (by have := peIdx_eq_one q hqpd; omega) ?_
    · rcases hqm with ⟨h, hqidx⟩ | h
      · simp only [marksRel, h]
        exact ⟨by rw [hfmq]; exact hfm2, by rw [hvmq]; exact hvm2,
          by rw [hpmq]; exact hpm2, hqidx⟩
      · simp only [marksRel, h]
        exact ⟨by rw [hfmq]; exact hfm2, by rw [hvmq]; exact hvm2,
          by rw [hpmq]; exact hpm2⟩
    · have hp : pendP q buffer (i + 1) = [] := by
        rcases hqm with ⟨h, _⟩ | h <;> simp [pendP, h]
      have hs' : pendS s' = [] := by
        rcases hqm with ⟨h, _⟩ | h
        all_goals have hm' : s'.mstate = q.mstate := hcoreQ.2.1.symm
        all_goals rw [h] at hm'
        all_goals simp [pendS, hm']
      rw [hp, hs']
      simpa using normT_append_congr_left X Y evs htrXY
  · rw [hR] at heq
    exact rl_stop buffer fuel p s i X Y q evs s' evs hil (hdisp.trans heq)
      hcons hqm hsm'

/-- Assembly: both machines dispatch into the header-field handler. -/
theorem rl_hfstep (buffer : List Nat) (fuel : Nat) (p : Parser) (s : SState)
    (i : Nat) (X Y : List MEvent) (p2 : Parser) (s2 : SState)
    (IH : RLGoal buffer fuel) (hil : i < buffer.length)
    (hdisp : stepByte p buffer buffer.length i (byteAt buffer i) =
      stepHeaderField p2 buffer buffer.length i (byteAt buffer i))
    (hdispS : sStep s (byteAt buffer i) = sHeaderField s2 (byteAt buffer i))
    (hwf2 : wfP p2) (hcore2 : coreEq p2 s2)
    (hm2 : p2.mstate = MState.HEADER_FIELD)
    (hmrk2 : marksRel p2 s2 buffer i)
    (hclean2 : sCleanStep s2 (byteAt buffer i) = true)
    (hcl : sClean s (buffer.drop i) = true)
    (hfuel : 2 * (buffer.length - i) + 1 ≤ fuel + 1)
    (htr0 : normT (X ++ pendP p2 buffer i) = normT (Y ++ pendS s2)) :
    (∀ Q E iF,
       feedLoop (fuel + 1) p buffer buffer.length i = (Q, E, FeedOut.done iF) →
       RelMid Q (sRun s (buffer.drop i)).1 buffer buffer.length ∧
       normT ((X ++ E) ++ pendP Q buffer buffer.length) =
         normT ((Y ++ (sRun s (buffer.drop i)).2) ++
           pendS (sRun s (buffer.drop i)).1)) ∧
    (∀ Q E r,
       feedLoop (fuel + 1) p buffer buffer.length i = (Q, E, FeedOut.early r) →
       Q.mstate = (sRun s (buffer.drop i)).1.mstate ∧
       (Q.mstate = MState.END →
          normT (X ++ E) = normT (Y ++ (sRun s (buffer.drop i)).2))) := by
  obtain ⟨q, evs, R, s', evsS, heq, heqS, hcoreQ, hbq, hlbq, hlbs, hdas, hdicho⟩ :=
    iter_hf p2 s2 buffer i (byteAt buffer i) hm2 hcore2 hmrk2 hclean2 hil rfl
  have hcons : sConsume s (byteAt buffer i) = (s', evsS) := by
    rw [sConsume_no_stutter s _ (by rw [hdispS, heqS]), hdispS, heqS]
  rcases hdicho with ⟨hR, hmrkQ, hqm, htrT⟩ | ⟨hR, hqm, hsm'⟩
  · rw [hR] at heq
    have hqpd : q.mstate ≠ MState.PART_DATA := by
      rcases hqm with h | h | h <;> rw [h] <;> decide
    refine rl_next1 buffer fuel p s i X Y q evs s' evsS IH hil (hdisp.trans heq)
      hcons
      ⟨⟨by rw [hbq]; exact hwf2.1, by rw [hlbq, hbq]; exact hwf2.2.1,
        by rcases hqm with h | h | h <;> rw [h] <;> decide,
        by rcases hqm with h | h | h <;> rw [h] <;> decide⟩,
       hcoreQ, hmrkQ, by rcases hqm with h | h | h <;> rw [h] <;> decide⟩
      hcl (by have := peIdx_eq_one q hqpd; omega) (htrT X Y htr0)
  · rw [hR] at heq
    exact rl_stop buffer fuel p s i X Y q evs s' evsS hil (hdisp.trans heq)
      hcons hqm hsm'

/-- Assembly: both machines dispatch into the header-value handler. -/
theorem rl_hvstep (buffer : List Nat) (fuel : Nat) (p : Parser) (s : SState)
    (i : Nat) (X Y : List MEvent) (p2 : Parser) (s2 : SState)
    (IH : RLGoal buffer fuel) (hil : i < buffer.length)
    (hdisp : stepByte p buffer buffer.length i (byteAt buffer i) =
      stepHeaderValue p2 buffer buffer.length i (byteAt buffer i))
    (hdispS : sStep s (byteAt buffer i) = sHeaderValue s2 (byteAt buffer i))
    (hwf2 : wfP p2) (hcore2 : coreEq p2 s2)
    (hm2 : p2.mstate = MState.HEADER_VALUE)
    (hmrk2 : marksRel p2 s2 buffer i)
    (hcl : sClean s (buffer.drop i) = true)
    (hfuel : 2 * (buffer.length - i) + 1 ≤ fuel + 1)
    (htr0 : normT (X ++ pendP p2 buffer i) = normT (Y ++ pendS s2)) :
    (∀ Q E iF,
       feedLoop (fuel + 1) p buffer buffer.length i = (Q, E, FeedOut.done iF) →
       RelMid Q (sRun s (buffer.drop i)).1 buffer buffer.length ∧
       normT ((X ++ E) ++ pendP Q buffer buffer.length) =
         normT ((Y ++ (sRun s (buffer.drop i)).2) ++
           pendS (sRun s (buffer.drop i)).1)) ∧
    (∀ Q E r,
       feedLoop (fuel + 1) p buffer buffer.length i = (Q, E, FeedOut.early r) →
       Q.mstate = (sRun s (buffer.drop i)).1.mstate ∧
       (Q.mstate = MState.END →
          normT (X ++ E) = normT (Y ++ (sRun s (buffer.drop i)).2))) := by
  obtain ⟨q, evs, s', evsS, heq, heqS, hcoreQ, hbq, hlbq, hlbs, hdas, hmrkQ,
    hqm, htrT⟩ :=
    iter_hv p2 s2 buffer i (byteAt buffer i) hm2 hcore2 hmrk2 hil rfl
  have hcons : sConsume s (byteAt buffer i) = (s', evsS) := by
    rw [sConsume_no_stutter s _ (by rw [hdispS, heqS]), hdispS, heqS]
  have hqpd : q.mstate ≠ MState.PART_DATA := by
    rcases hqm with h | h <;> rw [h] <;> decide
  refine rl_next1 buffer fuel p s i X Y q evs s' evsS IH hil (hdisp.trans heq)
    hcons
    ⟨⟨by rw [hbq]; exact hwf2.1, by rw [hlbq, hbq]; exact hwf2.2.1,
      by rcases hqm with h | h <;> rw [h] <;> decide,
      by rcases hqm with h | h <;> rw [h] <;> decide⟩,
     hcoreQ, hmrkQ, by rcases hqm with h | h <;> rw [h] <;> decide⟩
    hcl (by have := peIdx_eq_one q hqpd; omega) (htrT X Y htr0)

/-- Assembly: a part-data iteration with a live boundary candidate
(`index > 0`): either one byte is consumed in lockstep, or the candidate
fails and the loop replays the byte, the reference machine stuttering. -/
theorem rl_pdposstep (buffer : List Nat) (fuel : Nat) (p : Parser) (s : SState)
    (i : Nat) (X Y : List MEvent)
    (IH : RLGoal buffer fuel) (hil : i < buffer.length)
    (hms : p.mstate = MState.PART_DATA) (hpos : 0 < p.index)
    (hwf : wfP p) (hcore : coreEq p s) (hmrk : marksRel p s buffer i)
    (hcl : sClean s (buffer.drop i) = true)
    (hfuel : 2 * (buffer.length - i) + 2 ≤ fuel + 1)
    (htr : normT (X ++ pendP p buffer i) = normT (Y ++ pendS s)) :
    (∀ Q E iF,
       feedLoop (fuel + 1) p buffer buffer.length i = (Q, E, FeedOut.done iF) →
       RelMid Q (sRun s (buffer.drop i)).1 buffer buffer.length ∧
       normT ((X ++ E) ++ pendP Q buffer buffer.length) =
         normT ((Y ++ (sRun s (buffer.drop i)).2) ++
           pendS (sRun s (buffer.drop i)).1)) ∧
    (∀ Q E r,
       feedLoop (fuel + 1) p buffer buffer.length i = (Q, E, FeedOut.early r) →
       Q.mstate = (sRun s (buffer.drop i)).1.mstate ∧
       (Q.mstate = MState.END →
          normT (X ++ E) = normT (Y ++ (sRun s (buffer.drop i)).2))) := by
  obtain ⟨q, nextI, evs, hppd, hbq, hlbq, hdicho⟩ :=
    iter_pd_pos p s buffer i (byteAt buffer i) hms hcore hmrk hwf hpos hil rfl
  have hstepB : stepByte p buffer buffer.length i (byteAt buffer i) =
      (q, evs, StepRes.next nextI) := by
    rw [stepByte_pd_d p buffer buffer.length i _ hms, hppd]
  rcases hdicho with ⟨hnI, s', evsS, hcons, hcoreQ, hmrkQ, hqm, htrT⟩ |
    ⟨hnI, s1, hstut, hs1m, hs1i, hcoreQ, hmrkQ, hqm, htrT⟩
  · rw [hnI] at hstepB
    refine rl_next1 buffer fuel p s i X Y q evs s' evsS IH hil hstepB hcons
      ⟨⟨by rw [hbq]; exact hwf.1, by rw [hlbq, hbq]; exact hwf.2.1,
        by rcases hqm with h | h | h <;> rw [h] <;> decide,
        by rcases hqm with h | h | h <;> rw [h] <;> decide⟩,
       hcoreQ, hmrkQ, by rcases hqm with h | h | h <;> rw [h] <;> decide⟩
      hcl (by have := peIdx_le q; omega) (htrT X Y htr)
  · rw [hnI] at hstepB
    have hqi : q.index = 0 := by rw [hcoreQ.2.2.1, hs1i]
    have hpe : peIdx q = 1 := by simp [peIdx, hqi]
    refine rl_replay buffer fuel p s i X Y q evs s1 IH hil hstepB hstut hs1m
      hs1i
      ⟨⟨by rw [hbq]; exact hwf.1, by rw [hlbq, hbq]; exact hwf.2.1,
        by rw [hqm]; decide, by rw [hqm]; decide⟩,
       hcoreQ, hmrkQ, by rw [hqm]; decide⟩
      hcl (by omega) (htrT X Y htr)

/-- Assembly: a part-data iteration with no live candidate (`index = 0`,
entered from `PartData` or `PartDataStart`): the boyer-moore skip advances the
loop to `nextI`, the reference machine running byte by byte over the same
window; if the skip consumed the rest of the buffer the loop exits. -/
theorem rl_pd0step (buffer : List Nat) (fuel : Nat) (p : Parser) (s : SState)
    (i : Nat) (X Y : List MEvent) (p2 : Parser) (s2 : SState)
    (IH : RLGoal buffer fuel) (hil : i < buffer.length)
    (hdisp : stepByte p buffer buffer.length i (byteAt buffer i) =
      (let r := processPartData p2 buffer buffer.length i (byteAt buffer i)
       (r.1, r.2.2, StepRes.next r.2.1)))
    (hm2 : p2.mstate = MState.PART_DATA) (h02 : p2.index = 0)
    (hwf2 : wfP p2) (hcore2 : coreEq p2 s2) (hmrk2 : marksRel p2 s2 buffer i)
    (hruneq : sRun s (buffer.drop i) = sRun s2 (buffer.drop i))
    (hclean2 : sClean s2 (buffer.drop i) = true)
    (hfuel : 2 * (buffer.length - i) + 1 ≤ fuel + 1)
    (htr0 : normT (X ++ pendP p2 buffer i) = normT (Y ++ pendS s2)) :
    (∀ Q E iF,
       feedLoop (fuel + 1) p buffer buffer.length i = (Q, E, FeedOut.done iF) →
       RelMid Q (sRun s (buffer.drop i)).1 buffer buffer.length ∧
       normT ((X ++ E) ++ pendP Q buffer buffer.length) =
         normT ((Y ++ (sRun s (buffer.drop i)).2) ++
           pendS (sRun s (buffer.drop i)).1)) ∧
    (∀ Q E r,
       feedLoop (fuel + 1) p buffer buffer.length i = (Q, E, FeedOut.early r) →
       Q.mstate = (sRun s (buffer.drop i)).1.mstate ∧
       (Q.mstate = MState.END →
          normT (X ++ E) = normT (Y ++ (sRun s (buffer.drop i)).2))) := by
  obtain ⟨q, nextI, evs, hppd, hbq, hlbq, hlt, hle, hqm, s', evsS, hsrun,
    hcoreQ, hmrkQ, htrT⟩ :=
    iter_pd0 p2 s2 buffer i (byteAt buffer i) hm2 hcore2 hmrk2 hwf2 h02 hil rfl
  have hstepB : stepByte p buffer buffer.length i (byteAt buffer i) =
      (q, evs, StepRes.next nextI) := by
    rw [hdisp, hppd]
  by_cases hnl : nextI ≤ buffer.length
  · have hmin : min nextI buffer.length = nextI := by omega
    rw [hmin] at hsrun hmrkQ htrT
    have hconc := rl_nextPD buffer fuel p s2 i nextI X Y q evs s' evsS IH hil
      hstepB hlt hnl hsrun
      ⟨⟨by rw [hbq]; exact hwf2.1, by rw [hlbq, hbq]; exact hwf2.2.1,
        by rw [hqm]; decide, by rw [hqm]; decide⟩,
       hcoreQ, hmrkQ, by rw [hqm]; decide⟩
      hclean2 (by have := peIdx_le q; omega) (htrT X Y htr0)
    rw [hruneq]
    exact hconc
  · have hnI : nextI = buffer.length + 1 := by omega
    subst hnI
    have hmin : min (buffer.length + 1) buffer.length = buffer.length := by
      omega
    rw [hmin] at hsrun hmrkQ htrT
    have hconc := rl_skipend buffer fuel p s2 i X Y q evs s' evsS hil hstepB
      hsrun
      ⟨⟨by rw [hbq]; exact hwf2.1, by rw [hlbq, hbq]; exact hwf2.2.1,
        by rw [hqm]; decide, by rw [hqm]; decide⟩,
       hcoreQ, hmrkQ, by rw [hqm]; decide⟩
      (htrT X Y htr0)
    rw [hruneq]
    exact hconc

/-- The mid-buffer refinement: from related configurations the feed loop and
the chunk-agnostic reference machine stay related over the remaining bytes of
the buffer, for every sufficient fuel. -/
theorem refineLoop (buffer : List Nat) (fuel : Nat) : RLGoal buffer fuel := by
  induction fuel with
  | zero =>
    intro p s i X Y hRel hile hcl hfuel htr
    exact absurd hfuel (by have := peIdx_pos p; omega)
  | succ fuel IH =>
    intro p s i X Y hRel hile hcl hfuel htr
    obtain ⟨hwf, hcore, hmrk, hne⟩ := hRel
    by_cases hil : i < buffer.length
    case neg =>
      have hieq : i = buffer.length := by omega
      have hdrop : buffer.drop i = [] := by rw [hieq, List.drop_length]
      have hrun0 : sRun s (buffer.drop i) = (s, []) := by rw [hdrop]; rfl
      constructor
      · intro q evs iF hEq
        rw [feedLoop_exit fuel p buffer buffer.length i hil] at hEq
        simp only [Prod.mk.injEq] at hEq
        obtain ⟨hq, hevs, _⟩ := hEq
        constructor
        · rw [hrun0]
          show RelMid q s buffer buffer.length
          rw [← hq, ← hieq]
          exact ⟨hwf, hcore, hmrk, hne⟩
        · rw [hrun0, ← hq, ← hevs, ← hieq]
          simpa using htr
      · intro q evs r hEq
        rw [feedLoop_exit fuel p buffer buffer.length i hil] at hEq
        simp at hEq
    case pos =>
    cases hms : p.mstate with
    | ERROR => exact absurd hms hne
    | PART_END => exact absurd hms hwf.2.2.1
    | ENDEEND => exact absurd hms hwf.2.2.2
    | END =>
      have hsm : s.mstate = MState.END := by rw [← hcore.2.1, hms]
      have hflE := feedLoop_stop fuel p buffer buffer.length i p [] i hil
        (stepByte_end_d p buffer buffer.length i _ hms)
      have hrunI := sRun_inert s (buffer.drop i) (Or.inr (Or.inl hsm))
      have hpendp : pendP p buffer i = [] := by simp [pendP, hms]
      have hpends : pendS s = [] := by simp [pendS, hsm]
      rw [hpendp, hpends] at htr
      simp only [List.append_nil] at htr
      constructor
      · intro q evs iF hEq
        rw [hflE] at hEq
        simp at hEq
      · intro q evs r hEq
        rw [hflE] at hEq
        simp only [Prod.mk.injEq] at hEq
        obtain ⟨hq, hevs, _⟩ := hEq
        rw [hrunI]
        constructor
        · rw [← hq]
          show p.mstate = s.mstate
          exact hcore.2.1
        · intro _
          rw [← hevs]
          show normT (X ++ []) = normT (Y ++ [])
          simpa using htr
    | START =>
      have hsm : s.mstate = MState.START := by rw [← hcore.2.1, hms]
      simp only [marksRel, hms] at hmrk
      obtain ⟨hfm, hvm, hpm⟩ := hmrk
      have hpendp : pendP p buffer i = [] := by simp [pendP, hms]
      have hpends : pendS s = [] := by simp [pendS, hsm]
      rw [hpendp, hpends] at htr
      simp only [List.append_nil] at htr
      have hpe : peIdx p = 1 := peIdx_eq_one p (by rw [hms]; decide)
      refine rl_sbstep buffer fuel p s i X Y
        { p with index := 0, mstate := MState.START_BOUNDARY }
        { s with index := 0, mstate := MState.START_BOUNDARY }
        IH hil (stepByte_start_d p buffer buffer.length i _ hms)
        (sStep_start s _ hsm)
        ⟨hwf.1, hwf.2.1,
         (show MState.START_BOUNDARY ≠ MState.PART_END by decide),
         (show MState.START_BOUNDARY ≠ MState.ENDEEND by decide)⟩
        ⟨hcore.1, rfl, rfl, hcore.2.2.2.1, hcore.2.2.2.2.1, hcore.2.2.2.2.2⟩
        rfl hfm hvm hpm ?_ hcl (by omega) htr
      show 0 + 1 ≤ p.boundary.length
      have := hwf.1
      omega
    | START_BOUNDARY =>
      have hsm : s.mstate = MState.START_BOUNDARY := by rw [← hcore.2.1, hms]
      simp only [marksRel, hms] at hmrk
      obtain ⟨hfm, hvm, hpm, hidx⟩ := hmrk
      have hpendp : pendP p buffer i = [] := by simp [pendP, hms]
      have hpends : pendS s = [] := by simp [pendS, hsm]
      rw [hpendp, hpends] at htr
      simp only [List.append_nil] at htr
      have hpe : peIdx p = 1 := peIdx_eq_one p (by rw [hms]; decide)
      exact rl_sbstep buffer fuel p s i X Y p s IH hil
        (stepByte_sb_d p buffer buffer.length i _ hms) (sStep_sb s _ hsm)
        hwf hcore hms hfm hvm hpm hidx hcl (by omega) htr
    | HEADER_FIELD_START =>
      have hsm : s.mstate = MState.HEADER_FIELD_START := by
        rw [← hcore.2.1, hms]
      simp only [marksRel, hms] at hmrk
      obtain ⟨hfm, hvm, hpm⟩ := hmrk
      have hpendp : pendP p buffer i = [] := by simp [pendP, hms]
      have hpends : pendS s = [] := by simp [pendS, hsm]
      rw [hpendp, hpends] at htr
      simp only [List.append_nil] at htr
      have hpe : peIdx p = 1 := peIdx_eq_one p (by rw [hms]; decide)
      refine rl_hfstep buffer fuel p s i X Y
        { p with
            mstate := MState.HEADER_FIELD, headerFieldMark := some i,
            index := 0 }
        { s with
            mstate := MState.HEADER_FIELD, fieldAcc := [], index := 0 }
        IH hil (stepByte_hfs_d p buffer buffer.length i _ hms)
        (sStep_hfs s _ hsm)
        ⟨hwf.1, hwf.2.1,
         (show MState.HEADER_FIELD ≠ MState.PART_END by decide),
         (show MState.HEADER_FIELD ≠ MState.ENDEEND by decide)⟩
        ⟨hcore.1, rfl, rfl, hcore.2.2.2.1, hcore.2.2.2.2.1, hcore.2.2.2.2.2⟩
        rfl ⟨hvm, hpm, rfl, i, rfl, le_refl i, [], by simp [bslice_self]⟩
        (by simp [sCleanStep]) hcl (by omega) ?_
      have hp2 : pendP
          { p with
              mstate := MState.HEADER_FIELD, headerFieldMark := some i,
              index := 0 } buffer i = [] := by
        simp [pendP, bslice_self, evIf]
      have hs2 : pendS
          { s with
              mstate := MState.HEADER_FIELD, fieldAcc := [], index := 0 } =
          [] := by
        simp [pendS, evIf]
      rw [hp2, hs2]
      simpa using htr
    | HEADER_FIELD =>
      have hsm : s.mstate = MState.HEADER_FIELD := by rw [← hcore.2.1, hms]
      have hpe : peIdx p = 1 := peIdx_eq_one p (by rw [hms]; decide)
      exact rl_hfstep buffer fuel p s i X Y p s IH hil
        (stepByte_hf_d p buffer buffer.length i _ hms) (sStep_hf s _ hsm)
        hwf hcore hms hmrk (sCleanStep_of_drop s buffer i hil hcl) hcl
        (by omega) htr
    | HEADER_VALUE_START =>
      have hsm : s.mstate = MState.HEADER_VALUE_START := by
        rw [← hcore.2.1, hms]
      simp only [marksRel, hms] at hmrk
      obtain ⟨hfm, hvm, hpm⟩ := hmrk
      have hpendp : pendP p buffer i = [] := by simp [pendP, hms]
      have hpends : pendS s = [] := by simp [pendS, hsm]
      rw [hpendp, hpends] at htr
      simp only [List.append_nil] at htr
      have hpe : peIdx p = 1 := peIdx_eq_one p (by rw [hms]; decide)
      by_cases hsp : byteAt buffer i = bSPACE
      · have hstepB : stepByte p buffer buffer.length i (byteAt buffer i) =
            (p, [], StepRes.next (i + 1)) := by
          rw [stepByte_hvs_d p buffer buffer.length i _ hms, if_pos hsp]
        have hsstep : sStep s (byteAt buffer i) = (s, [], false) := by
          rw [sStep_hvs s _ hsm, if_pos hsp]
        have hcons : sConsume s (byteAt buffer i) = (s, []) := by
          rw [sConsume_no_stutter s _ (by rw [hsstep]), hsstep]
        refine rl_next1 buffer fuel p s i X Y p [] s [] IH hil hstepB hcons
          ⟨hwf, hcore, ?_, by rw [hms]; decide⟩ hcl (by omega) ?_
        · simp only [marksRel, hms]
          exact ⟨hfm, hvm, hpm⟩
        · have hp2 : pendP p buffer (i + 1) = [] := by simp [pendP, hms]
          rw [hp2, hpends]
          simpa using htr
      · refine rl_hvstep buffer fuel p s i X Y
          { p with headerValueMark := some i, mstate := MState.HEADER_VALUE }
          { s with valueAcc := [], mstate := MState.HEADER_VALUE }
          IH hil ?_ ?_
          ⟨hwf.1, hwf.2.1,
           (show MState.HEADER_VALUE ≠ MState.PART_END by decide),
           (show MState.HEADER_VALUE ≠ MState.ENDEEND by decide)⟩
          ⟨hcore.1, rfl, hcore.2.2.1, hcore.2.2.2.1, hcore.2.2.2.2.1,
            hcore.2.2.2.2.2⟩
          rfl ⟨hfm, hpm, i, rfl, le_refl i, [], by simp [bslice_self]⟩
          hcl (by omega) ?_
        · rw [stepByte_hvs_d p buffer buffer.length i _ hms, if_neg hsp]
        · rw [sStep_hvs s _ hsm, if_neg hsp]
        · have hp2 : pendP
              { p with
                  headerValueMark := some i,
                  mstate := MState.HEADER_VALUE } buffer i = [] := by
            simp [pendP, bslice_self, evIf]
          have hs2 : pendS
              { s with
                  valueAcc := [], mstate := MState.HEADER_VALUE } = [] := by
            simp [pendS, evIf]
          rw [hp2, hs2]
          simpa using htr
    | HEADER_VALUE =>
      have hsm : s.mstate = MState.HEADER_VALUE := by rw [← hcore.2.1, hms]
      have hpe : peIdx p = 1 := peIdx_eq_one p (by rw [hms]; decide)
      exact rl_hvstep buffer fuel p s i X Y p s IH hil
        (stepByte_hv_d p buffer buffer.length i _ hms) (sStep_hv s _ hsm)
        hwf hcore hms hmrk hcl (by omega) htr
    | HEADER_VALUE_ALMOST_DONE =>
      have hsm : s.mstate = MState.HEADER_VALUE_ALMOST_DONE := by
        rw [← hcore.2.1, hms]
      simp only [marksRel, hms] at hmrk
      obtain ⟨hfm, hvm, hpm⟩ := hmrk
      have hpendp : pendP p buffer i = [] := by simp [pendP, hms]
      have hpends : pendS s = [] := by simp [pendS, hsm]
      rw [hpendp, hpends] at htr
      simp only [List.append_nil] at htr
      have hpe : peIdx p = 1 := peIdx_eq_one p (by rw [hms]; decide)
      by_cases hlf : byteAt buffer i ≠ bLF
      · have hstepB : stepByte p buffer buffer.length i (byteAt buffer i) =
            (setError p "Malformed header value: LF expected after CR", [],
             StepRes.stop i) := by
          rw [stepByte_hvad_d p buffer buffer.length i _ hms, if_pos hlf]
        have hsstep : sStep s (byteAt buffer i) = (sSetError s, [], false) := by
          rw [sStep_hvad s _ hsm, if_pos hlf]
        have hcons : sConsume s (byteAt buffer i) = (sSetError s, []) := by
          rw [sConsume_no_stutter s _ (by rw [hsstep]), hsstep]
        exact rl_stop buffer fuel p s i X Y _ [] _ [] hil hstepB hcons rfl rfl
      · have hstepB : stepByte p buffer buffer.length i (byteAt buffer i) =
            ({ p with mstate := MState.HEADER_FIELD_START }, [],
             StepRes.next (i + 1)) := by
          rw [stepByte_hvad_d p buffer buffer.length i _ hms, if_neg hlf]
        have hsstep : sStep s (byteAt buffer i) =
            ({ s with mstate := MState.HEADER_FIELD_START }, [], false) := by
          rw [sStep_hvad s _ hsm, if_neg hlf]
        have hcons : sConsume s (byteAt buffer i) =
            ({ s with mstate := MState.HEADER_FIELD_START }, []) := by
          rw [sConsume_no_stutter s _ (by rw [hsstep]), hsstep]
        refine rl_next1 buffer fuel p s i X Y
          { p with mstate := MState.HEADER_FIELD_START } []
          { s with mstate := MState.HEADER_FIELD_START } [] IH hil hstepB hcons
          ⟨⟨hwf.1, hwf.2.1,
            (show MState.HEADER_FIELD_START ≠ MState.PART_END by decide),
            (show MState.HEADER_FIELD_START ≠ MState.ENDEEND by decide)⟩,
           ⟨hcore.1, rfl, hcore.2.2.1, hcore.2.2.2.1, hcore.2.2.2.2.1,
             hcore.2.2.2.2.2⟩,
           ⟨hfm, hvm, hpm⟩,
           (show MState.HEADER_FIELD_START ≠ MState.ERROR by decide)⟩
          hcl
          (by
            have h1 : peIdx { p with mstate := MState.HEADER_FIELD_START } = 1 :=
              peIdx_eq_one _
                (show MState.HEADER_FIELD_START ≠ MState.PART_DATA by decide)
            omega)
          ?_
        have hp2 : pendP { p with mstate := MState.HEADER_FIELD_START }
            buffer (i + 1) = [] := by simp [pendP]
        have hs2 : pendS { s with mstate := MState.HEADER_FIELD_START } =
            [] := by simp [pendS]
        rw [hp2, hs2]
        simpa using htr
    | HEADERS_ALMOST_DONE =>
      have hsm : s.mstate = MState.HEADERS_ALMOST_DONE := by
        rw [← hcore.2.1, hms]
      simp only [marksRel, hms] at hmrk
      obtain ⟨hfm, hvm, hpm, hix0⟩ := hmrk
      have hpendp : pendP p buffer i = [] := by simp [pendP, hms]
      have hpends : pendS s = [] := by simp [pendS, hsm]
      rw [hpendp, hpends] at htr
      simp only [List.append_nil] at htr
      have hpe : peIdx p = 1 := peIdx_eq_one p (by rw [hms]; decide)
      by_cases hlf : byteAt buffer i ≠ bLF
      · have hstepB : stepByte p buffer buffer.length i (byteAt buffer i) =
            (setError p "Malformed header ending: LF expected after CR", [],
             StepRes.stop i) := by
          rw [stepByte_had_d p buffer buffer.length i _ hms, if_pos hlf]
        have hsstep : sStep s (byteAt buffer i) = (sSetError s, [], false) := by
          rw [sStep_had s _ hsm, if_pos hlf]
        have hcons : sConsume s (byteAt buffer i) = (sSetError s, []) := by
          rw [sConsume_no_stutter s _ (by rw [hsstep]), hsstep]
        exact rl_stop buffer fuel p s i X Y _ [] _ [] hil hstepB hcons rfl rfl
      · have hstepB : stepByte p buffer buffer.length i (byteAt buffer i) =
            ({ p with mstate := MState.PART_DATA_START },
             [MEvent.headersEnd], StepRes.next (i + 1)) := by
          rw [stepByte_had_d p buffer buffer.length i _ hms, if_neg hlf]
        have hsstep : sStep s (byteAt buffer i) =
            ({ s with mstate := MState.PART_DATA_START },
             [MEvent.headersEnd], false) := by
          rw [sStep_had s _ hsm, if_neg hlf]
        have hcons : sConsume s (byteAt buffer i) =
            ({ s with mstate := MState.PART_DATA_START },
             [MEvent.headersEnd]) := by
          rw [sConsume_no_stutter s _ (by rw [hsstep]), hsstep]
        refine rl_next1 buffer fuel p s i X Y
          { p with mstate := MState.PART_DATA_START } [MEvent.headersEnd]
          { s with mstate := MState.PART_DATA_START } [MEvent.headersEnd]
          IH hil hstepB hcons
          ⟨⟨hwf.1, hwf.2.1,
            (show MState.PART_DATA_START ≠ MState.PART_END by decide),
            (show MState.PART_DATA_START ≠ MState.ENDEEND by decide)⟩,
           ⟨hcore.1, rfl, hcore.2.2.1, hcore.2.2.2.1, hcore.2.2.2.2.1,
             hcore.2.2.2.2.2⟩,
           ⟨hfm, hvm, hpm, hix0⟩,
           (show MState.PART_DATA_START ≠ MState.ERROR by decide)⟩
          hcl
          (by
            have h1 : peIdx { p with mstate := MState.PART_DATA_START } = 1 :=
              peIdx_eq_one _
                (show MState.PART_DATA_START ≠ MState.PART_DATA by decide)
            omega)
          ?_
        have hp2 : pendP { p with mstate := MState.PART_DATA_START }
            buffer (i + 1) = [] := by simp [pendP]
        have hs2 : pendS { s with mstate := MState.PART_DATA_START } =
            [] := by simp [pendS]
        rw [hp2, hs2]
        simpa using normT_append_congr_left X Y [MEvent.headersEnd] htr
    | PART_DATA_START =>
      have hsm : s.mstate = MState.PART_DATA_START := by rw [← hcore.2.1, hms]
      simp only [marksRel, hms] at hmrk
      obtain ⟨hfm, hvm, hpm, hix0⟩ := hmrk
      have h0s : s.index = 0 := by rw [← hcore.2.2.1]; exact hix0
      have hpendp : pendP p buffer i = [] := by simp [pendP, hms]
      have hpends : pendS s = [] := by simp [pendS, hsm]
      rw [hpendp, hpends] at htr
      simp only [List.append_nil] at htr
      have hpe : peIdx p = 1 := peIdx_eq_one p (by rw [hms]; decide)
      have hstepEq : sStep s (byteAt buffer i) =
          sStep { s with mstate := MState.PART_DATA, dataAcc := [] }
            (byteAt buffer i) := by
        rw [sStep_pds s _ hsm,
          sStep_pd { s with mstate := MState.PART_DATA, dataAcc := [] } _ rfl]
      have hconsEq := sConsume_congr s
        { s with mstate := MState.PART_DATA, dataAcc := [] }
        (byteAt buffer i) hstepEq
      have hruneq : sRun s (buffer.drop i) =
          sRun { s with mstate := MState.PART_DATA, dataAcc := [] }
            (buffer.drop i) := by
        rw [drop_cons_byteAt buffer i hil]
        exact sRun_cons_eq s _ _ _ hconsEq
      have hclean2 : sClean
          { s with mstate := MState.PART_DATA, dataAcc := [] }
          (buffer.drop i) = true := by
        rw [drop_cons_byteAt buffer i hil] at hcl ⊢
        rw [← sClean_cons_congr s _ _ _ (by simp [sCleanStep, hsm]) hconsEq]
        exact hcl
      refine rl_pd0step buffer fuel p s i X Y
        { p with mstate := MState.PART_DATA, partDataMark := some i }
        { s with mstate := MState.PART_DATA, dataAcc := [] }
        IH hil (stepByte_pds_d p buffer buffer.length i _ hms)
        rfl hix0
        ⟨hwf.1, hwf.2.1,
         (show MState.PART_DATA ≠ MState.PART_END by decide),
         (show MState.PART_DATA ≠ MState.ENDEEND by decide)⟩
        ⟨hcore.1, rfl, hcore.2.2.1, hcore.2.2.2.1, hcore.2.2.2.2.1,
          hcore.2.2.2.2.2⟩
        ?_
        hruneq hclean2 (by omega) ?_
      · simp only [marksRel]
        refine ⟨hfm, hvm, ?_, ?_, ?_⟩
        · omega
        · rw [hix0, h0s]
          simp
        · rw [if_pos hix0]
          exact ⟨i, rfl, le_refl i, [], by simp [bslice_self]⟩
      · have hp2 : pendP
            { p with
                mstate := MState.PART_DATA,
                partDataMark := some i } buffer i = [] := by
          simp [pendP, bslice_self, evIf]
        have hs2 : pendS
            { s with
                mstate := MState.PART_DATA, dataAcc := [] } = [] := by
          simp [pendS, evIf]
        rw [hp2, hs2]
        simpa using htr
    | PART_DATA =>
      by_cases hpos : 0 < p.index
      · have hpe : peIdx p = 2 := by simp [peIdx, hms, hpos]
        exact rl_pdposstep buffer fuel p s i X Y IH hil hms hpos hwf hcore
          hmrk hcl (by omega) htr
      · have h02 : p.index = 0 := by omega
        have hpe : peIdx p = 1 := by simp [peIdx, h02]
        exact rl_pd0step buffer fuel p s i X Y p s IH hil
          (stepByte_pd_d p buffer buffer.length i _ hms) hms h02 hwf hcore
          hmrk rfl hcl (by omega) htr

-- ### Call-boundary machinery

/-- A `stop` outcome of the feed switch leaves the parser in a terminal
state: either an error was just set (or the state already was `Error`), or
the state was already one of the inert terminals. -/
theorem stepByte_stop_states (p : Parser) (buffer : List Nat) (len i c : Nat)
    (q : Parser) (evs : List MEvent) (r : Nat)
    (h : stepByte p buffer len i c = (q, evs, StepRes.stop r)) :
    q.mstate = MState.ERROR ∨ q.mstate = MState.END ∨
    q.mstate = MState.PART_END ∨ q.mstate = MState.ENDEEND := by
  unfold stepByte stepStartBoundary stepHeaderField stepHeaderValue at h
  cases hms : p.mstate <;> rw [hms] at h <;> dsimp only at h <;>
    repeat' split at h
  all_goals simp only [Prod.mk.injEq] at h
  all_goals try (left; rw [← h.1]; rfl)
  all_goals try (left; rw [← h.1]; exact hms)
  all_goals try (right; left; rw [← h.1]; exact hms)
  all_goals try (right; right; left; rw [← h.1]; exact hms)
  all_goals try (right; right; right; rw [← h.1]; exact hms)
  all_goals simp at h

/-- An early return of the feed loop leaves the parser in a terminal state. -/
theorem feedLoop_early_states : ∀ (fuel : Nat) (p : Parser)
    (buffer : List Nat) (len i : Nat) (q : Parser) (evs : List MEvent)
    (r : Nat), feedLoop fuel p buffer len i = (q, evs, FeedOut.early r) →
    q.mstate = MState.ERROR ∨ q.mstate = MState.END ∨
    q.mstate = MState.PART_END ∨ q.mstate = MState.ENDEEND := by
  intro fuel
  induction fuel with
  | zero =>
    intro p buffer len i q evs r h
    rw [feedLoop_zero] at h
    simp at h
  | succ fuel IH =>
    intro p buffer len i q evs r h
    rw [feedLoop_succ] at h
    by_cases hil : i < len
    · rw [if_pos hil] at h
      dsimp only at h
      rcases hsb : stepByte p buffer len i (byteAt buffer i) with ⟨q1, evs1, res⟩
      rw [hsb] at h
      cases res with
      | stop r1 =>
        dsimp only at h
        simp only [Prod.mk.injEq] at h
        obtain ⟨hq, _, _⟩ := h
        rw [← hq]
        exact stepByte_stop_states p buffer len i (byteAt buffer i) q1 evs1 r1 hsb
      | next j =>
        dsimp only at h
        simp only [Prod.mk.injEq] at h
        obtain ⟨hq, _, hout⟩ := h
        rcases hfl : feedLoop fuel q1 buffer len j with ⟨q2, evs2, out2⟩
        rw [hfl] at hq hout
        dsimp only at hq hout
        rw [hout] at hfl
        rw [← hq]
        exact IH q1 buffer len j q2 evs2 r hfl
    · rw [if_neg hil] at h
      simp at h

/-- Range of the start-boundary handler: the state is preserved or moved to
a live constructor. -/
theorem sStartBoundary_ms (s : SState) (c : Nat) :
    (sStartBoundary s c).1.mstate = s.mstate ∨
    ((sStartBoundary s c).1.mstate ≠ MState.PART_END ∧
     (sStartBoundary s c).1.mstate ≠ MState.ENDEEND) := by
  unfold sStartBoundary sSetError
  dsimp only
  repeat' split
  all_goals simp

/-- Range of the header-field handler. -/
theorem sHeaderField_ms (s : SState) (c : Nat) :
    (sHeaderField s c).1.mstate = s.mstate ∨
    ((sHeaderField s c).1.mstate ≠ MState.PART_END ∧
     (sHeaderField s c).1.mstate ≠ MState.ENDEEND) := by
  unfold sHeaderField sSetError
  dsimp only
  repeat' split
  all_goals simp

/-- Range of the header-value handler. -/
theorem sHeaderValue_ms (s : SState) (c : Nat) :
    (sHeaderValue s c).1.mstate = s.mstate ∨
    ((sHeaderValue s c).1.mstate ≠ MState.PART_END ∧
     (sHeaderValue s c).1.mstate ≠ MState.ENDEEND) := by
  unfold sHeaderValue
  repeat' split
  all_goals simp

/-- Range of the boundary-matching chain. -/
theorem sPpdMatch_ms (s : SState) (c : Nat) :
    (sPpdMatch s c).1.mstate = s.mstate ∨
    ((sPpdMatch s c).1.mstate ≠ MState.PART_END ∧
     (sPpdMatch s c).1.mstate ≠ MState.ENDEEND) := by
  unfold sPpdMatch
  dsimp only
  repeat' split
  all_goals simp

/-- Range of the lookbehind-write / replay block. -/
theorem sPpdFinish_ms (prevIndex c : Nat) (q : SState) (evs : List MEvent) :
    (sPpdFinish prevIndex c q evs).1.mstate = q.mstate ∨
    (sPpdFinish prevIndex c q evs).1.mstate = MState.ERROR := by
  unfold sPpdFinish sSetError
  repeat' split
  all_goals simp

/-- Range of the part-data step. -/
theorem sPartData_ms (s : SState) (c : Nat) :
    (sPartData s c).1.mstate = s.mstate ∨
    ((sPartData s c).1.mstate ≠ MState.PART_END ∧
     (sPartData s c).1.mstate ≠ MState.ENDEEND) := by
  unfold sPartData
  dsimp only
  split
  · exact sPpdMatch_ms s c
  · rcases sPpdFinish_ms s.index c (sPpdMatch s c).1 (sPpdMatch s c).2.1 with
      h | h
    · rcases sPpdMatch_ms s c with h2 | h2
      · exact Or.inl (h.trans h2)
      · rw [h]
        exact Or.inr h2
    · rw [h]
      exact Or.inr (by simp)

/-- One reference step never enters the dead states `PartEnd`/`EndEEnd`. -/
theorem sStep_not_pe_ee (s : SState) (c : Nat)
    (h1 : s.mstate ≠ MState.PART_END) (h2 : s.mstate ≠ MState.ENDEEND) :
    (sStep s c).1.mstate ≠ MState.PART_END ∧
    (sStep s c).1.mstate ≠ MState.ENDEEND := by
  cases hms : s.mstate with
  | ERROR => rw [sStep_error s c hms]; exact ⟨h1, h2⟩
  | START =>
    rw [sStep_start s c hms]
    rcases sStartBoundary_ms
      { s with index := 0, mstate := MState.START_BOUNDARY } c with h | h
    · rw [h]; exact ⟨by simp, by simp⟩
    · exact h
  | START_BOUNDARY =>
    rw [sStep_sb s c hms]
    rcases sStartBoundary_ms s c with h | h
    · rw [h, hms]; exact ⟨by simp, by simp⟩
    · exact h
  | HEADER_FIELD_START =>
    rw [sStep_hfs s c hms]
    rcases sHeaderField_ms
      { s with mstate := MState.HEADER_FIELD, fieldAcc := [], index := 0 } c
      with h | h
    · rw [h]; exact ⟨by simp, by simp⟩
    · exact h
  | HEADER_FIELD =>
    rw [sStep_hf s c hms]
    rcases sHeaderField_ms s c with h | h
    · rw [h, hms]; exact ⟨by simp, by simp⟩
    · exact h
  | HEADER_VALUE_START =>
    rw [sStep_hvs s c hms]
    split
    · exact ⟨h1, h2⟩
    · rcases sHeaderValue_ms
        { s with valueAcc := [], mstate := MState.HEADER_VALUE } c with h | h
      · rw [h]; exact ⟨by simp, by simp⟩
      · exact h
  | HEADER_VALUE =>
    rw [sStep_hv s c hms]
    rcases sHeaderValue_ms s c with h | h
    · rw [h, hms]; exact ⟨by simp, by simp⟩
    · exact h
  | HEADER_VALUE_ALMOST_DONE =>
    rw [sStep_hvad s c hms]
    split
    · exact ⟨by simp [sSetError], by simp [sSetError]⟩
    · exact ⟨by simp, by simp⟩
  | HEADERS_ALMOST_DONE =>
    rw [sStep_had s c hms]
    split
    · exact ⟨by simp [sSetError], by simp [sSetError]⟩
    · exact ⟨by simp, by simp⟩
  | PART_DATA_START =>
    rw [sStep_pds s c hms]
    rcases sPartData_ms
      { s with mstate := MState.PART_DATA, dataAcc := [] } c with h | h
    · rw [h]; exact ⟨by simp, by simp⟩
    · exact h
  | PART_DATA =>
    rw [sStep_pd s c hms]
    rcases sPartData_ms s c with h | h
    · rw [h, hms]; exact ⟨by simp, by simp⟩
    · exact h
  | PART_END => exact absurd hms h1
  | END =>
    rw [sStep_inert s c (Or.inr (Or.inl hms))]
    exact ⟨h1, h2⟩
  | ENDEEND => exact absurd hms h2

/-- The reference machine never enters the dead states `PartEnd`/`EndEEnd`. -/
theorem sRun_not_pe_ee : ∀ (l : List Nat) (s : SState),
    s.mstate ≠ MState.PART_END → s.mstate ≠ MState.ENDEEND →
    (sRun s l).1.mstate ≠ MState.PART_END ∧
    (sRun s l).1.mstate ≠ MState.ENDEEND := by
  intro l
  induction l with
  | nil => intro s h1 h2; exact ⟨h1, h2⟩
  | cons c t ih =>
    intro s h1 h2
    rw [sRun_cons]
    dsimp only
    have hstep := sStep_not_pe_ee s c h1 h2
    have hcons : (sConsume s c).1.mstate ≠ MState.PART_END ∧
        (sConsume s c).1.mstate ≠ MState.ENDEEND := by
      unfold sConsume
      dsimp only
      split
      · exact sStep_not_pe_ee (sStep s c).1 c hstep.1 hstep.2
      · exact hstep
    exact ih (sConsume s c).1 hcons.1 hcons.2

/-- The call-boundary mark relation holds at position 0 of any buffer: all
open marks point at offset 0, so their pending slices are empty. -/
theorem marksRel_entry (p : Parser) (s : SState) (buffer : List Nat)
    (h : marksRel p s [] 0) : marksRel p s buffer 0 := by
  cases hms : p.mstate with
  | ERROR => simp [marksRel, hms]
  | START => simp only [marksRel, hms] at h ⊢; exact h
  | START_BOUNDARY => simp only [marksRel, hms] at h ⊢; exact h
  | HEADER_FIELD_START => simp only [marksRel, hms] at h ⊢; exact h
  | HEADER_FIELD =>
    simp only [marksRel, hms] at h ⊢
    obtain ⟨hvm, hpm, hlen, m, hm, hm0, fl, hfa⟩ := h
    have hmz : m = 0 := by omega
    subst hmz
    exact ⟨hvm, hpm, hlen, 0, hm, le_refl 0, fl, by
      rw [hfa, bslice_self, bslice_self]⟩
  | HEADER_VALUE_START => simp only [marksRel, hms] at h ⊢; exact h
  | HEADER_VALUE =>
    simp only [marksRel, hms] at h ⊢
    obtain ⟨hfm, hpm, m, hm, hm0, fl, hva⟩ := h
    have hmz : m = 0 := by omega
    subst hmz
    exact ⟨hfm, hpm, 0, hm, le_refl 0, fl, by
      rw [hva, bslice_self, bslice_self]⟩
  | HEADER_VALUE_ALMOST_DONE => simp only [marksRel, hms] at h ⊢; exact h
  | HEADERS_ALMOST_DONE => simp only [marksRel, hms] at h ⊢; exact h
  | PART_DATA_START => simp only [marksRel, hms] at h ⊢; exact h
  | PART_DATA =>
    simp only [marksRel, hms] at h ⊢
    obtain ⟨hfm, hvm, hbound, htake, hif⟩ := h
    refine ⟨hfm, hvm, hbound, htake, ?_⟩
    by_cases h0 : p.index = 0
    · rw [if_pos h0] at hif ⊢
      obtain ⟨m, hm, hm0, fl, hda⟩ := hif
      have hmz : m = 0 := by omega
      subst hmz
      exact ⟨0, hm, le_refl 0, fl, by rw [hda, bslice_self, bslice_self]⟩
    · rw [if_neg h0] at hif ⊢
      exact hif
  | PART_END => simp only [marksRel, hms] at h ⊢; exact h
  | END => simp only [marksRel, hms] at h ⊢; exact h
  | ENDEEND => simp only [marksRel, hms] at h ⊢; exact h

/-- At a call boundary nothing is pending on the parser side. -/
theorem pendP_zero (p : Parser) (s : SState) (buffer : List Nat)
    (h : marksRel p s [] 0) : pendP p buffer 0 = [] := by
  cases hms : p.mstate with
  | HEADER_FIELD =>
    simp only [marksRel, hms] at h
    obtain ⟨_, _, _, m, hm, hm0, _, _⟩ := h
    have hmz : m = 0 := by omega
    subst hmz
    simp [pendP, hms, hm, bslice_self, evIf]
  | HEADER_VALUE =>
    simp only [marksRel, hms] at h
    obtain ⟨_, _, m, hm, hm0, _, _⟩ := h
    have hmz : m = 0 := by omega
    subst hmz
    simp [pendP, hms, hm, bslice_self, evIf]
  | PART_DATA =>
    simp only [marksRel, hms] at h
    obtain ⟨_, _, _, _, hif⟩ := h
    by_cases h0 : p.index = 0
    · rw [if_pos h0] at hif
      obtain ⟨m, hm, hm0, _, _⟩ := hif
      have hmz : m = 0 := by omega
      subst hmz
      simp [pendP, hms, hm, bslice_self, evIf]
    · rw [if_neg h0] at hif
      simp [pendP, hms, hif]
  | ERROR => simp [pendP, hms]
  | START => simp [pendP, hms]
  | START_BOUNDARY => simp [pendP, hms]
  | HEADER_FIELD_START => simp [pendP, hms]
  | HEADER_VALUE_START => simp [pendP, hms]
  | HEADER_VALUE_ALMOST_DONE => simp [pendP, hms]
  | HEADERS_ALMOST_DONE => simp [pendP, hms]
  | PART_DATA_START => simp [pendP, hms]
  | PART_END => simp [pendP, hms]
  | END => simp [pendP, hms]
  | ENDEEND => simp [pendP, hms]

/-- `feed` on a configured parser with non-empty input: loop then flush. -/
theorem feed_eq (p : Parser) (buffer : List Nat)
    (h : ¬(p.mstate = MState.ERROR ∨ buffer.length = 0)) :
    feed p buffer =
      (match feedLoop (2 * buffer.length + 2) p buffer buffer.length 0 with
       | (q, evs, FeedOut.early r) => (q, evs, r)
       | (q, evs, FeedOut.done iFin) =>
         ((flushEnd q buffer iFin buffer.length).1,
          evs ++ (flushEnd q buffer iFin buffer.length).2, buffer.length)) := by
  unfold feed
  rw [if_neg h]

/-- `feed` on a parser already in the error state is a no-op. -/
theorem feed_error (p : Parser) (buffer : List Nat)
    (h : p.mstate = MState.ERROR) : feed p buffer = (p, [], 0) := by
  unfold feed
  rw [if_pos (Or.inl h)]

/-- The end-of-call flush when no mark is open. -/
theorem flushEnd_none (q : Parser) (buffer : List Nat) (iFin len : Nat)
    (hf : q.headerFieldMark = none) (hv : q.headerValueMark = none)
    (hp : q.partDataMark = none) :
    flushEnd q buffer iFin len =
      ({ q with
           headerFieldMark := none, headerValueMark := none,
           partDataMark := none }, []) := by
  unfold flushEnd
  rw [hf, hv, hp]
  simp [dataCallback]

/-- The end-of-call flush with only the header-field mark open. -/
theorem flushEnd_hf (q : Parser) (buffer : List Nat) (iFin m : Nat)
    (hf : q.headerFieldMark = some m) (hv : q.headerValueMark = none)
    (hp : q.partDataMark = none) (hm : m ≤ buffer.length) :
    flushEnd q buffer iFin buffer.length =
      ({ q with
           headerFieldMark := some 0, headerValueMark := none,
           partDataMark := none },
       evIf MEvent.headerField (bslice buffer m buffer.length)) := by
  unfold flushEnd
  rw [hf, hv, hp]
  simp [dataCallback,
    emitCB_evIf MEvent.headerField buffer m buffer.length hm
      (le_refl buffer.length)]

/-- The end-of-call flush with only the header-value mark open. -/
theorem flushEnd_hv (q : Parser) (buffer : List Nat) (iFin m : Nat)
    (hf : q.headerFieldMark = none) (hv : q.headerValueMark = some m)
    (hp : q.partDataMark = none) (hm : m ≤ buffer.length) :
    flushEnd q buffer iFin buffer.length =
      ({ q with
           headerFieldMark := none, headerValueMark := some 0,
           partDataMark := none },
       evIf MEvent.headerValue (bslice buffer m buffer.length)) := by
  unfold flushEnd
  rw [hf, hv, hp]
  simp [dataCallback,
    emitCB_evIf MEvent.headerValue buffer m buffer.length hm
      (le_refl buffer.length)]

/-- The end-of-call flush with only the part-data mark open. -/
theorem flushEnd_pd (q : Parser) (buffer : List Nat) (iFin m : Nat)
    (hf : q.headerFieldMark = none) (hv : q.headerValueMark = none)
    (hp : q.partDataMark = some m) (hm : m ≤ buffer.length) :
    flushEnd q buffer iFin buffer.length =
      ({ q with
           headerFieldMark := none, headerValueMark := none,
           partDataMark := some 0 },
       evIf (MEvent.partData false) (bslice buffer m buffer.length)) := by
  unfold flushEnd
  rw [hf, hv, hp]
  simp [dataCallback,
    emitCB_evIf (MEvent.partData false) buffer m buffer.length hm
      (le_refl buffer.length)]

/-- The end-of-call flush delivers exactly the pending parser tail, preserves
every non-mark field, and re-establishes the call-boundary mark relation. -/
theorem flushEnd_rel (q : Parser) (s' : SState) (buffer : List Nat)
    (iFin : Nat) (hmrk : marksRel q s' buffer buffer.length)
    (hne : q.mstate ≠ MState.ERROR) :
    (flushEnd q buffer iFin buffer.length).2 = pendP q buffer buffer.length ∧
    (flushEnd q buffer iFin buffer.length).1.mstate = q.mstate ∧
    (flushEnd q buffer iFin buffer.length).1.boundary = q.boundary ∧
    (flushEnd q buffer iFin buffer.length).1.lookbehind = q.lookbehind ∧
    (flushEnd q buffer iFin buffer.length).1.index = q.index ∧
    (flushEnd q buffer iFin buffer.length).1.flagPart = q.flagPart ∧
    (flushEnd q buffer iFin buffer.length).1.flagLast = q.flagLast ∧
    marksRel (flushEnd q buffer iFin buffer.length).1 s' [] 0 := by
  cases hms : q.mstate with
  | ERROR => exact absurd hms hne
  | START =>
    simp only [marksRel, hms] at hmrk
    obtain ⟨hfm, hvm, hpm⟩ := hmrk
    rw [flushEnd_none q buffer iFin buffer.length hfm hvm hpm]
    exact ⟨by simp [pendP, hms], hms, rfl, rfl, rfl, rfl, rfl,
      by simp [marksRel, hms]⟩
  | START_BOUNDARY =>
    simp only [marksRel, hms] at hmrk
    obtain ⟨hfm, hvm, hpm, hidx⟩ := hmrk
    rw [flushEnd_none q buffer iFin buffer.length hfm hvm hpm]
    exact ⟨by simp [pendP, hms], hms, rfl, rfl, rfl, rfl, rfl,
      by simp [marksRel, hms]; exact hidx⟩
  | HEADER_FIELD_START =>
    simp only [marksRel, hms] at hmrk
    obtain ⟨hfm, hvm, hpm⟩ := hmrk
    rw [flushEnd_none q buffer iFin buffer.length hfm hvm hpm]
    exact ⟨by simp [pendP, hms], hms, rfl, rfl, rfl, rfl, rfl,
      by simp [marksRel, hms]⟩
  | HEADER_FIELD =>
    simp only [marksRel, hms] at hmrk
    obtain ⟨hvm, hpm, hlen, m, hm, hmi, fl, hfa⟩ := hmrk
    rw [flushEnd_hf q buffer iFin m hm hvm hpm hmi]
    refine ⟨by simp [pendP, hms, hm], hms, rfl, rfl, rfl, rfl, rfl, ?_⟩
    simp [marksRel, hms, bslice_self, hlen]
  | HEADER_VALUE_START =>
    simp only [marksRel, hms] at hmrk
    obtain ⟨hfm, hvm, hpm⟩ := hmrk
    rw [flushEnd_none q buffer iFin buffer.length hfm hvm hpm]
    exact ⟨by simp [pendP, hms], hms, rfl, rfl, rfl, rfl, rfl,
      by simp [marksRel, hms]⟩
  | HEADER_VALUE =>
    simp only [marksRel, hms] at hmrk
    obtain ⟨hfm, hpm, m, hm, hmi, fl, hva⟩ := hmrk
    rw [flushEnd_hv q buffer iFin m hfm hm hpm hmi]
    refine ⟨by simp [pendP, hms, hm], hms, rfl, rfl, rfl, rfl, rfl, ?_⟩
    simp [marksRel, hms, bslice_self]
  | HEADER_VALUE_ALMOST_DONE =>
    simp only [marksRel, hms] at hmrk
    obtain ⟨hfm, hvm, hpm⟩ := hmrk
    rw [flushEnd_none q buffer iFin buffer.length hfm hvm hpm]
    exact ⟨by simp [pendP, hms], hms, rfl, rfl, rfl, rfl, rfl,
      by simp [marksRel, hms]⟩
  | HEADERS_ALMOST_DONE =>
    simp only [marksRel, hms] at hmrk
    obtain ⟨hfm, hvm, hpm, hix⟩ := hmrk
    rw [flushEnd_none q buffer iFin buffer.length hfm hvm hpm]
    exact ⟨by simp [pendP, hms], hms, rfl, rfl, rfl, rfl, rfl,
      by simp [marksRel, hms]; exact hix⟩
  | PART_DATA_START =>
    simp only [marksRel, hms] at hmrk
    obtain ⟨hfm, hvm, hpm, hix⟩ := hmrk
    rw [flushEnd_none q buffer iFin buffer.length hfm hvm hpm]
    exact ⟨by simp [pendP, hms], hms, rfl, rfl, rfl, rfl, rfl,
      by simp [marksRel, hms]; exact hix⟩
  | PART_DATA =>
    simp only [marksRel, hms] at hmrk
    obtain ⟨hfm, hvm, hbound, htake, hif⟩ := hmrk
    by_cases h0 : q.index = 0
    · rw [if_pos h0] at hif
      obtain ⟨m, hm, hmi, fl, hda⟩ := hif
      rw [flushEnd_pd q buffer iFin m hfm hvm hm hmi]
      refine ⟨by simp [pendP, hms, hm], hms, rfl, rfl, rfl, rfl, rfl, ?_⟩
      simp [marksRel, hms, bslice_self, h0, hbound, htake]
      have h2 : List.take s'.index s'.lookbehind = [] := by
        rw [← htake, h0]
        simp
      have h3 := List.take_eq_nil_iff.mp h2
      tauto
    · rw [if_neg h0] at hif
      rw [flushEnd_none q buffer iFin buffer.length hfm hvm hif]
      refine ⟨by simp [pendP, hms, hif], hms, rfl, rfl, rfl, rfl, rfl, ?_⟩
      simp [marksRel, hms, h0, hbound, htake]
  | PART_END =>
    simp only [marksRel, hms] at hmrk
    obtain ⟨hfm, hvm, hpm⟩ := hmrk
    rw [flushEnd_none q buffer iFin buffer.length hfm hvm hpm]
    exact ⟨by simp [pendP, hms], hms, rfl, rfl, rfl, rfl, rfl,
      by simp [marksRel, hms]⟩
  | END =>
    simp only [marksRel, hms] at hmrk
    obtain ⟨hfm, hvm, hpm⟩ := hmrk
    rw [flushEnd_none q buffer iFin buffer.length hfm hvm hpm]
    exact ⟨by simp [pendP, hms], hms, rfl, rfl, rfl, rfl, rfl,
      by simp [marksRel, hms]⟩
  | ENDEEND =>
    simp only [marksRel, hms] at hmrk
    obtain ⟨hfm, hvm, hpm⟩ := hmrk
    rw [flushEnd_none q buffer iFin buffer.length hfm hvm hpm]
    exact ⟨by simp [pendP, hms], hms, rfl, rfl, rfl, rfl, rfl,
      by simp [marksRel, hms]⟩

/-- A freshly configured parser and the freshly configured reference machine
are related at a call boundary. -/
theorem relCall_init (tok : List Nat) :
    RelCall (setBoundary tok) (mkSState tok) := by
  refine ⟨⟨?_, ?_, by simp [setBoundary], by simp [setBoundary]⟩,
    ⟨rfl, rfl, rfl, rfl, rfl, ?_⟩, ?_, by simp [setBoundary]⟩
  · show 4 ≤ ([bCR, bLF, bHYPHEN, bHYPHEN] ++ tok).length
    simp
  · show (List.replicate (([bCR, bLF, bHYPHEN, bHYPHEN] ++ tok).length + 8) 0).length =
      ([bCR, bLF, bHYPHEN, bHYPHEN] ++ tok).length + 8
    simp
  · show (List.replicate (([bCR, bLF, bHYPHEN, bHYPHEN] ++ tok).length + 8) 0).length =
      (List.replicate (([bCR, bLF, bHYPHEN, bHYPHEN] ++ tok).length + 8) 0).length
    rfl
  · show marksRel (setBoundary tok) (mkSState tok) [] 0
    simp [marksRel, setBoundary]

/-- One `feed` call refines one reference run over the same bytes: the final
machine states agree; when the call did not end in the error state, the call
relation is re-established and the delivered trace extends the accumulated
trace exactly as the reference trace does. -/
theorem refineCall (p : Parser) (s : SState) (buffer : List Nat)
    (hRel : CallRel p s) (hcl : sClean s buffer = true) :
    (feed p buffer).1.mstate = (sRun s buffer).1.mstate ∧
    ((feed p buffer).1.mstate ≠ MState.ERROR →
       CallRel (feed p buffer).1 (sRun s buffer).1) ∧
    ((feed p buffer).1.mstate ≠ MState.ERROR →
       ∀ X Y, normT X = normT (Y ++ pendS s) →
         normT (X ++ (feed p buffer).2.1) =
           normT ((Y ++ (sRun s buffer).2) ++ pendS (sRun s buffer).1)) := by
  by_cases hempty : buffer.length = 0
  · have hb : buffer = [] := List.length_eq_zero.mp hempty
    subst hb
    have hfeed : feed p [] = (p, [], 0) := by
      unfold feed
      dsimp only
      rw [if_pos (Or.inr List.length_nil)]
    rw [hfeed]
    refine ⟨?_, ?_, ?_⟩
    · show p.mstate = s.mstate
      rcases hRel with ⟨_, hcore, _, _⟩ | ⟨hp, hs⟩
      · exact hcore.2.1
      · rw [hp]
        exact hs.symm
    · intro _
      exact hRel
    · intro _ X Y hXY
      show normT (X ++ []) = normT ((Y ++ []) ++ pendS s)
      simpa using hXY
  · have hpne : p.mstate ≠ MState.ERROR := by
      rcases hRel with ⟨_, _, _, h⟩ | ⟨hp, _⟩
      · exact h
      · rw [hp]
        decide
    rcases hRel with hRC | ⟨hpEND, hsEND⟩
    · -- live call: run the loop refinement, then the end-of-call flush
      obtain ⟨hwf, hcore, hmrk0, hne⟩ := hRC
      have hRelMid : RelMid p s buffer 0 :=
        ⟨hwf, hcore, marksRel_entry p s buffer hmrk0, hne⟩
      have hp0 : pendP p buffer 0 = [] := pendP_zero p s buffer hmrk0
      have hnot : ¬(p.mstate = MState.ERROR ∨ buffer.length = 0) :=
        not_or.mpr ⟨hne, hempty⟩
      have hfeedE := feed_eq p buffer hnot
      have hRL := refineLoop buffer (2 * buffer.length + 2)
      have hfuel : 2 * (buffer.length - 0) + peIdx p ≤ 2 * buffer.length + 2 := by
        have := peIdx_le p
        omega
      have htr0 : normT (pendS s ++ pendP p buffer 0) = normT ([] ++ pendS s) := by
        rw [hp0]
        simp
      obtain ⟨hdone, hearly⟩ :=
        hRL p s 0 (pendS s) [] hRelMid (by omega) hcl hfuel htr0
      simp only [List.drop_zero] at hdone hearly
      rcases hflq : feedLoop (2 * buffer.length + 2) p buffer buffer.length 0
        with ⟨q, evs, out⟩
      cases out with
      | done iFin =>
        obtain ⟨hRelQ, _⟩ := hdone q evs iFin hflq
        obtain ⟨hwfQ, hcoreQ, hmrkQ, hneQ⟩ := hRelQ
        obtain ⟨hflevs, hflm, hflb, hfllb, hflx, hflfp, hflfl, hflmrk⟩ :=
          flushEnd_rel q (sRun s buffer).1 buffer iFin hmrkQ hneQ
        have hfeed2 : feed p buffer =
            ((flushEnd q buffer iFin buffer.length).1,
             evs ++ (flushEnd q buffer iFin buffer.length).2,
             buffer.length) := by
          rw [hfeedE, hflq]
        rw [hfeed2]
        refine ⟨?_, ?_, ?_⟩
        · show (flushEnd q buffer iFin buffer.length).1.mstate =
            (sRun s buffer).1.mstate
          rw [hflm]
          exact hcoreQ.2.1
        · intro _
          refine Or.inl ⟨?_, ?_, hflmrk, ?_⟩
          · exact ⟨by rw [hflb]; exact hwfQ.1,
              by rw [hfllb, hflb]; exact hwfQ.2.1,
              by rw [hflm]; exact hwfQ.2.2.1,
              by rw [hflm]; exact hwfQ.2.2.2⟩
          · exact ⟨by rw [hflb]; exact hcoreQ.1,
              by rw [hflm]; exact hcoreQ.2.1,
              by rw [hflx]; exact hcoreQ.2.2.1,
              by rw [hflfp]; exact hcoreQ.2.2.2.1,
              by rw [hflfl]; exact hcoreQ.2.2.2.2.1,
              by rw [hfllb]; exact hcoreQ.2.2.2.2.2⟩
          · rw [hflm]
            exact hneQ
        · intro _ X Y hXY
          obtain ⟨hdone2, _⟩ := hRL p s 0 X Y hRelMid (by omega) hcl hfuel
            (by rw [hp0]; simpa using hXY)
          simp only [List.drop_zero] at hdone2
          obtain ⟨_, htrQ⟩ := hdone2 q evs iFin hflq
          show normT (X ++ (evs ++ (flushEnd q buffer iFin buffer.length).2)) =
            normT ((Y ++ (sRun s buffer).2) ++ pendS (sRun s buffer).1)
          rw [hflevs]
          simpa [List.append_assoc] using htrQ
      | early r =>
        obtain ⟨hmq, _⟩ := hearly q evs r hflq
        have hfeed2 : feed p buffer = (q, evs, r) := by
          rw [hfeedE, hflq]
        have hterm : q.mstate ≠ MState.ERROR → q.mstate = MState.END := by
          intro hqne
          have h4 := feedLoop_early_states (2 * buffer.length + 2) p buffer
            buffer.length 0 q evs r hflq
          have hnope := sRun_not_pe_ee buffer s
            (by rw [← hcore.2.1]; exact hwf.2.2.1)
            (by rw [← hcore.2.1]; exact hwf.2.2.2)
          rcases h4 with h | h | h | h
          · exact absurd h hqne
          · exact h
          · rw [hmq] at h
            exact absurd h hnope.1
          · rw [hmq] at h
            exact absurd h hnope.2
        rw [hfeed2]
        refine ⟨hmq, ?_, ?_⟩
        · intro hqne
          have hqEND := hterm hqne
          exact Or.inr ⟨hqEND, by rw [← hmq, hqEND]⟩
        · intro hqne X Y hXY
          have hqEND := hterm hqne
          obtain ⟨_, hearly2⟩ := hRL p s 0 X Y hRelMid (by omega) hcl hfuel
            (by rw [hp0]; simpa using hXY)
          simp only [List.drop_zero] at hearly2
          obtain ⟨_, htrE⟩ := hearly2 q evs r hflq
          have hps' : pendS (sRun s buffer).1 = [] := by
            have hm2 : (sRun s buffer).1.mstate = MState.END := by
              rw [← hmq, hqEND]
            simp [pendS, hm2]
          rw [hps']
          show normT (X ++ evs) = normT ((Y ++ (sRun s buffer).2) ++ [])
          rw [List.append_nil]
          exact htrE hqEND
    · -- both machines already in the terminal `End` state: no-op call
      have h0l : 0 < buffer.length := Nat.pos_of_ne_zero hempty
      have hstop := feedLoop_stop (2 * buffer.length + 1) p buffer
        buffer.length 0 p [] 0 h0l
        (stepByte_end_d p buffer buffer.length 0 _ hpEND)
      have hfeed : feed p buffer = (p, [], 0) := by
        rw [feed_eq p buffer (not_or.mpr ⟨hpne, hempty⟩),
          feed_two_succ buffer.length, hstop]
      have hruni : sRun s buffer = (s, []) :=
        sRun_inert s buffer (Or.inr (Or.inl hsEND))
      rw [hfeed, hruni]
      refine ⟨?_, ?_, ?_⟩
      · show p.mstate = s.mstate
        rw [hpEND, hsEND]
      · intro _
        exact Or.inr ⟨hpEND, hsEND⟩
      · intro _ X Y hXY
        have hps : pendS s = [] := by simp [pendS, hsEND]
        rw [hps] at hXY
        show normT (X ++ []) = normT ((Y ++ []) ++ pendS s)
        rw [hps]
        simpa using hXY

/-- `feed` calls after an error are all no-ops. -/
theorem feedAll_error : ∀ (chunks : List (List Nat)) (p : Parser),
    p.mstate = MState.ERROR → feedAll p chunks = (p, []) := by
  intro chunks
  induction chunks with
  | nil => intro p h; rfl
  | cons b rest ih =>
    intro p h
    show ((feedAll (feed p b).1 rest).1,
      (feed p b).2.1 ++ (feedAll (feed p b).1 rest).2) = (p, [])
    rw [feed_error p b h]
    dsimp only
    rw [ih p h]
    simp

/-- Concatenation of a chunk list, one step. -/
theorem join_cons_eq (b : List Nat) (L : List (List Nat)) :
    (b :: L).join = b ++ L.join := rfl

/-- Feeding any chunk sequence refines the reference run over the
concatenated bytes: final machine states agree, and while no error occurred
the call relation persists and the delivered trace tracks the reference
trace (with the reference machine's pending tail). -/
theorem refineChunks : ∀ (chunks : List (List Nat)) (p : Parser) (s : SState),
    CallRel p s → sClean s chunks.join = true →
    (feedAll p chunks).1.mstate = (sRun s chunks.join).1.mstate ∧
    ((feedAll p chunks).1.mstate ≠ MState.ERROR →
       CallRel (feedAll p chunks).1 (sRun s chunks.join).1) ∧
    ((feedAll p chunks).1.mstate ≠ MState.ERROR →
       ∀ X Y, normT X = normT (Y ++ pendS s) →
         normT (X ++ (feedAll p chunks).2) =
           normT ((Y ++ (sRun s chunks.join).2) ++
             pendS (sRun s chunks.join).1)) := by
  intro chunks
  induction chunks with
  | nil =>
    intro p s hRel hcl
    refine ⟨?_, fun _ => hRel, ?_⟩
    · show p.mstate = s.mstate
      rcases hRel with ⟨_, hcore, _, _⟩ | ⟨hp, hs⟩
      · exact hcore.2.1
      · rw [hp]
        exact hs.symm
    · intro _ X Y hXY
      show normT (X ++ []) = normT ((Y ++ []) ++ pendS s)
      simpa using hXY
  | cons b rest ih =>
    intro p s hRel hcl
    rw [join_cons_eq, sClean_append] at hcl
    obtain ⟨hcl1, hcl2⟩ := Bool.and_eq_true_iff.mp hcl
    obtain ⟨hm1, hRel1, htr1⟩ := refineCall p s b hRel hcl1
    have hP1 : (feedAll p (b :: rest)).1 = (feedAll (feed p b).1 rest).1 := rfl
    have hP2 : (feedAll p (b :: rest)).2 =
        (feed p b).2.1 ++ (feedAll (feed p b).1 rest).2 := rfl
    by_cases hqe : (feed p b).1.mstate = MState.ERROR
    · have hfeedrest : feedAll (feed p b).1 rest = ((feed p b).1, []) :=
        feedAll_error rest (feed p b).1 hqe
      have hsrest : sRun (sRun s b).1 rest.join = ((sRun s b).1, []) :=
        sRun_inert _ _ (Or.inl (by rw [← hm1]; exact hqe))
      have hS : sRun s (b :: rest).join =
          ((sRun s b).1, (sRun s b).2 ++ []) := by
        rw [join_cons_eq, sRun_append, hsrest]
      have hP1' : (feedAll p (b :: rest)).1 = (feed p b).1 := by
        rw [hP1, hfeedrest]
      refine ⟨?_, ?_, ?_⟩
      · rw [hP1', hS]
        exact hm1
      · intro hg
        rw [hP1'] at hg
        exact absurd hqe hg
      · intro hg
        rw [hP1'] at hg
        exact absurd hqe hg
    · have hRel2 := hRel1 hqe
      obtain ⟨ihm, ihRel, ihtr⟩ := ih (feed p b).1 (sRun s b).1 hRel2 hcl2
      have hS : sRun s (b :: rest).join =
          ((sRun (sRun s b).1 rest.join).1,
           (sRun s b).2 ++ (sRun (sRun s b).1 rest.join).2) := by
        rw [join_cons_eq, sRun_append]
      refine ⟨?_, ?_, ?_⟩
      · rw [hP1, hS]
        exact ihm
      · intro hg
        rw [hP1] at hg ⊢
        rw [hS]
        exact ihRel hg
      · intro hg X Y hXY
        rw [hP1] at hg
        rw [hP2, hS]
        have t1 := htr1 hqe X Y hXY
        have t2 := ihtr hg (X ++ (feed p b).2.1) (Y ++ (sRun s b).2) t1
        show normT (X ++ ((feed p b).2.1 ++ (feedAll (feed p b).1 rest).2)) =
          normT ((Y ++ ((sRun s b).2 ++ (sRun (sRun s b).1 rest.join).2)) ++
            pendS (sRun (sRun s b).1 rest.join).1)
        simpa [List.append_assoc] using t2

/-- C1 — Chunk-size independence of feed: for a valid multipart message
(one whose one-shot parse succeeds, and which is clean in the sense that no
header-field line is aborted by a CR after bytes of the name were read) and
any partition of its bytes into feed() calls on a parser configured with the
message's boundary, the chunked run ends in the successful terminal state
and its normalized delivered trace — the per-part concatenation of
`onPartData` bytes, the header field/value strings, and the
`onPartBegin`/`onPartEnd` sequence — is identical to that of feeding the
whole message in a single call. -/
theorem claim_C1 (tok msg : List Nat) (chunks : List (List Nat))
    (hjoin : chunks.join = msg)
    (hnonempty : ∀ c ∈ chunks, c ≠ [])
    (hclean : sClean (mkSState tok) msg = true)
    (hend : (feed (setBoundary tok) msg).1.mstate = MState.END) :
    (feedAll (setBoundary tok) chunks).1.mstate = MState.END ∧
    normT (feedAll (setBoundary tok) chunks).2 =
      normT (feed (setBoundary tok) msg).2.1 := by
  have hcrel : CallRel (setBoundary tok) (mkSState tok) :=
    Or.inl (relCall_init tok)
  have hpend0 : pendS (mkSState tok) = [] := by simp [pendS, mkSState]
  have hjj : ([msg] : List (List Nat)).join = msg := by simp
  -- the one-shot call, seen as the singleton chunking
  obtain ⟨m1, r1, t1⟩ := refineChunks [msg] (setBoundary tok) (mkSState tok)
    hcrel (by rw [hjj]; exact hclean)
  rw [hjj] at m1 r1 t1
  have m1' : (feed (setBoundary tok) msg).1.mstate =
      (sRun (mkSState tok) msg).1.mstate := m1
  have hsEnd : (sRun (mkSState tok) msg).1.mstate = MState.END := by
    rw [← m1']
    exact hend
  have hpendF : pendS (sRun (mkSState tok) msg).1 = [] := by
    simp [pendS, hsEnd]
  have hgOne : (feedAll (setBoundary tok) [msg]).1.mstate ≠ MState.ERROR := by
    show (feed (setBoundary tok) msg).1.mstate ≠ MState.ERROR
    rw [hend]
    decide
  have tr_one := t1 hgOne [] [] (by rw [hpend0]; simp)
  have tr_one' : normT (feed (setBoundary tok) msg).2.1 =
      normT (sRun (mkSState tok) msg).2 := by
    have h2 : (feedAll (setBoundary tok) [msg]).2 =
        (feed (setBoundary tok) msg).2.1 ++ [] := rfl
    rw [h2, hpendF] at tr_one
    simpa using tr_one
  -- the chunked run
  obtain ⟨m2, r2, t2⟩ := refineChunks chunks (setBoundary tok) (mkSState tok)
    hcrel (by rw [hjoin]; exact hclean)
  rw [hjoin] at m2 r2 t2
  have hmfin : (feedAll (setBoundary tok) chunks).1.mstate = MState.END :=
    m2.trans hsEnd
  refine ⟨hmfin, ?_⟩
  have hg2 : (feedAll (setBoundary tok) chunks).1.mstate ≠ MState.ERROR := by
    rw [hmfin]
    decide
  have tr_two := t2 hg2 [] [] (by rw [hpend0]; simp)
  rw [hpendF] at tr_two
  have tr_two' : normT (feedAll (setBoundary tok) chunks).2 =
      normT (sRun (mkSState tok) msg).2 := by
    simpa using tr_two
  rw [tr_two', tr_one']

/-- Witness for C1: a concrete two-part split of a one-part message, cut
inside the terminating boundary sequence, parses to `End` with the same
normalized trace as the one-shot call. -/
theorem claim_C1_witness :
    ([[45, 45, 98, 99, 13, 10, 97, 58, 32, 98, 13, 10, 13, 10, 104, 101, 108,
       108, 111, 13, 10, 45], [45, 98, 99, 45, 45]] :
      List (List Nat)).join =
      [45, 45, 98, 99, 13, 10, 97, 58, 32, 98, 13, 10, 13, 10, 104, 101, 108,
       108, 111, 13, 10, 45, 45, 98, 99, 45, 45] ∧
    (feedAll (setBoundary [98, 99])
        [[45, 45, 98, 99, 13, 10, 97, 58, 32, 98, 13, 10, 13, 10, 104, 101,
          108, 108, 111, 13, 10, 45], [45, 98, 99, 45, 45]]).1.mstate =
      MState.END ∧
    normT (feedAll (setBoundary [98, 99])
        [[45, 45, 98, 99, 13, 10, 97, 58, 32, 98, 13, 10, 13, 10, 104, 101,
          108, 108, 111, 13, 10, 45], [45, 98, 99, 45, 45]]).2 =
      normT (feed (setBoundary [98, 99])
        [45, 45, 98, 99, 13, 10, 97, 58, 32, 98, 13, 10, 13, 10, 104, 101,
         108, 108, 111, 13, 10, 45, 45, 98, 99, 45, 45]).2.1 := by
  refine ⟨by decide, ?_, ?_⟩
  · exact (claim_C1 [98, 99]
      [45, 45, 98, 99, 13, 10, 97, 58, 32, 98, 13, 10, 13, 10, 104, 101, 108,
       108, 111, 13, 10, 45, 45, 98, 99, 45, 45]
      [[45, 45, 98, 99, 13, 10, 97, 58, 32, 98, 13, 10, 13, 10, 104, 101, 108,
        108, 111, 13, 10, 45], [45, 98, 99, 45, 45]]
      (by decide) (by decide) (by decide) (by decide)).1
  · exact (claim_C1 [98, 99]
      [45, 45, 98, 99, 13, 10, 97, 58, 32, 98, 13, 10, 13, 10, 104, 101, 108,
       108, 111, 13, 10, 45, 45, 98, 99, 45, 45]
      [[45, 45, 98, 99, 13, 10, 97, 58, 32, 98, 13, 10, 13, 10, 104, 101, 108,
        108, 111, 13, 10, 45], [45, 98, 99, 45, 45]]
      (by decide) (by decide) (by decide) (by decide)).2

-- ### Reference run over a serialized message: per-phase lemmas

/-- Matching the body of the opening boundary line (`"--" ++ token`). -/
theorem sRun_sb_match : ∀ (u : List Nat) (t : SState),
    t.mstate = MState.START_BOUNDARY →
    t.index + u.length + 2 = t.boundary.length →
    (∀ j, j < u.length → byteAt u j = byteAt t.boundary (t.index + 2 + j)) →
    sRun t u = ({ t with index := t.index + u.length }, []) ∧
    sClean t u = true := by
  intro u
  induction u with
  | nil =>
    intro t hm hlen hmatch
    constructor
    · show (t, ([] : List MEvent)) = ({ t with index := t.index + 0 }, [])
      simp
    · rfl
  | cons c u' ih =>
    intro t hm hlen hmatch
    have hc : c = byteAt t.boundary (t.index + 2 + 0) := by
      have h0 := hmatch 0 (by simp)
      simpa [byteAt] using h0
    have h1 : ¬((t.index : Int) = (t.boundary.length : Int) - 2) := by
      simp only [List.length_cons] at hlen
      omega
    have h2 : ¬((t.index : Int) - 1 = (t.boundary.length : Int) - 2) := by
      simp only [List.length_cons] at hlen
      omega
    have h3 : ¬(c ≠ byteAt t.boundary (t.index + 2)) :=
      not_not_intro (by rw [hc])
    have hstep : sStep t c = ({ t with index := t.index + 1 }, [], false) := by
      rw [sStep_sb t c hm]
      unfold sStartBoundary
      rw [if_neg h1, if_neg h2, if_neg h3]
    have hcons : sConsume t c = ({ t with index := t.index + 1 }, []) := by
      rw [sConsume_no_stutter t c (by rw [hstep]), hstep]
    obtain ⟨ihrun, ihcl⟩ := ih { t with index := t.index + 1 } hm
      (by simp only [List.length_cons] at hlen; show t.index + 1 + u'.length + 2 = t.boundary.length; omega)
      (by
        intro j hj
        have h4 := hmatch (j + 1) (by simp only [List.length_cons]; omega)
        show byteAt u' j = byteAt t.boundary (t.index + 1 + 2 + j)
        rw [show t.index + 1 + 2 + j = t.index + 2 + (j + 1) by omega]
        simpa [byteAt] using h4)
    constructor
    · rw [sRun_cons, hcons]
      dsimp only
      rw [ihrun]
      have h5 : t.index + 1 + u'.length = t.index + (u'.length + 1) := by omega
      rw [h5]
      simp
    · rw [sClean_cons, hcons]
      dsimp only
      rw [ihcl]
      simp [sCleanStep, hm]

/-- The CRLF closing the opening boundary line: `partBegin` is emitted and
the machine enters the first part's headers. -/
theorem sRun_sb_crlf (t : SState) (hm : t.mstate = MState.START_BOUNDARY)
    (hidx : t.index + 2 = t.boundary.length) :
    sRun t [bCR, bLF] =
      ({ t with index := 0, mstate := MState.HEADER_FIELD_START },
       [MEvent.partBegin]) ∧
    sClean t [bCR, bLF] = true := by
  have h1 : (t.index : Int) = (t.boundary.length : Int) - 2 := by omega
  have hstep1 : sStep t bCR = ({ t with index := t.index + 1 }, [], false) := by
    rw [sStep_sb t bCR hm]
    unfold sStartBoundary
    rw [if_pos h1, if_neg (not_not_intro rfl)]
  have hcons1 : sConsume t bCR = ({ t with index := t.index + 1 }, []) := by
    rw [sConsume_no_stutter t bCR (by rw [hstep1]), hstep1]
  have h2 : ¬((t.index + 1 : Int) = (t.boundary.length : Int) - 2) := by omega
  have h3 : ((t.index + 1 : Int) - 1 = (t.boundary.length : Int) - 2) := by
    omega
  have hstep2 : sStep { t with index := t.index + 1 } bLF =
      ({ t with index := 0, mstate := MState.HEADER_FIELD_START },
       [MEvent.partBegin], false) := by
    rw [sStep_sb { t with index := t.index + 1 } bLF hm]
    unfold sStartBoundary
    rw [if_neg (by push_cast; omega), if_pos (by push_cast; omega),
      if_neg (not_not_intro rfl)]
  have hcons2 : sConsume { t with index := t.index + 1 } bLF =
      ({ t with index := 0, mstate := MState.HEADER_FIELD_START },
       [MEvent.partBegin]) := by
    rw [sConsume_no_stutter _ bLF (by rw [hstep2]), hstep2]
  constructor
  · rw [show ([bCR, bLF] : List Nat) = bCR :: [bLF] from rfl, sRun_cons, hcons1]
    dsimp only
    rw [sRun_cons, hcons2]
    simp [sRun]
  · rw [sClean_cons, hcons1]
    dsimp only
    rw [sClean_cons, hcons2]
    simp [sClean, sCleanStep, hm]

/-- Accumulating alphabetic header-name bytes. -/
theorem sRun_hf_name : ∀ (u : List Nat) (t : SState),
    t.mstate = MState.HEADER_FIELD →
    u.all (fun c => decide (97 ≤ lower c) && decide (lower c ≤ 122)) = true →
    sRun t u =
      ({ t with index := t.index + u.length, fieldAcc := t.fieldAcc ++ u },
       []) ∧
    sClean t u = true := by
  intro u
  induction u with
  | nil =>
    intro t hm hwf
    constructor
    · show (t, ([] : List MEvent)) = (_, [])
      simp
    · rfl
  | cons c u' ih =>
    intro t hm hwf
    simp only [List.all_cons, Bool.and_eq_true, decide_eq_true_eq] at hwf
    obtain ⟨⟨hlo, hhi⟩, hwf'⟩ := hwf
    have hcr : ¬(c = bCR) := fun he => absurd (he ▸ hlo) (by decide)
    have hhy : ¬(c = bHYPHEN) := fun he => absurd (he ▸ hlo) (by decide)
    have hco : ¬(c = bCOLON) := fun he => absurd (he ▸ hlo) (by decide)
    have hrange : ¬(lower c < 97 ∨ 122 < lower c) := by omega
    have hstep : sStep t c =
        ({ t with index := t.index + 1, fieldAcc := t.fieldAcc ++ [c] },
         [], false) := by
      rw [sStep_hf t c hm]
      unfold sHeaderField
      rw [if_neg hcr]
      dsimp only
      rw [if_neg hhy, if_neg hco, if_neg hrange]
    have hcons : sConsume t c =
        ({ t with index := t.index + 1, fieldAcc := t.fieldAcc ++ [c] },
         []) := by
      rw [sConsume_no_stutter t c (by rw [hstep]), hstep]
    obtain ⟨ihrun, ihcl⟩ := ih
      { t with index := t.index + 1, fieldAcc := t.fieldAcc ++ [c] } hm
      (by simpa using hwf')
    constructor
    · rw [sRun_cons, hcons]
      dsimp only
      rw [ihrun]
      have h5 : t.index + 1 + u'.length = t.index + (u'.length + 1) := by omega
      have h6 : (t.fieldAcc ++ [c]) ++ u' = t.fieldAcc ++ (c :: u') := by simp
      rw [h5, h6]
      simp
    · rw [sClean_cons, hcons]
      dsimp only
      rw [ihcl]
      simp [sCleanStep, hm, hcr]

/-- The colon ending a nonempty header name: the field is delivered. -/
theorem sConsume_hf_colon (t : SState) (hm : t.mstate = MState.HEADER_FIELD)
    (hx : 0 < t.index) :
    sConsume t bCOLON =
      ({ t with
           index := t.index + 1, fieldAcc := [],
           mstate := MState.HEADER_VALUE_START },
       evIf MEvent.headerField t.fieldAcc) ∧
    sCleanStep t bCOLON = true := by
  have hq1 : ¬(t.index + 1 = 1) := by omega
  have hstep : sStep t bCOLON =
      ({ t with
           index := t.index + 1, fieldAcc := [],
           mstate := MState.HEADER_VALUE_START },
       evIf MEvent.headerField t.fieldAcc, false) := by
    rw [sStep_hf t bCOLON hm]
    unfold sHeaderField
    rw [if_neg (by decide)]
    dsimp only
    rw [if_neg (by decide), if_pos rfl, if_neg hq1]
  constructor
  · rw [sConsume_no_stutter t bCOLON (by rw [hstep]), hstep]
  · simp [sCleanStep, hm]
    exact Or.inl (by decide)

/-- Accumulating CR-free header-value bytes. -/
theorem sRun_hv_bytes : ∀ (u : List Nat) (t : SState),
    t.mstate = MState.HEADER_VALUE →
    u.all (fun c => !(c == bCR)) = true →
    sRun t u = ({ t with valueAcc := t.valueAcc ++ u }, []) ∧
    sClean t u = true := by
  intro u
  induction u with
  | nil =>
    intro t hm hwf
    constructor
    · show (t, ([] : List MEvent)) = (_, [])
      simp
    · rfl
  | cons c u' ih =>
    intro t hm hwf
    simp only [List.all_cons, Bool.and_eq_true, bne_iff_ne, ne_eq,
      Bool.not_eq_true', beq_eq_false_iff_ne] at hwf
    obtain ⟨hcr, hwf'⟩ := hwf
    have hstep : sStep t c =
        ({ t with valueAcc := t.valueAcc ++ [c] }, [], false) := by
      rw [sStep_hv t c hm]
      unfold sHeaderValue
      rw [if_neg hcr]
    have hcons : sConsume t c =
        ({ t with valueAcc := t.valueAcc ++ [c] }, []) := by
      rw [sConsume_no_stutter t c (by rw [hstep]), hstep]
    obtain ⟨ihrun, ihcl⟩ := ih { t with valueAcc := t.valueAcc ++ [c] } hm
      (by simpa using hwf')
    constructor
    · rw [sRun_cons, hcons]
      dsimp only
      rw [ihrun]
      have h6 : (t.valueAcc ++ [c]) ++ u' = t.valueAcc ++ (c :: u') := by simp
      rw [h6]
      simp
    · rw [sClean_cons, hcons]
      dsimp only
      rw [ihcl]
      simp [sCleanStep, hm]

/-- The CRLF ending a header value: the value and the line end are
delivered. -/
theorem sRun_hv_crlf (t : SState) (hm : t.mstate = MState.HEADER_VALUE) :
    sRun t [bCR, bLF] =
      ({ t with valueAcc := [], mstate := MState.HEADER_FIELD_START },
       [MEvent.headerValue t.valueAcc, MEvent.headerEnd]) ∧
    sClean t [bCR, bLF] = true := by
  have hstep1 : sStep t bCR =
      ({ t with valueAcc := [], mstate := MState.HEADER_VALUE_ALMOST_DONE },
       [MEvent.headerValue t.valueAcc, MEvent.headerEnd], false) := by
    rw [sStep_hv t bCR hm]
    unfold sHeaderValue
    rw [if_pos rfl]
  have hcons1 : sConsume t bCR =
      ({ t with valueAcc := [], mstate := MState.HEADER_VALUE_ALMOST_DONE },
       [MEvent.headerValue t.valueAcc, MEvent.headerEnd]) := by
    rw [sConsume_no_stutter t bCR (by rw [hstep1]), hstep1]
  have hstep2 : sStep
      ({ t with valueAcc := [], mstate := MState.HEADER_VALUE_ALMOST_DONE })
      bLF =
      ({ t with valueAcc := [], mstate := MState.HEADER_FIELD_START },
       [], false) := by
    rw [sStep_hvad _ bLF rfl]
    rw [if_neg (not_not_intro rfl)]
  have hcons2 : sConsume
      ({ t with valueAcc := [], mstate := MState.HEADER_VALUE_ALMOST_DONE })
      bLF =
      ({ t with valueAcc := [], mstate := MState.HEADER_FIELD_START }, []) := by
    rw [sConsume_no_stutter _ bLF (by rw [hstep2]), hstep2]
  constructor
  · rw [show ([bCR, bLF] : List Nat) = bCR :: [bLF] from rfl, sRun_cons, hcons1]
    dsimp only
    rw [sRun_cons, hcons2]
    simp [sRun]
  · rw [sClean_cons, hcons1]
    dsimp only
    rw [sClean_cons, hcons2]
    simp [sClean, sCleanStep, hm]

/-- Sequencing helper: run a prefix with a known result, continue. -/
theorem sRun_seq (t : SState) (A B : List Nat) (t1 : SState)
    (e1 : List MEvent) (h1 : sRun t A = (t1, e1)) :
    sRun t (A ++ B) = ((sRun t1 B).1, e1 ++ (sRun t1 B).2) := by
  rw [sRun_append, h1]

/-- Sequencing helper for cleanness. -/
theorem sClean_seq (t : SState) (A B : List Nat) (t1 : SState)
    (e1 : List MEvent) (h1 : sRun t A = (t1, e1))
    (hc1 : sClean t A = true) (hc2 : sClean t1 B = true) :
    sClean t (A ++ B) = true := by
  rw [sClean_append, h1]
  simp [hc1, hc2]

/-- `HeaderFieldStart` defers to `HeaderField` with reset field state. -/
theorem sRun_hfs_bridge (t : SState) (hm : t.mstate = MState.HEADER_FIELD_START)
    (c : Nat) (l : List Nat) :
    sRun t (c :: l) =
      sRun { t with
               mstate := MState.HEADER_FIELD, fieldAcc := [], index := 0 }
        (c :: l) ∧
    sClean t (c :: l) =
      sClean { t with
                 mstate := MState.HEADER_FIELD, fieldAcc := [], index := 0 }
        (c :: l) := by
  have hstepEq : sStep t c =
      sStep { t with
                mstate := MState.HEADER_FIELD, fieldAcc := [], index := 0 } c := by
    rw [sStep_hfs t c hm, sStep_hf _ c rfl]
  have hconsEq := sConsume_congr t _ c hstepEq
  exact ⟨sRun_cons_eq t _ c l hconsEq,
    sClean_cons_congr t _ c l (by simp [sCleanStep, hm]) hconsEq⟩

/-- `HeaderValueStart` on a non-space byte defers to `HeaderValue` with a
fresh value accumulator. -/
theorem sRun_hvs_bridge (t : SState)
    (hm : t.mstate = MState.HEADER_VALUE_START) (c : Nat) (l : List Nat)
    (hc : ¬(c = bSPACE)) :
    sRun t (c :: l) =
      sRun { t with valueAcc := [], mstate := MState.HEADER_VALUE } (c :: l) ∧
    sClean t (c :: l) =
      sClean { t with valueAcc := [], mstate := MState.HEADER_VALUE }
        (c :: l) := by
  have hstepEq : sStep t c =
      sStep { t with valueAcc := [], mstate := MState.HEADER_VALUE } c := by
    rw [sStep_hvs t c hm, if_neg hc, sStep_hv _ c rfl]
  have hconsEq := sConsume_congr t _ c hstepEq
  exact ⟨sRun_cons_eq t _ c l hconsEq,
    sClean_cons_congr t _ c l (by simp [sCleanStep, hm]) hconsEq⟩

/-- `PartDataStart` defers to `PartData` with a fresh data accumulator. -/
theorem sRun_pds_bridge (t : SState)
    (hm : t.mstate = MState.PART_DATA_START) (c : Nat) (l : List Nat) :
    sRun t (c :: l) =
      sRun { t with mstate := MState.PART_DATA, dataAcc := [] } (c :: l) ∧
    sClean t (c :: l) =
      sClean { t with mstate := MState.PART_DATA, dataAcc := [] } (c :: l) := by
  have hstepEq : sStep t c =
      sStep { t with mstate := MState.PART_DATA, dataAcc := [] } c := by
    rw [sStep_pds t c hm, sStep_pd _ c rfl]
  have hconsEq := sConsume_congr t _ c hstepEq
  exact ⟨sRun_cons_eq t _ c l hconsEq,
    sClean_cons_congr t _ c l (by simp [sCleanStep, hm]) hconsEq⟩

/-- A serialized header value (CR- and space-free) followed by CRLF, from
`HeaderValueStart`. -/
theorem sRun_value (t : SState) (v : List Nat)
    (hm : t.mstate = MState.HEADER_VALUE_START)
    (hv : v.all (fun c => !(c == bCR) && !(c == bSPACE)) = true) :
    sRun t (v ++ [bCR, bLF]) =
      ({ t with valueAcc := [], mstate := MState.HEADER_FIELD_START },
       [MEvent.headerValue v, MEvent.headerEnd]) ∧
    sClean t (v ++ [bCR, bLF]) = true := by
  cases v with
  | nil =>
    obtain ⟨hbrR, hbrC⟩ := sRun_hvs_bridge t hm bCR [bLF] (by decide)
    obtain ⟨hr, hc⟩ := sRun_hv_crlf
      { t with valueAcc := [], mstate := MState.HEADER_VALUE } rfl
    constructor
    · simp only [List.nil_append]
      rw [hbrR, hr]
    · simp only [List.nil_append]
      rw [hbrC]
      exact hc
  | cons c0 v' =>
    have hsp : ¬(c0 = bSPACE) := by
      simp only [List.all_cons, Bool.and_eq_true, Bool.not_eq_true',
        beq_eq_false_iff_ne, ne_eq] at hv
      exact hv.1.2
    have hcrfree : (c0 :: v').all (fun c => !(c == bCR)) = true := by
      simp only [List.all_eq_true] at hv ⊢
      intro c hc
      exact (Bool.and_eq_true_iff.mp (hv c hc)).1
    obtain ⟨hbrR, hbrC⟩ := sRun_hvs_bridge t hm c0 (v' ++ [bCR, bLF]) hsp
    obtain ⟨hAr, hAc⟩ := sRun_hv_bytes (c0 :: v')
      { t with valueAcc := [], mstate := MState.HEADER_VALUE } rfl hcrfree
    obtain ⟨hBr, hBc⟩ := sRun_hv_crlf
      { t with valueAcc := [] ++ (c0 :: v'), mstate := MState.HEADER_VALUE } rfl
    constructor
    · rw [show ((c0 :: v') ++ [bCR, bLF] : List Nat) =
        c0 :: (v' ++ [bCR, bLF]) from rfl, hbrR,
        show (c0 :: (v' ++ [bCR, bLF]) : List Nat) =
        (c0 :: v') ++ [bCR, bLF] from rfl,
        sRun_seq _ _ _ _ _ hAr, hBr]
      simp
    · rw [show ((c0 :: v') ++ [bCR, bLF] : List Nat) =
        c0 :: (v' ++ [bCR, bLF]) from rfl, hbrC,
        show (c0 :: (v' ++ [bCR, bLF]) : List Nat) =
        (c0 :: v') ++ [bCR, bLF] from rfl]
      exact sClean_seq _ _ _ _ _ hAr hAc hBc

/-- One serialized header line from `HeaderFieldStart`: the name and the
value are each delivered exactly once. -/
theorem sRun_line (t : SState) (nv : List Nat × List Nat)
    (hm : t.mstate = MState.HEADER_FIELD_START)
    (hname : wfName nv.1 = true)
    (hval : nv.2.all (fun c => !(c == bCR) && !(c == bSPACE)) = true) :
    sRun t (serLine nv) =
      ({ t with
           fieldAcc := [], valueAcc := [], index := 0 + nv.1.length + 1,
           mstate := MState.HEADER_FIELD_START },
       lineEvs nv) ∧
    sClean t (serLine nv) = true := by
  unfold wfName at hname
  obtain ⟨hne, hletters⟩ := Bool.and_eq_true_iff.mp hname
  rcases hn : nv.1 with _ | ⟨n0, nrest⟩
  · rw [hn] at hne
    simp at hne
  have hnpos : 0 < nv.1.length := by rw [hn]; simp
  have hser : serLine nv = n0 :: (nrest ++ ([bCOLON] ++ (nv.2 ++ [bCR, bLF]))) := by
    simp [serLine, hn]
  have hgrp : (n0 :: (nrest ++ ([bCOLON] ++ (nv.2 ++ [bCR, bLF]))) : List Nat) =
      nv.1 ++ ([bCOLON] ++ (nv.2 ++ [bCR, bLF])) := by
    simp [hn]
  obtain ⟨hbrR, hbrC⟩ := sRun_hfs_bridge t hm n0
    (nrest ++ ([bCOLON] ++ (nv.2 ++ [bCR, bLF])))
  obtain ⟨hAr, hAc⟩ := sRun_hf_name nv.1
    { t with mstate := MState.HEADER_FIELD, fieldAcc := [], index := 0 }
    rfl hletters
  dsimp only at hAr
  obtain ⟨hBr, hBc⟩ := sConsume_hf_colon
    { t with
        mstate := MState.HEADER_FIELD, fieldAcc := [] ++ nv.1,
        index := 0 + nv.1.length }
    rfl (by simpa using hnpos)
  dsimp only at hBr
  obtain ⟨hWr, hWc⟩ := sRun_value
    { t with
        mstate := MState.HEADER_VALUE_START, fieldAcc := [],
        index := 0 + nv.1.length + 1 }
    nv.2 rfl hval
  dsimp only at hWr
  constructor
  · rw [hser, hbrR, hgrp, sRun_seq _ _ _ _ _ hAr,
      show ([bCOLON] ++ (nv.2 ++ [bCR, bLF]) : List Nat) =
        bCOLON :: (nv.2 ++ [bCR, bLF]) from rfl,
      sRun_cons, hBr]
    dsimp only
    rw [hWr]
    have hevf : evIf MEvent.headerField ([] ++ nv.1) =
        [MEvent.headerField nv.1] := by
      rw [hn]
      simp [evIf]
    rw [hevf]
    simp [lineEvs]
    rw [hn]
    simp
  · rw [hser, hbrC, hgrp]
    refine sClean_seq _ _ _ _ _ hAr hAc ?_
    rw [show ([bCOLON] ++ (nv.2 ++ [bCR, bLF]) : List Nat) =
      bCOLON :: (nv.2 ++ [bCR, bLF]) from rfl, sClean_cons, hBr]
    dsimp only
    rw [hWc]
    simp
    simpa using hBc

/-- All serialized header lines of a part, from `HeaderFieldStart`. -/
theorem sRun_lines : ∀ (hs : List (List Nat × List Nat)) (t : SState),
    t.mstate = MState.HEADER_FIELD_START → t.fieldAcc = [] →
    t.valueAcc = [] →
    hs.all (fun nv => wfName nv.1 &&
      nv.2.all (fun c => !(c == bCR) && !(c == bSPACE))) = true →
    ∃ ix, sRun t ((hs.map serLine).join) =
        ({ t with
             fieldAcc := [], valueAcc := [], index := ix,
             mstate := MState.HEADER_FIELD_START },
         (hs.map lineEvs).join) ∧
      sClean t ((hs.map serLine).join) = true := by
  intro hs
  induction hs with
  | nil =>
    intro t hm hfa hva hwf
    obtain ⟨b, lb, ms, fp, fl2, ix0, fa, va, da⟩ := t
    dsimp only at hm hfa hva
    subst hm hfa hva
    exact ⟨ix0, rfl, rfl⟩
  | cons nv hs' ih =>
    intro t hm hfa hva hwf
    obtain ⟨b, lb, ms, fp, fl2, ix0, fa, va, da⟩ := t
    dsimp only at hm hfa hva
    subst hm hfa hva
    simp only [List.all_cons, Bool.and_eq_true] at hwf
    obtain ⟨⟨hn1, hv1⟩, hrest⟩ := hwf
    obtain ⟨hLr, hLc⟩ := sRun_line
      ⟨b, lb, MState.HEADER_FIELD_START, fp, fl2, ix0, [], [], da⟩ nv rfl hn1 hv1
    dsimp only at hLr
    obtain ⟨ix', ihr, ihc⟩ := ih
      ⟨b, lb, MState.HEADER_FIELD_START, fp, fl2, 0 + nv.1.length + 1, [], [], da⟩
      rfl rfl rfl (by simpa using hrest)
    dsimp only at ihr
    refine ⟨ix', ?_, ?_⟩
    · show sRun _ (serLine nv ++ (hs'.map serLine).join) = _
      rw [sRun_seq _ _ _ _ _ hLr, ihr]
      rfl
    · show sClean _ (serLine nv ++ (hs'.map serLine).join) = true
      exact sClean_seq _ _ _ _ _ hLr hLc ihc

/-- The empty line ending the headers: `headersEnd` is delivered and the
machine enters the part data. -/
theorem sRun_hfs_crlf (t : SState)
    (hm : t.mstate = MState.HEADER_FIELD_START) :
    sRun t [bCR, bLF] =
      ({ t with
           fieldAcc := [], index := 0, mstate := MState.PART_DATA_START },
       [MEvent.headersEnd]) ∧
    sClean t [bCR, bLF] = true := by
  obtain ⟨hbrR, hbrC⟩ := sRun_hfs_bridge t hm bCR [bLF]
  have hstep1 : sStep
      { t with mstate := MState.HEADER_FIELD, fieldAcc := [], index := 0 }
      bCR =
      ({ t with
           fieldAcc := [], index := 0,
           mstate := MState.HEADERS_ALMOST_DONE }, [], false) := by
    rw [sStep_hf _ bCR rfl]
    unfold sHeaderField
    rw [if_pos rfl]
  have hcons1 : sConsume
      { t with mstate := MState.HEADER_FIELD, fieldAcc := [], index := 0 }
      bCR =
      ({ t with
           fieldAcc := [], index := 0,
           mstate := MState.HEADERS_ALMOST_DONE }, []) := by
    rw [sConsume_no_stutter _ bCR (by rw [hstep1]), hstep1]
  have hstep2 : sStep
      { t with
          fieldAcc := [], index := 0, mstate := MState.HEADERS_ALMOST_DONE }
      bLF =
      ({ t with
           fieldAcc := [], index := 0, mstate := MState.PART_DATA_START },
       [MEvent.headersEnd], false) := by
    rw [sStep_had _ bLF rfl]
    rw [if_neg (not_not_intro rfl)]
  have hcons2 : sConsume
      { t with
          fieldAcc := [], index := 0, mstate := MState.HEADERS_ALMOST_DONE }
      bLF =
      ({ t with
           fieldAcc := [], index := 0, mstate := MState.PART_DATA_START },
       [MEvent.headersEnd]) := by
    rw [sConsume_no_stutter _ bLF (by rw [hstep2]), hstep2]
  constructor
  · rw [hbrR, show ([bCR, bLF] : List Nat) = bCR :: [bLF] from rfl, sRun_cons,
      hcons1]
    dsimp only
    rw [sRun_cons, hcons2]
    simp [sRun]
  · rw [hbrC, show ([bCR, bLF] : List Nat) = bCR :: [bLF] from rfl,
      sClean_cons, hcons1]
    dsimp only
    rw [sClean_cons, hcons2]
    simp [sClean, sCleanStep]

/-- `byteAt` through a cons cell. -/
theorem byteAt_succ (a : Nat) (l : List Nat) (j : Nat) :
    byteAt (a :: l) (j + 1) = byteAt l j := by
  simp [byteAt]

/-- Part-data step on an ordinary data byte (no boundary-candidate opens,
since the byte differs from the boundary's first byte). -/
theorem sStep_pd_data (t : SState) (c : Nat)
    (hm : t.mstate = MState.PART_DATA) (hi : t.index = 0)
    (hbs : 0 < t.boundary.length)
    (hcne : ¬(byteAt t.boundary 0 = c)) :
    sStep t c =
      ({ t with index := 0, dataAcc := t.dataAcc ++ [c] }, [], false) := by
  have h : sStep t c = sPartData t c := by unfold sStep; rw [hm]
  rw [h]
  unfold sPartData sPpdMatch sPpdFinish
  rw [hi]
  simp only [if_pos hbs, if_neg hcne]
  simp

/-- Part-data step on a byte that extends a boundary match: the index
advances and the byte is captured in the lookbehind buffer. -/
theorem sStep_pd_mtch (t : SState) (c : Nat)
    (hm : t.mstate = MState.PART_DATA)
    (hlt : t.index < t.boundary.length)
    (hc : byteAt t.boundary t.index = c)
    (hlb : t.boundary.length + 1 ≤ t.lookbehind.length) :
    sStep t c =
      ({ t with
           index := t.index + 1,
           lookbehind := t.lookbehind.set t.index c }, [], false) := by
  have h : sStep t c = sPartData t c := by unfold sStep; rw [hm]
  rw [h]
  unfold sPartData sPpdMatch sPpdFinish
  simp only [if_pos hlt, if_pos hc]
  have h2 : ¬(t.lookbehind.length ≤ t.index) := by omega
  have h3 : ¬((t.index : Int) < 0) := by omega
  simp [h2, h3]

/-- Part-data step on the CR following a fully matched boundary: the
part-separator flag is set. -/
theorem sStep_pd_cr (t : SState)
    (hm : t.mstate = MState.PART_DATA) (hi : t.index = t.boundary.length)
    (hlb : t.boundary.length + 1 ≤ t.lookbehind.length) :
    sStep t bCR =
      ({ t with
           index := t.index + 1, flagPart := true,
           lookbehind := t.lookbehind.set t.boundary.length bCR },
       [], false) := by
  have h : sStep t bCR = sPartData t bCR := by unfold sStep; rw [hm]
  rw [h]
  unfold sPartData sPpdMatch sPpdFinish
  rw [hi]
  have h0 : ¬(t.boundary.length < t.boundary.length) := by omega
  have h2 : ¬(t.lookbehind.length ≤ t.boundary.length) := by omega
  have h3 : ¬((t.boundary.length : Int) < 0) := by omega
  simp [h0, h2, h3]

/-- Part-data step on the LF completing a part separator: part end and next
part begin are delivered, the machine returns to the header fields. -/
theorem sStep_pd_lf (t : SState)
    (hm : t.mstate = MState.PART_DATA)
    (hi : t.index = t.boundary.length + 1) (hfp : t.flagPart = true) :
    sStep t bLF =
      ({ t with
           index := 0, flagPart := false,
           mstate := MState.HEADER_FIELD_START, dataAcc := [] },
       evIf (MEvent.partData false) t.dataAcc ++
         [MEvent.partEnd, MEvent.partBegin],
       false) := by
  have h : sStep t bLF = sPartData t bLF := by unfold sStep; rw [hm]
  rw [h]
  unfold sPartData sPpdMatch
  rw [hi]
  have h0 : ¬(t.boundary.length + 1 < t.boundary.length) := by omega
  have h1 : ¬(t.boundary.length + 1 = t.boundary.length) := by omega
  have h2 : ((t.boundary.length + 1 : Nat) : Int) - 1 =
      (t.boundary.length : Int) := by omega
  simp [h0, h1, h2, hfp]

/-- Part-data step on the first HYPHEN after a fully matched boundary: the
last-part flag is set. -/
theorem sStep_pd_hy1 (t : SState)
    (hm : t.mstate = MState.PART_DATA) (hi : t.index = t.boundary.length)
    (hlb : t.boundary.length + 1 ≤ t.lookbehind.length) :
    sStep t bHYPHEN =
      ({ t with
           index := t.index + 1, flagLast := true,
           lookbehind := t.lookbehind.set t.boundary.length bHYPHEN },
       [], false) := by
  have h : sStep t bHYPHEN = sPartData t bHYPHEN := by unfold sStep; rw [hm]
  rw [h]
  unfold sPartData sPpdMatch sPpdFinish
  rw [hi]
  have h0 : ¬(t.boundary.length < t.boundary.length) := by omega
  have h2 : ¬(t.lookbehind.length ≤ t.boundary.length) := by omega
  have h3 : ¬((t.boundary.length : Int) < 0) := by omega
  have h6 : ¬(bHYPHEN = bCR) := by decide
  simp [h0, h2, h3, h6]

/-- Part-data step on the second HYPHEN of the terminator: final part end
and message end are delivered, the machine reaches `End`. -/
theorem sStep_pd_hy2 (t : SState)
    (hm : t.mstate = MState.PART_DATA)
    (hi : t.index = t.boundary.length + 1) (hfp : t.flagPart = false)
    (hfl : t.flagLast = true)
    (hlb : t.boundary.length + 1 ≤ t.lookbehind.length) :
    sStep t bHYPHEN =
      ({ t with
           mstate := MState.END, dataAcc := [],
           lookbehind := t.lookbehind.set t.boundary.length bHYPHEN },
       evIf (MEvent.partData false) t.dataAcc ++
         [MEvent.partEnd, MEvent.msgEnd],
       false) := by
  have h : sStep t bHYPHEN = sPartData t bHYPHEN := by unfold sStep; rw [hm]
  rw [h]
  unfold sPartData sPpdMatch sPpdFinish
  rw [hi]
  have h0 : ¬(t.boundary.length + 1 < t.boundary.length) := by omega
  have h1 : ¬(t.boundary.length + 1 = t.boundary.length) := by omega
  have h2 : ((t.boundary.length + 1 : Nat) : Int) - 1 =
      (t.boundary.length : Int) := by omega
  have h4 : ¬(t.lookbehind.length ≤ t.boundary.length) := by omega
  have h5 : ¬((t.boundary.length : Int) < 0) := by omega
  have h6 : ¬(bHYPHEN = bCR) := by decide
  simp [h0, h1, h2, hfp, hfl, h4, h5, h6]

/-- A CR-free run of data bytes accumulates into the data accumulator
(no boundary candidate can open, since the boundary starts with CR). -/
theorem sRun_pd_data : ∀ (u : List Nat) (t : SState),
    t.mstate = MState.PART_DATA → t.index = 0 →
    byteAt t.boundary 0 = bCR → 0 < t.boundary.length →
    u.all (fun c => !(c == bCR)) = true →
    sRun t u = ({ t with dataAcc := t.dataAcc ++ u }, []) ∧
    sClean t u = true := by
  intro u
  induction u with
  | nil =>
    intro t hm hi hb0 hbs hu
    refine ⟨?_, rfl⟩
    show (t, ([] : List MEvent)) = _
    simp
  | cons c rest ih =>
    intro t hm hi hb0 hbs hu
    obtain ⟨b, lb, ms, fp, fl2, ix0, fa, va, da⟩ := t
    dsimp only at hm hi hb0 hbs
    subst hm hi
    simp only [List.all_cons, Bool.and_eq_true] at hu
    obtain ⟨hc1, hurest⟩ := hu
    have hcne : ¬(byteAt b 0 = c) := by
      rw [hb0]
      intro h
      simp [h.symm] at hc1
    have hstep := sStep_pd_data
      ⟨b, lb, MState.PART_DATA, fp, fl2, 0, fa, va, da⟩ c rfl rfl hbs hcne
    dsimp only at hstep
    have hcons : sConsume
        ⟨b, lb, MState.PART_DATA, fp, fl2, 0, fa, va, da⟩ c =
        (⟨b, lb, MState.PART_DATA, fp, fl2, 0, fa, va, da ++ [c]⟩, []) := by
      rw [sConsume_no_stutter _ c (by rw [hstep]), hstep]
    obtain ⟨ihr, ihc⟩ := ih
      ⟨b, lb, MState.PART_DATA, fp, fl2, 0, fa, va, da ++ [c]⟩
      rfl rfl hb0 hbs hurest
    dsimp only at ihr
    refine ⟨?_, ?_⟩
    · rw [sRun_cons, hcons]
      dsimp only
      rw [ihr]
      simp
    · rw [sClean_cons, hcons]
      dsimp only
      rw [ihc]
      simp [sCleanStep]

/-- A byte run matching the boundary advances the match index, capturing the
bytes in the lookbehind buffer (whose length is preserved). -/
theorem sRun_pd_bnd : ∀ (u : List Nat) (t : SState),
    t.mstate = MState.PART_DATA →
    t.index + u.length ≤ t.boundary.length →
    (∀ j, j < u.length → byteAt u j = byteAt t.boundary (t.index + j)) →
    t.boundary.length + 1 ≤ t.lookbehind.length →
    ∃ lb2, sRun t u =
        ({ t with index := t.index + u.length, lookbehind := lb2 }, []) ∧
      lb2.length = t.lookbehind.length ∧
      sClean t u = true := by
  intro u
  induction u with
  | nil =>
    intro t hm hlen hmatch hlb
    refine ⟨t.lookbehind, ?_, rfl, rfl⟩
    show (t, ([] : List MEvent)) = _
    simp
  | cons c rest ih =>
    intro t hm hlen hmatch hlb
    obtain ⟨b, lb, ms, fp, fl2, ix0, fa, va, da⟩ := t
    dsimp only at hm hlen hmatch hlb
    subst hm
    have hlt : ix0 < b.length := by
      simp only [List.length_cons] at hlen
      omega
    have hc : byteAt b ix0 = c := by
      have h0 := hmatch 0 (by simp)
      rw [Nat.add_zero] at h0
      exact h0.symm
    have hstep := sStep_pd_mtch
      ⟨b, lb, MState.PART_DATA, fp, fl2, ix0, fa, va, da⟩ c rfl hlt hc hlb
    dsimp only at hstep
    have hcons : sConsume
        ⟨b, lb, MState.PART_DATA, fp, fl2, ix0, fa, va, da⟩ c =
        (⟨b, lb.set ix0 c, MState.PART_DATA, fp, fl2, ix0 + 1, fa, va, da⟩,
         []) := by
      rw [sConsume_no_stutter _ c (by rw [hstep]), hstep]
    obtain ⟨lb2, ihr, ihlen, ihc⟩ := ih
      ⟨b, lb.set ix0 c, MState.PART_DATA, fp, fl2, ix0 + 1, fa, va, da⟩
      rfl
      (by
        dsimp only
        simp only [List.length_cons] at hlen
        omega)
      (by
        intro j hj
        dsimp only
        have hjj := hmatch (j + 1) (by simpa using Nat.succ_lt_succ hj)
        rw [byteAt_succ] at hjj
        rw [hjj]
        congr 1
        omega)
      (by
        dsimp only
        rw [List.length_set]
        exact hlb)
    dsimp only at ihr
    refine ⟨lb2, ?_, ?_, ?_⟩
    · rw [sRun_cons, hcons]
      dsimp only
      rw [ihr]
      have harith : ix0 + 1 + rest.length = ix0 + (c :: rest).length := by
        simp only [List.length_cons]
        omega
      rw [harith]
      rfl
    · rw [ihlen]
      dsimp only
      rw [List.length_set]
    · rw [sClean_cons, hcons]
      dsimp only
      rw [ihc]
      simp [sCleanStep]

/-- CRLF after a fully matched boundary: the part separator.  The pending
data and the part end / next part begin are delivered; the machine returns
to the header fields with cleared flags and data. -/
theorem sRun_pd_sep (t : SState)
    (hm : t.mstate = MState.PART_DATA) (hi : t.index = t.boundary.length)
    (hlb : t.boundary.length + 1 ≤ t.lookbehind.length) :
    ∃ lb2, sRun t [bCR, bLF] =
        ({ t with
             index := 0, flagPart := false,
             mstate := MState.HEADER_FIELD_START, dataAcc := [],
             lookbehind := lb2 },
         evIf (MEvent.partData false) t.dataAcc ++
           [MEvent.partEnd, MEvent.partBegin]) ∧
      lb2.length = t.lookbehind.length ∧
      sClean t [bCR, bLF] = true := by
  obtain ⟨b, lb, ms, fp, fl2, ix0, fa, va, da⟩ := t
  dsimp only at hm hi hlb
  subst hm hi
  have hstep1 := sStep_pd_cr
    ⟨b, lb, MState.PART_DATA, fp, fl2, b.length, fa, va, da⟩ rfl rfl hlb
  dsimp only at hstep1
  have hcons1 : sConsume
      ⟨b, lb, MState.PART_DATA, fp, fl2, b.length, fa, va, da⟩ bCR =
      (⟨b, lb.set b.length bCR, MState.PART_DATA, true, fl2, b.length + 1,
        fa, va, da⟩, []) := by
    rw [sConsume_no_stutter _ bCR (by rw [hstep1]), hstep1]
  have hstep2 := sStep_pd_lf
    ⟨b, lb.set b.length bCR, MState.PART_DATA, true, fl2, b.length + 1,
     fa, va, da⟩ rfl rfl rfl
  dsimp only at hstep2
  have hcons2 : sConsume
      ⟨b, lb.set b.length bCR, MState.PART_DATA, true, fl2, b.length + 1,
       fa, va, da⟩ bLF =
      (⟨b, lb.set b.length bCR, MState.HEADER_FIELD_START, false, fl2, 0,
        fa, va, []⟩,
       evIf (MEvent.partData false) da ++
         [MEvent.partEnd, MEvent.partBegin]) := by
    rw [sConsume_no_stutter _ bLF (by rw [hstep2]), hstep2]
  refine ⟨lb.set b.length bCR, ?_, by rw [List.length_set], ?_⟩
  · rw [show ([bCR, bLF] : List Nat) = bCR :: [bLF] from rfl, sRun_cons,
      hcons1]
    dsimp only
    rw [sRun_cons, hcons2]
    simp [sRun]
  · rw [show ([bCR, bLF] : List Nat) = bCR :: [bLF] from rfl, sClean_cons,
      hcons1]
    dsimp only
    rw [sClean_cons, hcons2]
    simp [sClean, sCleanStep]

/-- HYPHEN HYPHEN after a fully matched boundary: the message terminator.
The pending data, the final part end and the message end are delivered and
the machine reaches `End`. -/
theorem sRun_pd_term (t : SState)
    (hm : t.mstate = MState.PART_DATA) (hi : t.index = t.boundary.length)
    (hfp : t.flagPart = false)
    (hlb : t.boundary.length + 1 ≤ t.lookbehind.length) :
    ∃ lb2, sRun t [bHYPHEN, bHYPHEN] =
        ({ t with
             index := t.boundary.length + 1, flagLast := true,
             mstate := MState.END, dataAcc := [], lookbehind := lb2 },
         evIf (MEvent.partData false) t.dataAcc ++
           [MEvent.partEnd, MEvent.msgEnd]) ∧
      lb2.length = t.lookbehind.length ∧
      sClean t [bHYPHEN, bHYPHEN] = true := by
  obtain ⟨b, lb, ms, fp, fl2, ix0, fa, va, da⟩ := t
  dsimp only at hm hi hfp hlb
  subst hm hi hfp
  have hstep1 := sStep_pd_hy1
    ⟨b, lb, MState.PART_DATA, false, fl2, b.length, fa, va, da⟩ rfl rfl hlb
  dsimp only at hstep1
  have hcons1 : sConsume
      ⟨b, lb, MState.PART_DATA, false, fl2, b.length, fa, va, da⟩ bHYPHEN =
      (⟨b, lb.set b.length bHYPHEN, MState.PART_DATA, false, true,
        b.length + 1, fa, va, da⟩, []) := by
    rw [sConsume_no_stutter _ bHYPHEN (by rw [hstep1]), hstep1]
  have hstep2 := sStep_pd_hy2
    ⟨b, lb.set b.length bHYPHEN, MState.PART_DATA, false, true,
     b.length + 1, fa, va, da⟩ rfl rfl rfl rfl
    (by dsimp only; rw [List.length_set]; exact hlb)
  dsimp only at hstep2
  have hcons2 : sConsume
      ⟨b, lb.set b.length bHYPHEN, MState.PART_DATA, false, true,
       b.length + 1, fa, va, da⟩ bHYPHEN =
      (⟨b, (lb.set b.length bHYPHEN).set b.length bHYPHEN, MState.END,
        false, true, b.length + 1, fa, va, []⟩,
       evIf (MEvent.partData false) da ++
         [MEvent.partEnd, MEvent.msgEnd]) := by
    rw [sConsume_no_stutter _ bHYPHEN (by rw [hstep2]), hstep2]
  refine ⟨(lb.set b.length bHYPHEN).set b.length bHYPHEN, ?_,
    by rw [List.length_set, List.length_set], ?_⟩
  · rw [show ([bHYPHEN, bHYPHEN] : List Nat) = bHYPHEN :: [bHYPHEN] from rfl,
      sRun_cons, hcons1]
    dsimp only
    rw [sRun_cons, hcons2]
    simp [sRun]
  · rw [show ([bHYPHEN, bHYPHEN] : List Nat) = bHYPHEN :: [bHYPHEN] from rfl,
      sClean_cons, hcons1]
    dsimp only
    rw [sClean_cons, hcons2]
    simp [sClean, sCleanStep]

/-- `PartDataStart` defers to `PartData` (list form). -/
theorem sRun_pds_bridge_ne (t : SState)
    (hm : t.mstate = MState.PART_DATA_START) (u : List Nat) (hne : u ≠ []) :
    sRun t u =
      sRun { t with mstate := MState.PART_DATA, dataAcc := [] } u ∧
    sClean t u =
      sClean { t with mstate := MState.PART_DATA, dataAcc := [] } u := by
  cases u with
  | nil => exact absurd rfl hne
  | cons c l => exact sRun_pds_bridge t hm c l

/-- `Start` zeroes the index and falls through to `StartBoundary`. -/
theorem sRun_start_bridge (t : SState) (hm : t.mstate = MState.START)
    (c : Nat) (l : List Nat) :
    sRun t (c :: l) =
      sRun { t with index := 0, mstate := MState.START_BOUNDARY } (c :: l) ∧
    sClean t (c :: l) =
      sClean { t with index := 0, mstate := MState.START_BOUNDARY }
        (c :: l) := by
  have hstepEq : sStep t c =
      sStep { t with index := 0, mstate := MState.START_BOUNDARY } c := by
    rw [sStep_start t c hm, sStep_sb _ c rfl]
  have hconsEq := sConsume_congr t _ c hstepEq
  exact ⟨sRun_cons_eq t _ c l hconsEq,
    sClean_cons_congr t _ c l (by simp [sCleanStep, hm]) hconsEq⟩

/-- One serialized part body followed by the next boundary proper
(`CRLF "--" token`), from the start of its header block: the headers and
`headersEnd` are delivered, the data accumulates, and the boundary is fully
matched. -/
theorem sRun_body (tok : List Nat) (pt : MPart) (t : SState)
    (hb : t.boundary = [bCR, bLF, bHYPHEN, bHYPHEN] ++ tok)
    (hm : t.mstate = MState.HEADER_FIELD_START)
    (hfa : t.fieldAcc = []) (hva : t.valueAcc = [])
    (hwf : wfPartB pt = true)
    (hlb : t.boundary.length + 1 ≤ t.lookbehind.length) :
    ∃ lb2, sRun t (serPart pt ++ ([bCR, bLF, bHYPHEN, bHYPHEN] ++ tok)) =
        ({ t with
             index := t.boundary.length, mstate := MState.PART_DATA,
             fieldAcc := [], valueAcc := [], dataAcc := pt.2,
             lookbehind := lb2 },
         (pt.1.map lineEvs).join ++ [MEvent.headersEnd]) ∧
      lb2.length = t.lookbehind.length ∧
      sClean t (serPart pt ++ ([bCR, bLF, bHYPHEN, bHYPHEN] ++ tok)) =
        true := by
  obtain ⟨hwf1, hwf2⟩ := Bool.and_eq_true_iff.mp hwf
  obtain ⟨b, lb, ms, fp, fl2, ix0, fa, va, da⟩ := t
  dsimp only at hb hm hfa hva hlb
  subst hb hm hfa hva
  -- headers
  obtain ⟨ix, h1r, h1c⟩ := sRun_lines pt.1
    ⟨[bCR, bLF, bHYPHEN, bHYPHEN] ++ tok, lb, MState.HEADER_FIELD_START,
     fp, fl2, ix0, [], [], da⟩ rfl rfl rfl hwf1
  dsimp only at h1r
  -- empty line
  obtain ⟨h2r, h2c⟩ := sRun_hfs_crlf
    ⟨[bCR, bLF, bHYPHEN, bHYPHEN] ++ tok, lb, MState.HEADER_FIELD_START,
     fp, fl2, ix, [], [], da⟩ rfl
  dsimp only at h2r
  -- bridge into part data
  obtain ⟨h3r, h3c⟩ := sRun_pds_bridge_ne
    ⟨[bCR, bLF, bHYPHEN, bHYPHEN] ++ tok, lb, MState.PART_DATA_START,
     fp, fl2, 0, [], [], da⟩ rfl
    (pt.2 ++ ([bCR, bLF, bHYPHEN, bHYPHEN] ++ tok))
    (by simp)
  dsimp only at h3r h3c
  -- the data bytes
  obtain ⟨h4r, h4c⟩ := sRun_pd_data pt.2
    ⟨[bCR, bLF, bHYPHEN, bHYPHEN] ++ tok, lb, MState.PART_DATA,
     fp, fl2, 0, [], [], []⟩ rfl rfl rfl (by simp) hwf2
  dsimp only at h4r
  -- the boundary proper
  obtain ⟨lb2, h5r, h5len, h5c⟩ := sRun_pd_bnd
    ([bCR, bLF, bHYPHEN, bHYPHEN] ++ tok)
    ⟨[bCR, bLF, bHYPHEN, bHYPHEN] ++ tok, lb, MState.PART_DATA,
     fp, fl2, 0, [], [], [] ++ pt.2⟩ rfl (by simp)
    (by
      intro j hj
      dsimp only
      rw [Nat.zero_add])
    (by
      dsimp only
      exact hlb)
  dsimp only at h5r h5len
  have hassoc : serPart pt ++ ([bCR, bLF, bHYPHEN, bHYPHEN] ++ tok) =
      (pt.1.map serLine).join ++ ([bCR, bLF] ++
        (pt.2 ++ ([bCR, bLF, bHYPHEN, bHYPHEN] ++ tok))) := by
    simp [serPart, List.append_assoc]
  refine ⟨lb2, ?_, by rw [h5len], ?_⟩
  · rw [hassoc, sRun_seq _ _ _ _ _ h1r, sRun_seq _ _ _ _ _ h2r, h3r,
      sRun_seq _ _ _ _ _ h4r, h5r]
    dsimp only
    simp
  · rw [hassoc]
    refine sClean_seq _ _ _ _ _ h1r h1c ?_
    refine sClean_seq _ _ _ _ _ h2r h2c ?_
    rw [h3c]
    exact sClean_seq _ _ _ _ _ h4r h4c h5c

/-- The serialized part bodies with separators and terminator, from the
start of the first part's header block: the machine delivers exactly the
expected events and reaches `End`. -/
theorem sRun_tail : ∀ (parts : List MPart) (tok : List Nat) (t : SState),
    t.boundary = [bCR, bLF, bHYPHEN, bHYPHEN] ++ tok →
    t.mstate = MState.HEADER_FIELD_START →
    t.fieldAcc = [] → t.valueAcc = [] → t.flagPart = false →
    t.boundary.length + 1 ≤ t.lookbehind.length →
    parts ≠ [] → parts.all wfPartB = true →
    ∃ t2, sRun t (serParts tok parts) = (t2, tailEvs parts) ∧
      t2.mstate = MState.END ∧
      sClean t (serParts tok parts) = true := by
  intro parts
  induction parts with
  | nil =>
    intro tok t _ _ _ _ _ _ hne _
    exact absurd rfl hne
  | cons pt rest ih =>
    intro tok t hb hm hfa hva hfp hlb hne hwf
    simp only [List.all_cons, Bool.and_eq_true] at hwf
    obtain ⟨hwpt, hwrest⟩ := hwf
    obtain ⟨lb2, hbr, hblen, hbc⟩ := sRun_body tok pt t hb hm hfa hva hwpt hlb
    cases rest with
    | nil =>
      obtain ⟨lb3, htr, htlen, htc⟩ := sRun_pd_term
        { t with
            index := t.boundary.length, mstate := MState.PART_DATA,
            fieldAcc := [], valueAcc := [], dataAcc := pt.2,
            lookbehind := lb2 }
        rfl rfl hfp (by dsimp only; rw [hblen]; exact hlb)
      dsimp only at htr
      refine ⟨⟨t.boundary, lb3, MState.END, t.flagPart, true,
        t.boundary.length + 1, [], [], []⟩, ?_, rfl, ?_⟩
      · show sRun t ((serPart pt ++ ([bCR, bLF, bHYPHEN, bHYPHEN] ++ tok)) ++
          [bHYPHEN, bHYPHEN]) = _
        rw [sRun_seq _ _ _ _ _ hbr, htr]
        dsimp only
        show _ = (_, tailEvs [pt])
        simp [tailEvs, partEvs]
      · show sClean t ((serPart pt ++ ([bCR, bLF, bHYPHEN, bHYPHEN] ++ tok)) ++
          [bHYPHEN, bHYPHEN]) = true
        exact sClean_seq _ _ _ _ _ hbr hbc htc
    | cons pt2 rest2 =>
      obtain ⟨lb3, hsr, hslen, hsc⟩ := sRun_pd_sep
        { t with
            index := t.boundary.length, mstate := MState.PART_DATA,
            fieldAcc := [], valueAcc := [], dataAcc := pt.2,
            lookbehind := lb2 }
        rfl rfl (by dsimp only; rw [hblen]; exact hlb)
      dsimp only at hsr
      obtain ⟨t2, hr, hEnd, hc⟩ := ih tok
        { { t with
              index := t.boundary.length, mstate := MState.PART_DATA,
              fieldAcc := [], valueAcc := [], dataAcc := pt.2,
              lookbehind := lb2 } with
            index := 0, flagPart := false,
            mstate := MState.HEADER_FIELD_START, dataAcc := [],
            lookbehind := lb3 }
        hb rfl rfl rfl rfl
        (by dsimp only; rw [hslen]; dsimp only; rw [hblen]; exact hlb)
        (by simp) hwrest
      have hassoc2 : serParts tok (pt :: pt2 :: rest2) =
          (serPart pt ++ ([bCR, bLF, bHYPHEN, bHYPHEN] ++ tok)) ++
            ([bCR, bLF] ++ serParts tok (pt2 :: rest2)) := by
        simp [serParts, List.append_assoc]
      refine ⟨t2, ?_, hEnd, ?_⟩
      · rw [hassoc2]
        rw [sRun_seq _ _ _ _ _ hbr, sRun_seq _ _ _ _ _ hsr, hr]
        dsimp only
        show _ = (_, tailEvs (pt :: pt2 :: rest2))
        simp [tailEvs, partEvs]
      · rw [hassoc2]
        refine sClean_seq _ _ _ _ _ hbr hbc ?_
        exact sClean_seq _ _ _ _ _ hsr hsc hc

/-- The reference machine consumes a whole serialized message, delivering
exactly the canonical per-part events, reaching `End`, cleanly. -/
theorem sRun_serMsg (tok : List Nat) (parts : List MPart)
    (hne : parts ≠ []) (hwf : parts.all wfPartB = true) :
    ∃ t2, sRun (mkSState tok) (serMsg tok parts) =
        (t2, MEvent.partBegin :: tailEvs parts) ∧
      t2.mstate = MState.END ∧
      sClean (mkSState tok) (serMsg tok parts) = true := by
  have hu : ([bHYPHEN, bHYPHEN] ++ tok) =
      bHYPHEN :: bHYPHEN :: tok := rfl
  -- bridge out of Start
  obtain ⟨hbrR, hbrC⟩ := sRun_start_bridge (mkSState tok) rfl bHYPHEN
    (bHYPHEN :: tok ++ ([bCR, bLF] ++ serParts tok parts))
  -- match the opening "--token"
  obtain ⟨h1r, h1c⟩ := sRun_sb_match ([bHYPHEN, bHYPHEN] ++ tok)
    { mkSState tok with index := 0, mstate := MState.START_BOUNDARY }
    rfl
    (by simp [mkSState])
    (by
      intro j hj
      show byteAt ([bHYPHEN, bHYPHEN] ++ tok) j =
        byteAt (mkSState tok).boundary (0 + 2 + j)
      have hbd : (mkSState tok).boundary =
          bCR :: bLF :: ([bHYPHEN, bHYPHEN] ++ tok) := by
        simp [mkSState]
      rw [hbd]
      have h2 : 0 + 2 + j = (j + 1) + 1 := by omega
      rw [h2, byteAt_succ, byteAt_succ])
  dsimp only at h1r
  -- the CRLF ending the opening boundary line
  obtain ⟨h2r, h2c⟩ := sRun_sb_crlf
    { mkSState tok with
        index := 0 + ([bHYPHEN, bHYPHEN] ++ tok).length,
        mstate := MState.START_BOUNDARY }
    rfl
    (by simp [mkSState])
  dsimp only at h2r
  -- the part bodies
  obtain ⟨t2, h3r, h3End, h3c⟩ := sRun_tail parts tok
    { mkSState tok with index := 0, mstate := MState.HEADER_FIELD_START }
    (by simp [mkSState]) rfl (by simp [mkSState]) (by simp [mkSState])
    (by simp [mkSState])
    (by simp [mkSState])
    hne hwf
  refine ⟨t2, ?_, h3End, ?_⟩
  · have hassoc : serMsg tok parts =
        ([bHYPHEN, bHYPHEN] ++ tok) ++ ([bCR, bLF] ++ serParts tok parts) := by
      simp [serMsg, List.append_assoc]
    rw [hassoc]
    show sRun (mkSState tok)
      ((bHYPHEN :: bHYPHEN :: tok) ++ ([bCR, bLF] ++ serParts tok parts)) = _
    rw [show (bHYPHEN :: bHYPHEN :: tok) ++ ([bCR, bLF] ++ serParts tok parts) =
      bHYPHEN :: (bHYPHEN :: tok ++ ([bCR, bLF] ++ serParts tok parts))
      from rfl]
    rw [hbrR]
    rw [show (bHYPHEN :: (bHYPHEN :: tok ++ ([bCR, bLF] ++ serParts tok parts))) =
      ([bHYPHEN, bHYPHEN] ++ tok) ++ ([bCR, bLF] ++ serParts tok parts)
      from rfl]
    rw [sRun_seq _ _ _ _ _ h1r, sRun_seq _ _ _ _ _ h2r, h3r]
    dsimp only
    simp
  · have hassoc : serMsg tok parts =
        ([bHYPHEN, bHYPHEN] ++ tok) ++ ([bCR, bLF] ++ serParts tok parts) := by
      simp [serMsg, List.append_assoc]
    rw [hassoc]
    show sClean (mkSState tok)
      (bHYPHEN :: (bHYPHEN :: tok ++ ([bCR, bLF] ++ serParts tok parts))) = true
    rw [hbrC]
    show sClean { mkSState tok with
        index := 0, mstate := MState.START_BOUNDARY }
      (([bHYPHEN, bHYPHEN] ++ tok) ++ ([bCR, bLF] ++ serParts tok parts)) = true
    refine sClean_seq _ _ _ _ _ h1r h1c ?_
    refine sClean_seq _ _ _ _ _ h2r h2c ?_
    exact h3c
